/-
Verification of gistvacuum.c (GiST index vacuum) against its
natural-language specification.

The definitions below are a shallow embedding of
src/backend/access/gist/gistvacuum.c: pages, the block sets, the WAL /
FSM / transaction-id services the code calls, and the functions
gistdeletepage, gistvacuumpage, gistvacuumscan,
gistvacuum_recycle_pages, gistbulkdelete and gistvacuumcleanup.
The embedding is sequential: concurrent sessions are out of the model,
matching the claims, which all speak about a single vacuum worker.
-/
import Mathlib

namespace GistVacuum

/-- A heap item pointer (ItemPointerData): block number and position.
For a tuple on an internal page, the block part is the downlink child
block number (ItemPointerGetBlockNumber of t_tid). -/
structure ItemPointer where
  block : Nat
  pos : Nat
deriving DecidableEq, Repr

/-- An index tuple: its t_tid and the legacy marker tested by
GistTupleIsInvalid. -/
structure IndexTuple where
  t_tid : ItemPointer
  isInvalid : Bool
deriving DecidableEq, Repr

/-- One GiST page.  The flags mirror the page header and the
GISTPageOpaque: PageIsNew (pd_upper == 0), F_DELETED, F_LEAF,
F_FOLLOW_RIGHT, F_TUPLES_DELETED; nsn is the split sequence number,
rightlink the sibling link, lsn the page LSN, deleteXid the bound
stored by GistPageSetDeleteXid.  Slots are the ordered line-pointer
array; offset numbers are 1-based. -/
structure GistPage where
  isNew : Bool
  isDeleted : Bool
  isLeaf : Bool
  followRight : Bool
  tuplesDeleted : Bool
  nsn : Nat
  rightlink : Nat
  lsn : Nat
  deleteXid : Nat
  tuples : List IndexTuple
deriving DecidableEq, Repr

def FirstOffsetNumber : Nat := 1

def InvalidOffsetNumber : Nat := 0

def InvalidBlockNumber : Nat := 4294967295

def GIST_ROOT_BLKNO : Nat := 0

def PageIsNew (p : GistPage) : Bool := p.isNew

def GistPageIsDeleted (p : GistPage) : Bool := p.isDeleted

def GistPageIsLeaf (p : GistPage) : Bool := p.isLeaf

def GistFollowRight (p : GistPage) : Bool := p.followRight

def GistPageGetNSN (p : GistPage) : Nat := p.nsn

def PageGetMaxOffsetNumber (p : GistPage) : Nat := p.tuples.length

/-- An all-zeroes page, as returned for a block outside the file. -/
def defaultPage : GistPage :=
  { isNew := true, isDeleted := false, isLeaf := false,
    followRight := false, tuplesDeleted := false, nsn := 0,
    rightlink := 0, lsn := 0, deleteXid := 0, tuples := [] }

def defaultTuple : IndexTuple := { t_tid := { block := 0, pos := 0 }, isInvalid := false }

/-- PageGetItem (PageGetItemId (page, off)): the tuple in slot `off`
(1-based).  An offset outside the line-pointer array reads garbage in
C; here it reads the default tuple, and every theorem that touches
this function restricts offsets to the valid range. -/
def PageGetTuple (p : GistPage) (off : Nat) : IndexTuple :=
  p.tuples.getD (off - 1) defaultTuple

/-- PageIndexTupleDelete: remove slot `off`, shifting higher slots
down by one. -/
def PageIndexTupleDelete (p : GistPage) (off : Nat) : GistPage :=
  { p with tuples := p.tuples.take (off - 1) ++ p.tuples.drop off }

/-- The offset-collection loop of gistvacuumpage (gistvacuum.c:358):
walk the slots from offset `off` upward and record the offsets whose
t_tid the callback marks dead. -/
def collectDeletable (cb : ItemPointer → Bool) (ts : List IndexTuple) (off : Nat) :
    List Nat :=
  match ts with
  | [] => []
  | t :: rest =>
    if cb t.t_tid then off :: collectDeletable cb rest (off + 1)
    else collectDeletable cb rest (off + 1)

/-- Helper for PageIndexMultiDelete: remove from `ts` (whose first
element sits at offset `off`) every slot whose offset is listed in
`offs`. -/
def removeOffsets (ts : List IndexTuple) (offs : List Nat) (off : Nat) :
    List IndexTuple :=
  match ts with
  | [] => []
  | t :: rest =>
    if off ∈ offs then removeOffsets rest offs (off + 1)
    else t :: removeOffsets rest offs (off + 1)

/-- PageIndexMultiDelete: one batched compaction removing the listed
(pre-compaction) offsets. -/
def PageIndexMultiDelete (p : GistPage) (offs : List Nat) : GistPage :=
  { p with tuples := removeOffsets p.tuples offs FirstOffsetNumber }

/-- GistMarkTuplesDeleted. -/
def GistMarkTuplesDeleted (p : GistPage) : GistPage :=
  { p with tuplesDeleted := true }

/-- lib/blockset: a sparse set of block numbers with ordered
iteration, modelled as an ascending duplicate-free list.  NULL (the
never-allocated set) is the empty list, matching blockset_free
returning the set to NULL and the quick-exit NULL test in
gistvacuum_recycle_pages. -/
abbrev BlockSet := List Nat

/-- blockset_get: membership, false on the NULL set. -/
def blockset_get (blkno : Nat) (bs : BlockSet) : Bool := bs.contains blkno

/-- blockset_set: insert, keeping the list ascending. -/
def blockset_set (bs : BlockSet) (blkno : Nat) : BlockSet :=
  match bs with
  | [] => [blkno]
  | b :: rest =>
    if blkno < b then blkno :: b :: rest
    else if blkno = b then b :: rest
    else b :: blockset_set rest blkno

/-- WAL records the vacuum can emit: gistXLogUpdate (one per leaf page
with deletions) and gistXLogPageDelete (one per two-phase unlink,
covering both pages). -/
inductive WalRecord where
  | update (blkno : Nat) (todelete : List Nat)
  | pageDelete (leafBlkno : Nat) (deleteXid : Nat) (parentBlkno : Nat)
      (downlink : Nat)
deriving DecidableEq, Repr

/-- The index file plus the external services touched by the vacuum:
the WAL (append position and emitted records), the fake-LSN counter
used when the relation is unlogged, the next assignable transaction id
(ReadNewTransactionId), the free-space map, and the count of
LOG-level corruption diagnostics emitted. -/
structure Machine where
  pages : List GistPage
  needsWal : Bool
  wal : List WalRecord
  insertPos : Nat
  fakeLsn : Nat
  nextXid : Nat
  fsmFreed : List Nat
  fsmVacuumed : Bool
  logMessages : Nat
deriving DecidableEq, Repr

/-- ReadBufferExtended + BufferGetPage for a block number. -/
def Machine.getPage (m : Machine) (blkno : Nat) : GistPage :=
  m.pages.getD blkno defaultPage

/-- Writing back a page through its buffer. -/
def Machine.setPage (m : Machine) (blkno : Nat) (p : GistPage) : Machine :=
  { m with pages := m.pages.set blkno p }

/-- GetInsertRecPtr. -/
def GetInsertRecPtr (m : Machine) : Nat := m.insertPos

/-- gistGetFakeLSN: the monotonically increasing placeholder position
used for unlogged relations. -/
def gistGetFakeLSN (m : Machine) : Nat × Machine :=
  (m.fakeLsn + 1, { m with fakeLsn := m.fakeLsn + 1 })

/-- Appending one WAL record; returns the record end position. -/
def appendWal (m : Machine) (r : WalRecord) : Nat × Machine :=
  (m.insertPos + 1,
   { m with wal := m.wal ++ [r], insertPos := m.insertPos + 1 })

/-- IndexBulkDeleteResult: the statistics fields this file uses. -/
structure IndexBulkDeleteResult where
  num_pages : Nat
  estimated_count : Bool
  num_index_tuples : Nat
  tuples_removed : Nat
  pages_deleted : Nat
  pages_free : Nat
deriving DecidableEq, Repr

/-- palloc0 of the stats struct. -/
def IndexBulkDeleteResult.zero : IndexBulkDeleteResult :=
  { num_pages := 0, estimated_count := false, num_index_tuples := 0,
    tuples_removed := 0, pages_deleted := 0, pages_free := 0 }

/-- GistBulkDeleteResult: the stats plus the two per-pass block sets. -/
structure GistBulkDeleteResult where
  stats : IndexBulkDeleteResult
  internalPagesMap : BlockSet
  emptyLeafPagesMap : BlockSet
deriving DecidableEq, Repr

/-- palloc0 of GistBulkDeleteResult: zero stats, both maps NULL. -/
def GistBulkDeleteResult.zero : GistBulkDeleteResult :=
  { stats := IndexBulkDeleteResult.zero, internalPagesMap := [],
    emptyLeafPagesMap := [] }

/-- IndexVacuumInfo: the fields gistvacuum.c reads (the relation
itself lives in Machine). -/
structure IndexVacuumInfo where
  analyze_only : Bool
  estimated_count : Bool
  num_heap_tuples : Nat
deriving DecidableEq, Repr

/-- gistvacuum.c:115, gistdeletepage: try to unlink the leaf at
`leafBlkno` from slot `downlink` of the internal page at
`parentBlkno`, marking the leaf deleted with bound `txid`.  Returns
whether the delete actually happened, with the updated machine and
stats.  The C code takes the two locked buffers and their page
pointers; block numbers identify them here (BufferGetBlockNumber of
the leaf buffer is `leafBlkno`). -/
def gistdeletepage (m : Machine) (s : GistBulkDeleteResult)
    (parentBlkno downlink leafBlkno txid : Nat) :
    Bool × Machine × GistBulkDeleteResult :=
  let page := m.getPage parentBlkno
  if PageIsNew page || GistPageIsDeleted page || GistPageIsLeaf page
      || decide (PageGetMaxOffsetNumber page < downlink)
      || decide (PageGetMaxOffsetNumber page ≤ FirstOffsetNumber) then
    (false, m, s)
  else
    -- check that the old downlink is still pointing to leafBuffer
    let idxtuple := PageGetTuple page downlink
    if leafBlkno ≠ idxtuple.t_tid.block then
      (false, m, s)
    else
      -- critical section: mark the leaf deleted, drop the downlink,
      -- write one combined WAL record, stamp both pages with its LSN
      let m := m.setPage leafBlkno
        { m.getPage leafBlkno with deleteXid := txid, isDeleted := true }
      let s := { s with stats :=
        { s.stats with pages_deleted := s.stats.pages_deleted + 1 } }
      let m := m.setPage parentBlkno
        (PageIndexTupleDelete (m.getPage parentBlkno) downlink)
      let rm :=
        if m.needsWal then
          appendWal m (WalRecord.pageDelete leafBlkno txid parentBlkno downlink)
        else gistGetFakeLSN m
      let recptr := rm.fst
      let m := rm.snd
      let m := m.setPage parentBlkno { m.getPage parentBlkno with lsn := recptr }
      let m := m.setPage leafBlkno { m.getPage leafBlkno with lsn := recptr }
      (true, m, s)

/-- Result of processing one page in gistvacuumpage: updated stats,
totFreePages, machine, and the block scheduled for a re-visit
(recurse_to; none stands for InvalidBlockNumber). -/
structure VisitResult where
  stats : GistBulkDeleteResult
  totFreePages : Nat
  m : Machine
  recurse_to : Option Nat
deriving Repr

/-- gistvacuum.c:289, the body of gistvacuumpage for one page (one
pass through the code between `restart` and the tail-recursion test).
`callback` is the deletion callback with its state, `startNSN` the
pass start position from GistVacState. -/
def gistvacuumpageOne (callback : Option (ItemPointer → Bool)) (startNSN : Nat)
    (s : GistBulkDeleteResult) (totFreePages : Nat) (m : Machine)
    (blkno orig_blkno : Nat) : VisitResult :=
  let page := m.getPage blkno
  if PageIsNew page || GistPageIsDeleted page then
    -- okay to recycle this page
    let m := { m with fsmFreed := m.fsmFreed ++ [blkno] }  -- RecordFreeIndexPage
    let s := { s with stats :=
      { s.stats with pages_deleted := s.stats.pages_deleted + 1 } }
    { stats := s, totFreePages := totFreePages + 1, m := m, recurse_to := none }
  else if GistPageIsLeaf page then
    let maxoff := PageGetMaxOffsetNumber page
    -- check whether we need to recurse back to an earlier page
    let recurse_to : Option Nat :=
      if (GistFollowRight page || decide (startNSN < GistPageGetNSN page))
          && decide (page.rightlink ≠ InvalidBlockNumber)
          && decide (page.rightlink < orig_blkno) then
        some page.rightlink
      else none
    -- scan over all items for ones to delete according to the callback
    let todelete : List Nat :=
      match callback with
      | some cb => collectDeletable cb page.tuples FirstOffsetNumber
      | none => []
    let ntodelete := todelete.length
    -- apply any needed deletes with a single WAL record for the page
    let sm : GistBulkDeleteResult × Machine :=
      if ntodelete > 0 then
        let page := GistMarkTuplesDeleted (PageIndexMultiDelete page todelete)
        let m := m.setPage blkno page
        let rm :=
          if m.needsWal then appendWal m (WalRecord.update blkno todelete)
          else gistGetFakeLSN m
        let m := rm.snd
        let m := m.setPage blkno { m.getPage blkno with lsn := rm.fst }
        ({ s with stats := { s.stats with
            tuples_removed := s.stats.tuples_removed + ntodelete } }, m)
      else (s, m)
    let s := sm.fst
    let m := sm.snd
    -- must recompute maxoff; nremain = maxoff - FirstOffsetNumber + 1
    let maxoff := PageGetMaxOffsetNumber (m.getPage blkno)
    let nremain := maxoff
    let s :=
      if nremain = 0 then
        { s with emptyLeafPagesMap := blockset_set s.emptyLeafPagesMap blkno }
      else
        { s with stats := { s.stats with
            num_index_tuples := s.stats.num_index_tuples + nremain } }
    { stats := s, totFreePages := totFreePages, m := m, recurse_to := recurse_to }
  else
    -- internal page: report legacy invalid tuples, record the block
    let maxoff := PageGetMaxOffsetNumber page
    let numInvalid :=
      ((List.range maxoff).filter
        (fun i => (PageGetTuple page (i + 1)).isInvalid)).length
    let m := { m with logMessages := m.logMessages + numInvalid }
    let s := { s with internalPagesMap := blockset_set s.internalPagesMap blkno }
    { stats := s, totFreePages := totFreePages, m := m, recurse_to := none }

/-- gistvacuum.c:289, gistvacuumpage with its hand-optimized
tail-recursion loop (`goto restart`).  The C loop is unbounded; `fuel`
bounds the number of restarts, and every whole-scan theorem below
holds under hypotheses that rule the restarts out, where any positive
fuel gives exactly the C behaviour. -/
def gistvacuumpage (callback : Option (ItemPointer → Bool)) (startNSN : Nat)
    (fuel : Nat) (s : GistBulkDeleteResult) (totFreePages : Nat) (m : Machine)
    (blkno orig_blkno : Nat) : GistBulkDeleteResult × Nat × Machine :=
  match fuel with
  | 0 => (s, totFreePages, m)
  | fuel + 1 =>
    let r := gistvacuumpageOne callback startNSN s totFreePages m blkno orig_blkno
    match r.recurse_to with
    | none => (r.stats, r.totFreePages, r.m)
    | some b => gistvacuumpage callback startNSN fuel r.stats r.totFreePages r.m b orig_blkno

/-- The outer/inner page loop of gistvacuumscan: visit each listed
block once through gistvacuumpage (the block is both blkno and
orig_blkno, as in the outer loop). -/
def vacuumScanLoop (callback : Option (ItemPointer → Bool))
    (startNSN fuel : Nat) (L : List Nat)
    (acc : GistBulkDeleteResult × Nat × Machine) :
    GistBulkDeleteResult × Nat × Machine :=
  L.foldl
    (fun acc blkno =>
      gistvacuumpage callback startNSN fuel acc.fst acc.snd.fst acc.snd.snd
        blkno blkno)
    acc

/-- gistvacuum.c:499, the staging loop of gistvacuum_recycle_pages:
walk the parent's slots (`ts` starts as the full slot list, `off` at
FirstOffsetNumber) and collect up to maxoff - 1 pairs of (child block,
slot offset) whose child block is in the empty-leaf set. -/
def stageChildren (emptyMap : BlockSet) (ts : List IndexTuple)
    (maxoff off : Nat) (acc : List (Nat × Nat)) : List (Nat × Nat) :=
  match ts with
  | [] => acc
  | t :: rest =>
    if acc.length < maxoff - 1 then
      let acc' :=
        if blockset_get t.t_tid.block emptyMap then
          acc ++ [(t.t_tid.block, off)]
        else acc
      stageChildren emptyMap rest maxoff (off + 1) acc'
    else acc

/-- gistvacuum.c:541, the deletion loop of gistvacuum_recycle_pages:
for each staged (child block, original offset) pair, re-check under a
fresh lock that the child is still a leaf, still empty and carries no
split the parent does not know of, then re-lock the parent and attempt
gistdeletepage with the offset corrected by the number of deletes
already applied.  (gistcheckpage, which aborts the whole command on a
structurally corrupt page, is a no-op here.) -/
def deleteStaged (parentBlkno txid : Nat) (staged : List (Nat × Nat))
    (deleted : Nat) (s : GistBulkDeleteResult) (m : Machine) :
    GistBulkDeleteResult × Machine :=
  match staged with
  | [] => (s, m)
  | (leafBlockNo, off) :: rest =>
    let leafPage := m.getPage leafBlockNo
    if GistPageIsLeaf leafPage
        && decide (PageGetMaxOffsetNumber leafPage = InvalidOffsetNumber)
        && !(GistFollowRight leafPage
             || decide (GistPageGetNSN (m.getPage parentBlkno) > GistPageGetNSN leafPage)) then
      let r := gistdeletepage m s parentBlkno (off - deleted) leafBlockNo txid
      let deleted := if r.fst then deleted + 1 else deleted
      deleteStaged parentBlkno txid rest deleted r.snd.snd r.snd.fst
    else
      deleteStaged parentBlkno txid rest deleted s m

/-- gistvacuum.c:472, the body of gistvacuum_recycle_pages for one
recorded internal block. -/
def recycleOnePage (s : GistBulkDeleteResult) (m : Machine) (blkno : Nat) :
    GistBulkDeleteResult × Machine :=
  let page := m.getPage blkno
  if PageIsNew page || GistPageIsDeleted page || GistPageIsLeaf page then
    -- this page was an internal page earlier, but now it is something else
    (s, m)
  else
    let maxoff := PageGetMaxOffsetNumber page
    let staged := stageChildren s.emptyLeafPagesMap page.tuples maxoff
      FirstOffsetNumber []
    -- the parent lock is released before any child lock is taken
    if staged.length ≠ 0 then
      let txid := m.nextXid  -- ReadNewTransactionId
      deleteStaged blkno txid staged 0 s m
    else (s, m)

/-- The blockset_next iteration of gistvacuum_recycle_pages over the
recorded internal blocks, in ascending order. -/
def recycleLoop (L : List Nat) (acc : GistBulkDeleteResult × Machine) :
    GistBulkDeleteResult × Machine :=
  L.foldl (fun acc blkno => recycleOnePage acc.fst acc.snd blkno) acc

/-- gistvacuum.c:456, gistvacuum_recycle_pages: quick NULL exit, then
rescan the recorded internal pages in ascending block order
(blockset_next iteration). -/
def gistvacuum_recycle_pages (s : GistBulkDeleteResult) (m : Machine) :
    GistBulkDeleteResult × Machine :=
  if s.emptyLeafPagesMap = [] then (s, m)
  else recycleLoop s.internalPagesMap (s, m)

/-- gistvacuum.c:179, gistvacuumscan.  Resets the per-pass counters,
records the pass start position, visits every page from
GIST_ROOT_BLKNO to the end of file in ascending order (the outer
relation-length recheck loop collapses to one round because the model
is sequential, so the length cannot grow mid-scan), vacuums the FSM if
any page was freed, runs the reclaim pass, frees the block sets and
fills in the final statistics. -/
def gistvacuumscan (info : IndexVacuumInfo) (s : GistBulkDeleteResult)
    (callback : Option (ItemPointer → Bool)) (m : Machine) :
    GistBulkDeleteResult × Machine :=
  -- reset counts that will be incremented during the scan
  let s := { s with stats := { s.stats with
    estimated_count := false, num_index_tuples := 0, pages_deleted := 0 } }
  let snm : Nat × Machine :=
    if m.needsWal then (GetInsertRecPtr m, m) else gistGetFakeLSN m
  let startNSN := snm.fst
  let m := snm.snd
  let num_pages := m.pages.length  -- RelationGetNumberOfBlocks
  let stm := vacuumScanLoop callback startNSN (num_pages + 1)
    (List.range num_pages) (s, 0, m)
  let s := stm.fst
  let totFreePages := stm.snd.fst
  let m := stm.snd.snd
  let m := if totFreePages > 0 then { m with fsmVacuumed := true } else m
  let rm := gistvacuum_recycle_pages s m
  let s := rm.fst
  let m := rm.snd
  -- blockset_free both maps
  let s := { s with emptyLeafPagesMap := [], internalPagesMap := [] }
  let s := { s with stats := { s.stats with
    num_pages := num_pages, pages_free := totFreePages } }
  (s, m)

/-- gistvacuum.c:57, gistbulkdelete: allocate the stats on first call,
else reuse them, and run the scan. -/
def gistbulkdelete (info : IndexVacuumInfo)
    (stats : Option GistBulkDeleteResult)
    (callback : Option (ItemPointer → Bool)) (m : Machine) :
    GistBulkDeleteResult × Machine :=
  let gist_stats := stats.getD GistBulkDeleteResult.zero
  gistvacuumscan info gist_stats callback m

/-- gistvacuum.c:75, gistvacuumcleanup: no-op in ANALYZE-only mode;
otherwise scan only if gistbulkdelete was not called, then clamp the
live-tuple estimate to the heap tuple count when that count is not
itself an estimate. -/
def gistvacuumcleanup (info : IndexVacuumInfo)
    (stats : Option GistBulkDeleteResult) (m : Machine) :
    Option GistBulkDeleteResult × Machine :=
  if info.analyze_only then (stats, m)
  else
    let gm : GistBulkDeleteResult × Machine :=
      match stats with
      | none => gistvacuumscan info GistBulkDeleteResult.zero none m
      | some gist_stats => (gist_stats, m)
    let gist_stats := gm.fst
    let m := gm.snd
    let gist_stats :=
      if !info.estimated_count then
        if decide (gist_stats.stats.num_index_tuples > info.num_heap_tuples) then
          { gist_stats with stats := { gist_stats.stats with
              num_index_tuples := info.num_heap_tuples } }
        else gist_stats
      else gist_stats
    (some gist_stats, m)

/-- The clamp applied by gistvacuumcleanup (gistvacuum.c:101):
disbelieve a live-tuple total exceeding the heap's count when the heap
count is not itself an estimate. -/
def cleanupClamp (info : IndexVacuumInfo) (g : GistBulkDeleteResult) :
    GistBulkDeleteResult :=
  if !info.estimated_count then
    if g.stats.num_index_tuples > info.num_heap_tuples then
      { g with stats := { g.stats with
          num_index_tuples := info.num_heap_tuples } }
    else g
  else g

/-- Per-page contribution to the count of tuples on leaf pages. -/
def leafContribution (p : GistPage) : Nat :=
  if p.isLeaf then p.tuples.length else 0

/-- Sum of leaf-page tuple counts over a page list. -/
def leafSum (ps : List GistPage) : Nat :=
  (ps.map leafContribution).sum

/-- Total number of index tuples sitting on leaf pages of the index;
used to express that tuples_removed counts each physically removed
leaf tuple exactly once. -/
def leafTupleCount (m : Machine) : Nat := leafSum m.pages

/-- The stats fields the scan never reads: the running tuples_removed
total and the end-of-scan num_pages / pages_free, stripped to zero;
used to express that the per-pass counters are recomputed from
scratch. -/
def scrubStats (s : GistBulkDeleteResult) : GistBulkDeleteResult :=
  { s with stats := { s.stats with
      tuples_removed := 0, num_pages := 0, pages_free := 0 } }

/-- Reattach the stripped fields onto a result computed from scrubbed
stats: tuples_removed accumulates on top of the base, the other two
carry over from the base. -/
def restoreStats (r base : GistBulkDeleteResult) : GistBulkDeleteResult :=
  { r with stats := { r.stats with
      tuples_removed := base.stats.tuples_removed + r.stats.tuples_removed,
      num_pages := base.stats.num_pages,
      pages_free := base.stats.pages_free } }

/-- Sum of a per-page weight over the index file. -/
def pageSum (f : GistPage → Nat) (m : Machine) : Nat :=
  (m.pages.map f).sum

/-- Number of pages the scan counts as immediately recyclable: new or
deleted. -/
def deletedCount (m : Machine) : Nat :=
  pageSum (fun p => if p.isNew || p.isDeleted then 1 else 0) m

/-- How many downlinks across all non-leaf pages point at block
`blk`.  A well-formed tree has at most one for every block. -/
def downlinkCount (m : Machine) (blk : Nat) : Nat :=
  pageSum (fun p => if p.isLeaf then 0
    else p.tuples.countP (fun u => u.t_tid.block = blk)) m

/-- What one scan pass leaves of a leaf page's tuple list. -/
def scanTuples (cb : Option (ItemPointer → Bool)) (ts : List IndexTuple) :
    List IndexTuple :=
  match cb with
  | some f => ts.filter (fun u => !f u.t_tid)
  | none => ts

/-- The subsequence of (child block, slot offset) pairs of a parent's
slot list whose child block lies in the empty-leaf set; the staging
loop collects a prefix of it. -/
def emptyChildren (emptyMap : BlockSet) (ts : List IndexTuple) (off : Nat) :
    List (Nat × Nat) :=
  match ts with
  | [] => []
  | t :: rest =>
    if blockset_get t.t_tid.block emptyMap then
      (t.t_tid.block, off) :: emptyChildren emptyMap rest (off + 1)
    else emptyChildren emptyMap rest (off + 1)

/-- No page of the index carries the mid-split marker. -/
def NoFollowRight (m : Machine) : Prop :=
  ∀ p ∈ m.pages, p.followRight = false

/-- Every page's split sequence number is at or below `bound`:
nothing was split after the WAL position `bound` was taken. -/
def NsnBound (m : Machine) (bound : Nat) : Prop :=
  ∀ p ∈ m.pages, p.nsn ≤ bound

/-- The scan's first classification: a page it can record as
immediately recyclable (uninitialized or already unlinked). -/
def deadOrNewPage (p : GistPage) : Bool := p.isNew || p.isDeleted

/-- A reachable leaf page. -/
def liveLeaf (p : GistPage) : Bool := !(p.isNew || p.isDeleted) && p.isLeaf

/-- A reachable internal page. -/
def liveInternal (p : GistPage) : Bool := !(p.isNew || p.isDeleted) && !p.isLeaf

/-- A reachable leaf page holding no tuples: what the scan records in
the empty-leaf set. -/
def liveEmptyLeaf (p : GistPage) : Bool :=
  liveLeaf p && decide (p.tuples.length = 0)

/-- The canonical empty-leaf set of a machine: every block whose page
is currently a live empty leaf. -/
def liveEmptyBlocks (m : Machine) : BlockSet :=
  (List.range m.pages.length).filter (fun b => liveEmptyLeaf (m.getPage b))

/-- Number of slots one visit of the scan removes from page `p`. -/
def visitRemoved (cb : Option (ItemPointer → Bool)) (p : GistPage) : Nat :=
  if liveLeaf p then
    match cb with
    | some f => p.tuples.countP (fun u => f u.t_tid)
    | none => 0
  else 0

/-- Two machines with the same index file contents: same number of
blocks and the same page under every block number. -/
def SamePages (m m' : Machine) : Prop :=
  m.pages.length = m'.pages.length ∧ ∀ b, m.getPage b = m'.getPage b

/-- The re-verification gistvacuum_recycle_pages runs on a staged
child before attempting the unlink (gistvacuum.c:546). -/
def recheckPass (m : Machine) (parentBlkno blk : Nat) : Bool :=
  GistPageIsLeaf (m.getPage blk)
  && decide (PageGetMaxOffsetNumber (m.getPage blk) = InvalidOffsetNumber)
  && !(GistFollowRight (m.getPage blk)
       || decide (GistPageGetNSN (m.getPage parentBlkno) >
            GistPageGetNSN (m.getPage blk)))

/-- An internal block on which a further reclaim pass can make no
progress: every child the staging loop would now collect fails the
recheck. -/
def RecycleStable (m : Machine) (b : Nat) : Prop :=
  ∀ pr ∈ stageChildren (liveEmptyBlocks m) ((m.getPage b).tuples)
      (PageGetMaxOffsetNumber (m.getPage b)) FirstOffsetNumber [],
    recheckPass m b pr.fst = false

/-- A machine on which a further reclaim pass can delete nothing:
every live internal page is reclaim-stable. -/
def RecycleStableAll (m : Machine) : Prop :=
  ∀ b, liveInternal (m.getPage b) = true → RecycleStable m b

/-- `p` is `q` after the two-phase unlink marked it deleted: only the
deleted flag, the bounding xid and the page LSN differ. -/
def DeletedFrom (p q : GistPage) : Prop :=
  ∃ x l, p = { q with isDeleted := true, deleteXid := x, lsn := l }

/-- Structural well-formedness of the tree: no block is referenced by
two downlinks. -/
def UniqueDownlinks (m : Machine) : Prop :=
  ∀ blk, downlinkCount m blk ≤ 1

/-- The children of internal block `b` the reclaim pass unlinks,
computed statically from the post-scan machine `msc` and the recorded
empty-leaf set `em`: the staged prefix (capped one below the slot
count) of `b`'s children lying in `em`, restricted to those surviving
the NSN recheck. -/
def passedBlocks (msc : Machine) (em : BlockSet) (b : Nat) : List Nat :=
  ((((msc.getPage b).tuples.map (fun u => u.t_tid.block)).filter
      (fun c => blockset_get c em)).take
    (PageGetMaxOffsetNumber (msc.getPage b) - 1)).filter
    (fun c => decide ((msc.getPage b).nsn ≤ (msc.getPage c).nsn))

/-- Equality of bulk-delete results in every field except the
pages_deleted counter. -/
def OnlyPd (s s' : GistBulkDeleteResult) : Prop :=
  s'.stats.num_pages = s.stats.num_pages ∧
  s'.stats.estimated_count = s.stats.estimated_count ∧
  s'.stats.num_index_tuples = s.stats.num_index_tuples ∧
  s'.stats.tuples_removed = s.stats.tuples_removed ∧
  s'.stats.pages_free = s.stats.pages_free ∧
  s'.internalPagesMap = s.internalPagesMap ∧
  s'.emptyLeafPagesMap = s.emptyLeafPagesMap

/-- Invariant of the reclaim loop relative to the post-scan machine
`msc`, the recorded empty-leaf set `em`, the stats at loop entry `s0`
and the processed internal blocks `Q`: the WAL only advances, every
processed internal page has exactly its passed children unlinked,
every other page is either untouched or a freshly unlinked empty leaf
of a processed parent, pages_deleted moves in lockstep with the number
of dead pages, and no other statistics field moves. -/
def RecInv (msc : Machine) (em : BlockSet) (s0 : GistBulkDeleteResult)
    (Q : List Nat) (s : GistBulkDeleteResult) (m : Machine) : Prop :=
  (m.pages.length = msc.pages.length) ∧
  (m.needsWal = msc.needsWal) ∧
  (m.nextXid = msc.nextXid) ∧
  (msc.insertPos ≤ m.insertPos) ∧
  (∀ x, (m.getPage x = msc.getPage x) ∨
    (x ∈ Q ∧ liveInternal (msc.getPage x) = true) ∨
    (liveEmptyLeaf (msc.getPage x) = true ∧
      DeletedFrom (m.getPage x) (msc.getPage x) ∧
      ∃ q, q ∈ Q ∧ liveInternal (msc.getPage q) = true ∧
        x ∈ (msc.getPage q).tuples.map (fun u => u.t_tid.block) ∧
        x ∈ passedBlocks msc em q)) ∧
  (∀ x, x ∈ Q → liveInternal (msc.getPage x) = true →
    (m.getPage x).isNew = false ∧ (m.getPage x).isDeleted = false ∧
    (m.getPage x).isLeaf = false ∧
    (m.getPage x).followRight = (msc.getPage x).followRight ∧
    (m.getPage x).nsn = (msc.getPage x).nsn ∧
    (m.getPage x).tuples.map (fun u => u.t_tid.block) =
      ((msc.getPage x).tuples.map (fun u => u.t_tid.block)).filter
        (fun c => decide (c ∉ passedBlocks msc em x))) ∧
  (s.stats.pages_deleted + deletedCount msc =
    s0.stats.pages_deleted + deletedCount m) ∧
  OnlyPd s0 s

/-! ### Concrete fixtures used by the closed instances below -/

/-- An internal page with two downlinks, to blocks 1 and 2. -/
def rootPage : GistPage :=
  { isNew := false, isDeleted := false, isLeaf := false, followRight := false,
    tuplesDeleted := false, nsn := 0, rightlink := InvalidBlockNumber, lsn := 0,
    deleteXid := 0,
    tuples := [{ t_tid := { block := 1, pos := 0 }, isInvalid := false },
               { t_tid := { block := 2, pos := 0 }, isInvalid := false }] }

/-- An empty leaf page whose followRight flag is set, right-linked to
block 2. -/
def midSplitLeafPage : GistPage :=
  { isNew := false, isDeleted := false, isLeaf := true, followRight := true,
    tuplesDeleted := false, nsn := 0, rightlink := 2, lsn := 0, deleteXid := 0,
    tuples := [] }

/-- A live leaf page with two tuples pointing at heap blocks 100 and
101. -/
def liveLeafPage : GistPage :=
  { isNew := false, isDeleted := false, isLeaf := true, followRight := false,
    tuplesDeleted := false, nsn := 0, rightlink := InvalidBlockNumber, lsn := 0,
    deleteXid := 0,
    tuples := [{ t_tid := { block := 100, pos := 1 }, isInvalid := false },
               { t_tid := { block := 101, pos := 2 }, isInvalid := false }] }

/-- An empty leaf page with no split activity. -/
def emptyLeafPage : GistPage :=
  { isNew := false, isDeleted := false, isLeaf := true, followRight := false,
    tuplesDeleted := false, nsn := 0, rightlink := InvalidBlockNumber, lsn := 0,
    deleteXid := 0, tuples := [] }

/-- A machine with a WAL-logged three-page index: internal root,
a mid-split empty leaf, a live leaf. -/
def sampleMachine : Machine :=
  { pages := [rootPage, midSplitLeafPage, liveLeafPage], needsWal := true,
    wal := [], insertPos := 10, fakeLsn := 0, nextXid := 7, fsmFreed := [],
    fsmVacuumed := false, logMessages := 0 }

/-- The internal page of rootPage but with split-sequence-number 2. -/
def nsn2RootPage : GistPage := { rootPage with nsn := 2 }

/-- A machine whose parent (block 0) carries NSN 2 while its empty
child leaf (block 1) carries NSN 0. -/
def c4Machine : Machine :=
  { sampleMachine with pages := [nsn2RootPage, emptyLeafPage, liveLeafPage] }

/-- A machine ready for the reclaim pass: internal root at block 0,
an empty unsplit child leaf at block 1, a live leaf at block 2. -/
def recycleMachine : Machine :=
  { sampleMachine with pages := [rootPage, emptyLeafPage, liveLeafPage] }

/-! ### Helper lemmas about the machine -/

theorem Machine.getPage_setPage_self (m : Machine) (blkno : Nat) (p : GistPage)
    (h : blkno < m.pages.length) : (m.setPage blkno p).getPage blkno = p := by
  simp [Machine.getPage, Machine.setPage, List.getD, List.getElem?_set_self', h]

theorem Machine.getPage_setPage_ne (m : Machine) (b b' : Nat) (p : GistPage)
    (h : b ≠ b') : (m.setPage b p).getPage b' = m.getPage b' := by
  simp [Machine.getPage, Machine.setPage, List.getD, List.getElem?_set_ne h]

theorem Machine.setPage_pages_length (m : Machine) (b : Nat) (p : GistPage) :
    ((m.setPage b p).pages).length = m.pages.length := by
  simp [Machine.setPage]

theorem appendWal_getPage (m : Machine) (r : WalRecord) (b : Nat) :
    (appendWal m r).snd.getPage b = m.getPage b := rfl

theorem appendWal_pages_length (m : Machine) (r : WalRecord) :
    ((appendWal m r).snd.pages).length = m.pages.length := rfl

theorem gistGetFakeLSN_getPage (m : Machine) (b : Nat) :
    (gistGetFakeLSN m).snd.getPage b = m.getPage b := rfl

theorem gistGetFakeLSN_pages_length (m : Machine) :
    ((gistGetFakeLSN m).snd.pages).length = m.pages.length := rfl

theorem getPage_lt_length_of_not_new (m : Machine) (b : Nat)
    (h : PageIsNew (m.getPage b) = false) : b < m.pages.length := by
  by_contra hb
  have hd : m.getPage b = defaultPage := by
    simp only [Machine.getPage]
    rw [List.getD_eq_default]
    omega
  rw [hd] at h
  simp [PageIsNew, defaultPage] at h

/-! ### Helper lemmas about gistdeletepage -/

theorem gistdeletepage_noop (m : Machine) (s : GistBulkDeleteResult)
    (p d l t : Nat)
    (h : PageIsNew (m.getPage p) = true ∨ GistPageIsDeleted (m.getPage p) = true ∨
      GistPageIsLeaf (m.getPage p) = true ∨
      PageGetMaxOffsetNumber (m.getPage p) < d ∨
      PageGetMaxOffsetNumber (m.getPage p) ≤ FirstOffsetNumber ∨
      (PageGetTuple (m.getPage p) d).t_tid.block ≠ l) :
    gistdeletepage m s p d l t = (false, m, s) := by
  simp only [gistdeletepage]
  rcases h with h | h | h | h | h | h
  · simp [h]
  · simp [h]
  · simp [h]
  · simp [h]
  · simp [h]
  · split
    · rfl
    · rw [if_pos (Ne.symm h)]

theorem gistdeletepage_success (m : Machine) (s : GistBulkDeleteResult)
    (p d l t : Nat)
    (h1 : PageIsNew (m.getPage p) = false)
    (h2 : GistPageIsDeleted (m.getPage p) = false)
    (h3 : GistPageIsLeaf (m.getPage p) = false)
    (h4 : d ≤ PageGetMaxOffsetNumber (m.getPage p))
    (h5 : FirstOffsetNumber < PageGetMaxOffsetNumber (m.getPage p))
    (h6 : (PageGetTuple (m.getPage p) d).t_tid.block = l) :
    gistdeletepage m s p d l t =
      (true,
       (let m1 := m.setPage l
          { m.getPage l with deleteXid := t, isDeleted := true }
        let m2 := m1.setPage p (PageIndexTupleDelete (m1.getPage p) d)
        let rm :=
          if m2.needsWal then appendWal m2 (WalRecord.pageDelete l t p d)
          else gistGetFakeLSN m2
        let m4 := rm.snd.setPage p { rm.snd.getPage p with lsn := rm.fst }
        m4.setPage l { m4.getPage l with lsn := rm.fst }),
       { s with stats :=
          { s.stats with pages_deleted := s.stats.pages_deleted + 1 } }) := by
  simp only [gistdeletepage]
  rw [h1, h2, h3]
  have h4' : ¬ (PageGetMaxOffsetNumber (m.getPage p) < d) := Nat.not_lt.mpr h4
  have h5' : ¬ (PageGetMaxOffsetNumber (m.getPage p) ≤ FirstOffsetNumber) :=
    Nat.not_le.mpr h5
  simp [h4', h5', h6]

theorem gistdeletepage_success_getPage_leaf (m : Machine)
    (s : GistBulkDeleteResult) (p d l t : Nat)
    (h1 : PageIsNew (m.getPage p) = false)
    (h2 : GistPageIsDeleted (m.getPage p) = false)
    (h3 : GistPageIsLeaf (m.getPage p) = false)
    (h4 : d ≤ PageGetMaxOffsetNumber (m.getPage p))
    (h5 : FirstOffsetNumber < PageGetMaxOffsetNumber (m.getPage p))
    (h6 : (PageGetTuple (m.getPage p) d).t_tid.block = l)
    (hpl : p ≠ l) (hl : l < m.pages.length) :
    (gistdeletepage m s p d l t).snd.fst.getPage l =
      { m.getPage l with
        deleteXid := t
        isDeleted := true
        lsn := if m.needsWal then m.insertPos + 1 else m.fakeLsn + 1 } := by
  have hp : p < m.pages.length := getPage_lt_length_of_not_new m p h1
  rw [gistdeletepage_success m s p d l t h1 h2 h3 h4 h5 h6]
  by_cases hw : m.needsWal
  all_goals
    simp [hw, appendWal, gistGetFakeLSN, Machine.setPage, Machine.getPage,
      List.getD, List.getElem?_set_self', List.getElem?_set_ne, hpl,
      Ne.symm hpl, hl, hp]

theorem gistdeletepage_success_getPage_parent (m : Machine)
    (s : GistBulkDeleteResult) (p d l t : Nat)
    (h1 : PageIsNew (m.getPage p) = false)
    (h2 : GistPageIsDeleted (m.getPage p) = false)
    (h3 : GistPageIsLeaf (m.getPage p) = false)
    (h4 : d ≤ PageGetMaxOffsetNumber (m.getPage p))
    (h5 : FirstOffsetNumber < PageGetMaxOffsetNumber (m.getPage p))
    (h6 : (PageGetTuple (m.getPage p) d).t_tid.block = l)
    (hpl : p ≠ l) :
    (gistdeletepage m s p d l t).snd.fst.getPage p =
      { PageIndexTupleDelete (m.getPage p) d with
        lsn := if m.needsWal then m.insertPos + 1 else m.fakeLsn + 1 } := by
  have hp : p < m.pages.length := getPage_lt_length_of_not_new m p h1
  rw [gistdeletepage_success m s p d l t h1 h2 h3 h4 h5 h6]
  by_cases hw : m.needsWal
  all_goals
    simp [hw, appendWal, gistGetFakeLSN, Machine.setPage, Machine.getPage,
      List.getD, List.getElem?_set_self', List.getElem?_set_ne, hpl,
      Ne.symm hpl, hp, PageIndexTupleDelete]

/-! ### C2 -/

/-- C2: the unlink primitive returns false and leaves the machine (so
both the parent and the leaf page) and the stats untouched — a no-op,
not an error — whenever any precondition fails: the parent is
uninitialized, deleted or a leaf, the slot position is past the
parent's last slot, the parent is down to its last remaining downlink,
or the slot's stored child block number no longer equals the leaf's
block number.  It returns true exactly when all preconditions hold,
and then the unlink is performed: the leaf is marked deleted carrying
the bounding transaction id and the parent has one slot fewer. -/
theorem c2_gistdeletepage_noop_or_unlink
    (m : Machine) (s : GistBulkDeleteResult) (p d l t : Nat)
    (hoff : FirstOffsetNumber ≤ d)
    (hpl : p ≠ l)
    (hl : l < m.pages.length) :
    ((gistdeletepage m s p d l t).fst = true ↔
      (PageIsNew (m.getPage p) = false ∧
       GistPageIsDeleted (m.getPage p) = false ∧
       GistPageIsLeaf (m.getPage p) = false ∧
       d ≤ PageGetMaxOffsetNumber (m.getPage p) ∧
       FirstOffsetNumber < PageGetMaxOffsetNumber (m.getPage p) ∧
       (PageGetTuple (m.getPage p) d).t_tid.block = l)) ∧
    ((gistdeletepage m s p d l t).fst = false →
      gistdeletepage m s p d l t = (false, m, s)) ∧
    ((gistdeletepage m s p d l t).fst = true →
      (((gistdeletepage m s p d l t).snd.fst.getPage l).isDeleted = true ∧
       ((gistdeletepage m s p d l t).snd.fst.getPage l).deleteXid = t ∧
       PageGetMaxOffsetNumber ((gistdeletepage m s p d l t).snd.fst.getPage p) + 1
         = PageGetMaxOffsetNumber (m.getPage p))) := by
  by_cases h1 : PageIsNew (m.getPage p) = true
  · rw [gistdeletepage_noop m s p d l t (Or.inl h1)]
    exact ⟨by simp [h1], fun _ => rfl, by simp⟩
  rw [Bool.not_eq_true] at h1
  by_cases h2 : GistPageIsDeleted (m.getPage p) = true
  · rw [gistdeletepage_noop m s p d l t (Or.inr (Or.inl h2))]
    exact ⟨by simp [h2], fun _ => rfl, by simp⟩
  rw [Bool.not_eq_true] at h2
  by_cases h3 : GistPageIsLeaf (m.getPage p) = true
  · rw [gistdeletepage_noop m s p d l t (Or.inr (Or.inr (Or.inl h3)))]
    exact ⟨by simp [h3], fun _ => rfl, by simp⟩
  rw [Bool.not_eq_true] at h3
  by_cases h4 : PageGetMaxOffsetNumber (m.getPage p) < d
  · rw [gistdeletepage_noop m s p d l t (Or.inr (Or.inr (Or.inr (Or.inl h4))))]
    exact ⟨⟨fun hco => absurd hco (by simp),
            fun hco => absurd hco.2.2.2.1 (by omega)⟩, fun _ => rfl, by simp⟩
  by_cases h5 : PageGetMaxOffsetNumber (m.getPage p) ≤ FirstOffsetNumber
  · rw [gistdeletepage_noop m s p d l t
      (Or.inr (Or.inr (Or.inr (Or.inr (Or.inl h5)))))]
    exact ⟨⟨fun hco => absurd hco (by simp),
            fun hco => absurd hco.2.2.2.2.1 (by omega)⟩, fun _ => rfl, by simp⟩
  by_cases h6 : (PageGetTuple (m.getPage p) d).t_tid.block = l
  swap
  · rw [gistdeletepage_noop m s p d l t
      (Or.inr (Or.inr (Or.inr (Or.inr (Or.inr h6)))))]
    exact ⟨⟨fun hco => absurd hco (by simp),
            fun hco => absurd hco.2.2.2.2.2 h6⟩, fun _ => rfl, by simp⟩
  · have h4' := Nat.not_lt.mp h4
    have h5' := Nat.not_le.mp h5
    have hp : p < m.pages.length := getPage_lt_length_of_not_new m p h1
    rw [gistdeletepage_success m s p d l t h1 h2 h3 h4' h5' h6]
    refine ⟨by simp [h1, h2, h3, h4', h5', h6], by simp, fun _ => ?_⟩
    rw [← gistdeletepage_success m s p d l t h1 h2 h3 h4' h5' h6,
      gistdeletepage_success_getPage_leaf m s p d l t h1 h2 h3 h4' h5' h6 hpl hl,
      gistdeletepage_success_getPage_parent m s p d l t h1 h2 h3 h4' h5' h6 hpl]
    refine ⟨rfl, rfl, ?_⟩
    simp only [PageGetMaxOffsetNumber, PageIndexTupleDelete, List.length_append,
      List.length_take, List.length_drop]
    rw [FirstOffsetNumber] at hoff h5'
    rw [PageGetMaxOffsetNumber] at h4' h5'
    omega

theorem c2_gistdeletepage_noop_or_unlink_witness :
    ((gistdeletepage sampleMachine GistBulkDeleteResult.zero 0 1 1 7).fst = true ↔
      (PageIsNew (sampleMachine.getPage 0) = false ∧
       GistPageIsDeleted (sampleMachine.getPage 0) = false ∧
       GistPageIsLeaf (sampleMachine.getPage 0) = false ∧
       1 ≤ PageGetMaxOffsetNumber (sampleMachine.getPage 0) ∧
       FirstOffsetNumber < PageGetMaxOffsetNumber (sampleMachine.getPage 0) ∧
       (PageGetTuple (sampleMachine.getPage 0) 1).t_tid.block = 1)) ∧
    ((gistdeletepage sampleMachine GistBulkDeleteResult.zero 0 1 1 7).fst = false →
      gistdeletepage sampleMachine GistBulkDeleteResult.zero 0 1 1 7 =
        (false, sampleMachine, GistBulkDeleteResult.zero)) ∧
    ((gistdeletepage sampleMachine GistBulkDeleteResult.zero 0 1 1 7).fst = true →
      (((gistdeletepage sampleMachine GistBulkDeleteResult.zero 0 1 1 7).snd.fst.getPage 1).isDeleted = true ∧
       ((gistdeletepage sampleMachine GistBulkDeleteResult.zero 0 1 1 7).snd.fst.getPage 1).deleteXid = 7 ∧
       PageGetMaxOffsetNumber ((gistdeletepage sampleMachine GistBulkDeleteResult.zero 0 1 1 7).snd.fst.getPage 0) + 1
         = PageGetMaxOffsetNumber (sampleMachine.getPage 0))) :=
  c2_gistdeletepage_noop_or_unlink sampleMachine GistBulkDeleteResult.zero 0 1 1 7
    (by decide) (by decide) (by decide)

/-! ### C1 -/

theorem stageChildren_length_le (em : BlockSet) (ts : List IndexTuple)
    (maxoff off : Nat) (acc : List (Nat × Nat)) (h : acc.length ≤ maxoff - 1) :
    (stageChildren em ts maxoff off acc).length ≤ maxoff - 1 := by
  induction ts generalizing off acc with
  | nil => simpa [stageChildren] using h
  | cons t rest ih =>
    simp only [stageChildren]
    split
    next hlt =>
      split
      · apply ih
        simp only [List.length_append, List.length_singleton]
        omega
      · exact ih _ _ h
    next => exact h

/-- C1: a sole child is never deleted: the staging loop of the reclaim
pass stages at most (number of parent slots minus one) children, and
gistdeletepage independently is a no-op whenever the parent's slot
count is at or below the first offset number, so a parent with exactly
one remaining downlink never has that child unlinked. -/
theorem c1_last_child_never_unlinked (emptyMap : BlockSet)
    (ts : List IndexTuple) (maxoff : Nat) (m : Machine)
    (s : GistBulkDeleteResult) (p d l t : Nat)
    (hsole : PageGetMaxOffsetNumber (m.getPage p) ≤ FirstOffsetNumber) :
    (stageChildren emptyMap ts maxoff FirstOffsetNumber []).length ≤ maxoff - 1 ∧
    gistdeletepage m s p d l t = (false, m, s) :=
  ⟨stageChildren_length_le emptyMap ts maxoff FirstOffsetNumber [] (by simp),
   gistdeletepage_noop m s p d l t
     (Or.inr (Or.inr (Or.inr (Or.inr (Or.inl hsole)))))⟩

theorem c1_last_child_never_unlinked_witness :
    (stageChildren [1, 2] rootPage.tuples 2 FirstOffsetNumber []).length ≤ 2 - 1 ∧
    gistdeletepage sampleMachine GistBulkDeleteResult.zero 1 1 2 9 =
      (false, sampleMachine, GistBulkDeleteResult.zero) :=
  c1_last_child_never_unlinked [1, 2] rootPage.tuples 2 sampleMachine
    GistBulkDeleteResult.zero 1 1 2 9 (by decide)

/-! ### C4 -/

/-- C4 counterexample: block 1 of c4Machine is a staged child that is
still a leaf, still has zero slots, carries no mid-split marker and
has no advanced split-sequence-number (child NSN 0 has certainly not
advanced past the parent snapshot NSN 2), and the unlink primitive
would succeed on it, yet the reclaim deletion loop skips it without
modification: the code instead skips whenever the parent snapshot's
NSN exceeds the child's. -/
theorem c4_attempt_iff_counterexample :
    (GistPageIsLeaf (c4Machine.getPage 1) = true ∧
     PageGetMaxOffsetNumber (c4Machine.getPage 1) = 0 ∧
     GistFollowRight (c4Machine.getPage 1) = false ∧
     ¬ (GistPageGetNSN (c4Machine.getPage 0) < GistPageGetNSN (c4Machine.getPage 1))) ∧
    (gistdeletepage c4Machine GistBulkDeleteResult.zero 0 1 1 7).fst = true ∧
    deleteStaged 0 7 [(1, 1)] 0 GistBulkDeleteResult.zero c4Machine =
      (GistBulkDeleteResult.zero, c4Machine) := by
  refine ⟨by decide, by decide, ?_⟩
  decide

/-- C4 (amended): for a staged child of the reclaim pass, the
two-phase unlink is attempted iff, after re-locking, the child is
still a leaf page, still contains zero slots, has no mid-split marker
and the parent snapshot's split-sequence-number does not exceed the
child's; on any mismatch the child is skipped with the machine and the
stats untouched. -/
theorem c4_amended_recheck (p t l off deleted : Nat)
    (s : GistBulkDeleteResult) (m : Machine) :
    ((¬ (GistPageIsLeaf (m.getPage l) = true ∧
         PageGetMaxOffsetNumber (m.getPage l) = 0 ∧
         GistFollowRight (m.getPage l) = false ∧
         GistPageGetNSN (m.getPage p) ≤ GistPageGetNSN (m.getPage l))) →
      deleteStaged p t [(l, off)] deleted s m = (s, m)) ∧
    ((GistPageIsLeaf (m.getPage l) = true ∧
      PageGetMaxOffsetNumber (m.getPage l) = 0 ∧
      GistFollowRight (m.getPage l) = false ∧
      GistPageGetNSN (m.getPage p) ≤ GistPageGetNSN (m.getPage l)) →
      deleteStaged p t [(l, off)] deleted s m =
        ((gistdeletepage m s p (off - deleted) l t).snd.snd,
         (gistdeletepage m s p (off - deleted) l t).snd.fst)) := by
  constructor
  · intro hne
    simp only [deleteStaged]
    split
    next hcond =>
      exfalso
      apply hne
      simp only [Bool.and_eq_true, Bool.not_eq_true', Bool.or_eq_false_iff,
        decide_eq_true_eq, decide_eq_false_iff_not, InvalidOffsetNumber] at hcond
      exact ⟨hcond.1.1, hcond.1.2, hcond.2.1, Nat.le_of_not_lt hcond.2.2⟩
    next => rfl
  · intro hc
    simp only [deleteStaged]
    rw [if_pos]
    · simp only [Bool.and_eq_true, Bool.not_eq_true', Bool.or_eq_false_iff,
        decide_eq_true_eq, decide_eq_false_iff_not, InvalidOffsetNumber]
      exact ⟨⟨hc.1, hc.2.1⟩, hc.2.2.1, Nat.not_lt.mpr hc.2.2.2⟩

theorem c4_amended_recheck_witness :
    deleteStaged 0 7 [(1, 1)] 0 GistBulkDeleteResult.zero recycleMachine =
      ((gistdeletepage recycleMachine GistBulkDeleteResult.zero 0 1 1 7).snd.snd,
       (gistdeletepage recycleMachine GistBulkDeleteResult.zero 0 1 1 7).snd.fst) :=
  (c4_amended_recheck 0 7 1 1 0 GistBulkDeleteResult.zero recycleMachine).2
    (by decide)

/-! ### C5 -/

theorem collectDeletable_mem_ge (cb : ItemPointer → Bool)
    (ts : List IndexTuple) (k e : Nat)
    (he : e ∈ collectDeletable cb ts k) : k ≤ e := by
  induction ts generalizing k with
  | nil => simp [collectDeletable] at he
  | cons t rest ih =>
    simp only [collectDeletable] at he
    split at he
    · rcases List.mem_cons.mp he with h | h
      · omega
      · have := ih (k + 1) h
        omega
    · have := ih (k + 1) he
      omega

theorem removeOffsets_cons_lt (ts : List IndexTuple) (offs : List Nat)
    (off e : Nat) (he : e < off) :
    removeOffsets ts (e :: offs) off = removeOffsets ts offs off := by
  induction ts generalizing off with
  | nil => rfl
  | cons t rest ih =>
    simp only [removeOffsets, List.mem_cons]
    have hne : off ≠ e := by omega
    by_cases hm : off ∈ offs
    · simp [hm, hne, ih (off + 1) (by omega)]
    · simp [hm, hne, ih (off + 1) (by omega)]

theorem removeOffsets_collectDeletable (cb : ItemPointer → Bool)
    (ts : List IndexTuple) (k : Nat) :
    removeOffsets ts (collectDeletable cb ts k) k =
      ts.filter (fun u => !cb u.t_tid) := by
  induction ts generalizing k with
  | nil => rfl
  | cons t rest ih =>
    simp only [collectDeletable, removeOffsets, List.filter]
    by_cases hc : cb t.t_tid
    · simp only [hc, if_true, if_pos (List.mem_cons_self k _)]
      rw [removeOffsets_cons_lt rest (collectDeletable cb rest (k + 1)) (k + 1) k
        (by omega)]
      simp [ih (k + 1)]
    · simp only [hc, if_false, Bool.not_false]
      have hk : k ∉ collectDeletable cb rest (k + 1) := by
        intro hmem
        have := collectDeletable_mem_ge cb rest (k + 1) k hmem
        omega
      simp [hk, ih (k + 1)]

theorem collectDeletable_length (cb : ItemPointer → Bool)
    (ts : List IndexTuple) (k : Nat) :
    (collectDeletable cb ts k).length = ts.countP (fun u => cb u.t_tid) := by
  induction ts generalizing k with
  | nil => rfl
  | cons t rest ih =>
    simp only [collectDeletable, List.countP_cons]
    by_cases hc : cb t.t_tid
    · simp [hc, ih (k + 1)]
    · simp [hc, ih (k + 1)]

theorem blockset_get_set_self (bs : BlockSet) (b : Nat) :
    blockset_get b (blockset_set bs b) = true := by
  induction bs with
  | nil => simp [blockset_set, blockset_get]
  | cons x rest ih =>
    simp only [blockset_set]
    by_cases h1 : b < x
    · simp [h1, blockset_get]
    · by_cases h2 : b = x
      · simp [h1, h2, blockset_get]
      · simp only [h1, h2, if_false]
        simp only [blockset_get, List.contains_cons, Bool.or_eq_true] at ih ⊢
        exact Or.inr ih

/-- C5: for a leaf page processed with a deletion callback on a
WAL-logged index, if at least one slot's row pointer matches the
callback, then all matching slots (collected at their original
pre-compaction offsets) are removed in one batched compaction, exactly
one WAL record covering the whole page's deletions is appended, and
tuples_removed grows by the match count; afterwards, if zero slots
remain the block is recorded in the empty-leaf set (the live-tuple
estimate untouched), otherwise the remaining slot count is added to
the live-tuple estimate (the empty-leaf set untouched). -/
theorem c5_leaf_callback_processing (cb : ItemPointer → Bool)
    (startNSN : Nat) (s : GistBulkDeleteResult) (tot : Nat) (m : Machine)
    (blkno orig_blkno : Nat)
    (hnew : PageIsNew (m.getPage blkno) = false)
    (hdel : GistPageIsDeleted (m.getPage blkno) = false)
    (hleaf : GistPageIsLeaf (m.getPage blkno) = true)
    (hwal : m.needsWal = true)
    (hrange : blkno < m.pages.length)
    (hmatch : (m.getPage blkno).tuples.countP (fun u => cb u.t_tid) ≠ 0) :
    (((gistvacuumpageOne (some cb) startNSN s tot m blkno orig_blkno).m.getPage
        blkno).tuples =
      (m.getPage blkno).tuples.filter (fun u => !cb u.t_tid)) ∧
    ((gistvacuumpageOne (some cb) startNSN s tot m blkno orig_blkno).m.wal =
      m.wal ++ [WalRecord.update blkno
        (collectDeletable cb (m.getPage blkno).tuples FirstOffsetNumber)]) ∧
    ((gistvacuumpageOne (some cb) startNSN s tot m blkno
        orig_blkno).stats.stats.tuples_removed =
      s.stats.tuples_removed +
        (m.getPage blkno).tuples.countP (fun u => cb u.t_tid)) ∧
    (((m.getPage blkno).tuples.filter (fun u => !cb u.t_tid)).length = 0 →
      blockset_get blkno (gistvacuumpageOne (some cb) startNSN s tot m blkno
          orig_blkno).stats.emptyLeafPagesMap = true ∧
      (gistvacuumpageOne (some cb) startNSN s tot m blkno
          orig_blkno).stats.stats.num_index_tuples =
        s.stats.num_index_tuples) ∧
    (((m.getPage blkno).tuples.filter (fun u => !cb u.t_tid)).length ≠ 0 →
      (gistvacuumpageOne (some cb) startNSN s tot m blkno
          orig_blkno).stats.stats.num_index_tuples =
        s.stats.num_index_tuples +
          ((m.getPage blkno).tuples.filter (fun u => !cb u.t_tid)).length ∧
      (gistvacuumpageOne (some cb) startNSN s tot m blkno
          orig_blkno).stats.emptyLeafPagesMap = s.emptyLeafPagesMap) := by
  have hn : (collectDeletable cb (m.getPage blkno).tuples FirstOffsetNumber).length
      = (m.getPage blkno).tuples.countP (fun u => cb u.t_tid) :=
    collectDeletable_length cb (m.getPage blkno).tuples FirstOffsetNumber
  have hrem : removeOffsets (m.getPage blkno).tuples
      (collectDeletable cb (m.getPage blkno).tuples FirstOffsetNumber)
      FirstOffsetNumber = (m.getPage blkno).tuples.filter (fun u => !cb u.t_tid) :=
    removeOffsets_collectDeletable cb (m.getPage blkno).tuples FirstOffsetNumber
  simp only [gistvacuumpageOne]
  rw [hnew, hdel, hleaf]
  simp only [Bool.false_or, Bool.or_self, Bool.false_eq_true, if_false,
    ite_false, ite_true, if_true, PageIndexMultiDelete, GistMarkTuplesDeleted]
  rw [hn]
  rw [if_pos (Nat.pos_of_ne_zero hmatch)]
  simp only [Machine.setPage, Machine.getPage, hwal, if_true, appendWal]
  simp only [List.getD, List.get?_eq_getElem?, List.getElem?_set_self',
    List.getElem?_eq_getElem, List.getElem_set_self, List.length_set, hrange,
    Option.getD_some, Option.map_some', Function.const_apply,
    Option.map_eq_map, hrem]
  have hpg : m.pages[blkno] = m.getPage blkno := by
    simp [Machine.getPage, List.getD, List.get?_eq_getElem?,
      List.getElem?_eq_getElem, hrange]
  simp only [hpg, hrem]
  refine ⟨trivial, trivial, ?_, ?_, ?_⟩
  · split <;> rfl
  · intro hz
    simp only [PageGetMaxOffsetNumber]
    rw [if_pos hz]
    exact ⟨blockset_get_set_self s.emptyLeafPagesMap blkno, rfl⟩
  · intro hz
    simp only [PageGetMaxOffsetNumber]
    rw [if_neg hz]
    exact ⟨rfl, rfl⟩

theorem c5_leaf_callback_processing_witness :
    (((gistvacuumpageOne (some (fun u => decide (u.block = 100))) 10
        GistBulkDeleteResult.zero 0 sampleMachine 2 2).m.getPage 2).tuples =
      (sampleMachine.getPage 2).tuples.filter
        (fun u => !decide (u.t_tid.block = 100))) ∧
    ((gistvacuumpageOne (some (fun u => decide (u.block = 100))) 10
        GistBulkDeleteResult.zero 0 sampleMachine 2 2).m.wal =
      sampleMachine.wal ++ [WalRecord.update 2
        (collectDeletable (fun u => decide (u.block = 100))
          (sampleMachine.getPage 2).tuples FirstOffsetNumber)]) ∧
    ((gistvacuumpageOne (some (fun u => decide (u.block = 100))) 10
        GistBulkDeleteResult.zero 0 sampleMachine 2
        2).stats.stats.tuples_removed =
      GistBulkDeleteResult.zero.stats.tuples_removed +
        (sampleMachine.getPage 2).tuples.countP
          (fun u => decide (u.t_tid.block = 100))) ∧
    (((sampleMachine.getPage 2).tuples.filter
        (fun u => !decide (u.t_tid.block = 100))).length = 0 →
      blockset_get 2 (gistvacuumpageOne (some (fun u => decide (u.block = 100)))
          10 GistBulkDeleteResult.zero 0 sampleMachine 2
          2).stats.emptyLeafPagesMap = true ∧
      (gistvacuumpageOne (some (fun u => decide (u.block = 100))) 10
          GistBulkDeleteResult.zero 0 sampleMachine 2
          2).stats.stats.num_index_tuples =
        GistBulkDeleteResult.zero.stats.num_index_tuples) ∧
    (((sampleMachine.getPage 2).tuples.filter
        (fun u => !decide (u.t_tid.block = 100))).length ≠ 0 →
      (gistvacuumpageOne (some (fun u => decide (u.block = 100))) 10
          GistBulkDeleteResult.zero 0 sampleMachine 2
          2).stats.stats.num_index_tuples =
        GistBulkDeleteResult.zero.stats.num_index_tuples +
          ((sampleMachine.getPage 2).tuples.filter
            (fun u => !decide (u.t_tid.block = 100))).length ∧
      (gistvacuumpageOne (some (fun u => decide (u.block = 100))) 10
          GistBulkDeleteResult.zero 0 sampleMachine 2
          2).stats.emptyLeafPagesMap =
        GistBulkDeleteResult.zero.emptyLeafPagesMap) :=
  c5_leaf_callback_processing (fun u => decide (u.block = 100)) 10
    GistBulkDeleteResult.zero 0 sampleMachine 2 2 rfl rfl rfl rfl
    (by decide) (by decide)

/-! ### C6 -/

/-- C6 counterexample: in analyze-only mode gistvacuumcleanup returns
the stats untouched and the clamp is bypassed, so even with an exact
heap row count (estimated_count false, hint 0) the returned live-tuple
estimate (5) exceeds the hint. -/
theorem c6_clamp_counterexample :
    (⟨true, false, 0⟩ : IndexVacuumInfo).estimated_count = false ∧
    gistvacuumcleanup ⟨true, false, 0⟩
      (some ⟨⟨0, false, 5, 0, 0, 0⟩, [], []⟩) sampleMachine =
      (some ⟨⟨0, false, 5, 0, 0, 0⟩, [], []⟩, sampleMachine) ∧
    ((5 : Nat) > (⟨true, false, 0⟩ : IndexVacuumInfo).num_heap_tuples) := by
  refine ⟨rfl, ?_, by decide⟩
  decide

/-- C6 (amended): outside analyze-only mode, cleanup clamps the
estimated live-tuple count down to the heap row count only when that
count is flagged exact, and never modifies the result when the heap
count is itself an estimate; consequently, outside analyze-only mode,
with an exact row-count hint the returned live-tuple estimate never
exceeds that hint. -/
theorem c6_clamp_amended (info : IndexVacuumInfo)
    (stats : Option GistBulkDeleteResult) (m : Machine)
    (hao : info.analyze_only = false) :
    (info.estimated_count = false →
      ∀ g, (gistvacuumcleanup info stats m).fst = some g →
        g.stats.num_index_tuples ≤ info.num_heap_tuples) ∧
    (info.estimated_count = true →
      (∀ gs, stats = some gs → gistvacuumcleanup info stats m = (some gs, m)) ∧
      (stats = none → gistvacuumcleanup info stats m =
        (some (gistvacuumscan info GistBulkDeleteResult.zero none m).fst,
         (gistvacuumscan info GistBulkDeleteResult.zero none m).snd))) := by
  constructor
  · intro hex g hg
    simp only [gistvacuumcleanup, hao, hex, Bool.false_eq_true, if_false,
      Bool.not_false, if_true, ite_true, ite_false] at hg
    rcases stats with _ | gs
    · simp only [Option.some.injEq] at hg
      by_cases hcmp : (gistvacuumscan info GistBulkDeleteResult.zero none
          m).fst.stats.num_index_tuples > info.num_heap_tuples
      · rw [if_pos (decide_eq_true hcmp)] at hg
        subst hg
        simp
      · rw [if_neg (fun hd => hcmp (of_decide_eq_true hd))] at hg
        subst hg
        omega
    · simp only [Option.some.injEq] at hg
      by_cases hcmp : gs.stats.num_index_tuples > info.num_heap_tuples
      · rw [if_pos (decide_eq_true hcmp)] at hg
        subst hg
        simp
      · rw [if_neg (fun hd => hcmp (of_decide_eq_true hd))] at hg
        subst hg
        omega
  · intro hest
    constructor
    · intro gs hgs
      subst hgs
      simp [gistvacuumcleanup, hao, hest]
    · intro hn
      subst hn
      simp [gistvacuumcleanup, hao, hest]

theorem c6_clamp_amended_witness :
    ((gistvacuumcleanup ⟨false, false, 3⟩
        (some ⟨⟨0, false, 10, 0, 0, 0⟩, [], []⟩) sampleMachine).fst.getD
        GistBulkDeleteResult.zero).stats.num_index_tuples ≤ 3 :=
  (c6_clamp_amended ⟨false, false, 3⟩
    (some ⟨⟨0, false, 10, 0, 0, 0⟩, [], []⟩) sampleMachine rfl).1 rfl
    ((gistvacuumcleanup ⟨false, false, 3⟩
        (some ⟨⟨0, false, 10, 0, 0, 0⟩, [], []⟩) sampleMachine).fst.getD
        GistBulkDeleteResult.zero)
    (by decide)

/-! ### C7 -/

/-- C7 counterexample: cleanup invoked after a bulkDelete (prior stats
present, live-tuple count 10) with an exact heap hint of 3 does not
return the prior stats object unchanged: the live-tuple clamp rewrites
the count to 3. -/
theorem c7_prior_stats_counterexample :
    (gistvacuumcleanup ⟨false, false, 3⟩
        (some ⟨⟨0, false, 10, 0, 0, 0⟩, [], []⟩) sampleMachine).fst ≠
      some ⟨⟨0, false, 10, 0, 0, 0⟩, [], []⟩ ∧
    (gistvacuumcleanup ⟨false, false, 3⟩
        (some ⟨⟨0, false, 10, 0, 0, 0⟩, [], []⟩) sampleMachine).fst =
      some ⟨⟨0, false, 3, 0, 0, 0⟩, [], []⟩ := by
  refine ⟨?_, by decide⟩
  decide

/-- C7 (amended): outside analyze-only mode, if bulkDelete already ran
(prior stats exist) cleanup performs no scan — the machine is returned
untouched — and returns the same stats object with only the live-tuple
clamp possibly applied; if bulkDelete did not run, cleanup allocates
fresh zeroed stats and performs its own full scan with no deletion
callback, returning the scanned stats through the same clamp. -/
theorem c7_cleanup_amended (info : IndexVacuumInfo) (m : Machine)
    (hao : info.analyze_only = false) :
    (∀ gs, gistvacuumcleanup info (some gs) m =
      (some (cleanupClamp info gs), m)) ∧
    (gistvacuumcleanup info none m =
      (some (cleanupClamp info
        (gistvacuumscan info GistBulkDeleteResult.zero none m).fst),
       (gistvacuumscan info GistBulkDeleteResult.zero none m).snd)) := by
  constructor
  · intro gs
    simp only [gistvacuumcleanup, cleanupClamp, hao, Bool.false_eq_true,
      if_false, ite_false]
    rcases hb : info.estimated_count
    · simp [hb]
    · simp [hb]
  · simp only [gistvacuumcleanup, cleanupClamp, hao, Bool.false_eq_true,
      if_false, ite_false]
    rcases hb : info.estimated_count
    · simp [hb]
    · simp [hb]

theorem c7_cleanup_amended_witness :
    gistvacuumcleanup ⟨false, false, 3⟩
        (some ⟨⟨0, false, 10, 0, 0, 0⟩, [], []⟩) sampleMachine =
      (some (cleanupClamp ⟨false, false, 3⟩ ⟨⟨0, false, 10, 0, 0, 0⟩, [], []⟩),
       sampleMachine) :=
  (c7_cleanup_amended ⟨false, false, 3⟩ sampleMachine rfl).1
    ⟨⟨0, false, 10, 0, 0, 0⟩, [], []⟩

/-! ### Commutation of the scan with the carried-over stats fields -/

theorem restoreStats_scrubStats (s : GistBulkDeleteResult) :
    restoreStats (scrubStats s) s = s := by
  simp [restoreStats, scrubStats]

theorem scrubStats_restoreStats (r b : GistBulkDeleteResult) :
    scrubStats (restoreStats r b) = scrubStats r := by
  simp [restoreStats, scrubStats]

theorem scrubStats_scrubStats (s : GistBulkDeleteResult) :
    scrubStats (scrubStats s) = scrubStats s := by
  simp [scrubStats]

theorem restoreStats_restoreStats (x r b : GistBulkDeleteResult) :
    restoreStats x (restoreStats r b) = restoreStats (restoreStats x r) b := by
  simp [restoreStats, Nat.add_assoc]

theorem gistdeletepage_scrub (m : Machine) (s : GistBulkDeleteResult)
    (p d l t : Nat) :
    gistdeletepage m s p d l t =
      ((gistdeletepage m (scrubStats s) p d l t).fst,
       (gistdeletepage m (scrubStats s) p d l t).snd.fst,
       restoreStats (gistdeletepage m (scrubStats s) p d l t).snd.snd s) := by
  simp only [gistdeletepage]
  split
  · simp [restoreStats_scrubStats]
  · split
    · simp [restoreStats_scrubStats]
    · simp [restoreStats, scrubStats]

theorem gistvacuumpageOne_scrub (cb : Option (ItemPointer → Bool))
    (nsn : Nat) (s : GistBulkDeleteResult) (tot : Nat) (m : Machine)
    (b o : Nat) :
    gistvacuumpageOne cb nsn s tot m b o =
      { stats := restoreStats
          (gistvacuumpageOne cb nsn (scrubStats s) tot m b o).stats s,
        totFreePages :=
          (gistvacuumpageOne cb nsn (scrubStats s) tot m b o).totFreePages,
        m := (gistvacuumpageOne cb nsn (scrubStats s) tot m b o).m,
        recurse_to :=
          (gistvacuumpageOne cb nsn (scrubStats s) tot m b o).recurse_to } := by
  simp only [gistvacuumpageOne]
  split
  · simp [restoreStats, scrubStats]
  · split
    · split
      all_goals try split
      all_goals try split
      all_goals simp [restoreStats, scrubStats]
    · simp [restoreStats, scrubStats]

theorem gistvacuumpage_scrub (cb : Option (ItemPointer → Bool))
    (nsn fuel : Nat) (s : GistBulkDeleteResult) (tot : Nat) (m : Machine)
    (b o : Nat) :
    gistvacuumpage cb nsn fuel s tot m b o =
      (restoreStats (gistvacuumpage cb nsn fuel (scrubStats s) tot m b o).fst s,
       (gistvacuumpage cb nsn fuel (scrubStats s) tot m b o).snd.fst,
       (gistvacuumpage cb nsn fuel (scrubStats s) tot m b o).snd.snd) := by
  induction fuel generalizing s tot m b with
  | zero => simp [gistvacuumpage, restoreStats_scrubStats]
  | succ fuel ih =>
    simp only [gistvacuumpage]
    rw [gistvacuumpageOne_scrub cb nsn s tot m b o]
    cases hre : (gistvacuumpageOne cb nsn (scrubStats s) tot m b o).recurse_to with
    | none => simp
    | some b' =>
      simp only []
      rw [ih (restoreStats (gistvacuumpageOne cb nsn (scrubStats s) tot m b o).stats s)
            (gistvacuumpageOne cb nsn (scrubStats s) tot m b o).totFreePages
            (gistvacuumpageOne cb nsn (scrubStats s) tot m b o).m b',
          ih (gistvacuumpageOne cb nsn (scrubStats s) tot m b o).stats
            (gistvacuumpageOne cb nsn (scrubStats s) tot m b o).totFreePages
            (gistvacuumpageOne cb nsn (scrubStats s) tot m b o).m b',
          scrubStats_restoreStats, restoreStats_restoreStats]

theorem vacuumScanLoop_scrub (cb : Option (ItemPointer → Bool))
    (nsn fuel : Nat) (L : List Nat) (s : GistBulkDeleteResult) (tot : Nat)
    (m : Machine) :
    vacuumScanLoop cb nsn fuel L (s, tot, m) =
      (restoreStats (vacuumScanLoop cb nsn fuel L (scrubStats s, tot, m)).fst s,
       (vacuumScanLoop cb nsn fuel L (scrubStats s, tot, m)).snd.fst,
       (vacuumScanLoop cb nsn fuel L (scrubStats s, tot, m)).snd.snd) := by
  induction L generalizing s tot m with
  | nil => simp [vacuumScanLoop, restoreStats_scrubStats]
  | cons b L ih =>
    simp only [vacuumScanLoop, List.foldl_cons]
    rw [gistvacuumpage_scrub cb nsn fuel s tot m b b]
    have h1 := ih (restoreStats
        (gistvacuumpage cb nsn fuel (scrubStats s) tot m b b).fst s)
      (gistvacuumpage cb nsn fuel (scrubStats s) tot m b b).snd.fst
      (gistvacuumpage cb nsn fuel (scrubStats s) tot m b b).snd.snd
    have h2 := ih (gistvacuumpage cb nsn fuel (scrubStats s) tot m b b).fst
      (gistvacuumpage cb nsn fuel (scrubStats s) tot m b b).snd.fst
      (gistvacuumpage cb nsn fuel (scrubStats s) tot m b b).snd.snd
    simp only [vacuumScanLoop] at h1 h2
    rw [h1, h2, scrubStats_restoreStats, restoreStats_restoreStats]

theorem deleteStaged_scrub (p t : Nat) (staged : List (Nat × Nat))
    (deleted : Nat) (s : GistBulkDeleteResult) (m : Machine) :
    deleteStaged p t staged deleted s m =
      (restoreStats (deleteStaged p t staged deleted (scrubStats s) m).fst s,
       (deleteStaged p t staged deleted (scrubStats s) m).snd) := by
  induction staged generalizing deleted s m with
  | nil => simp [deleteStaged, restoreStats_scrubStats]
  | cons c rest ih =>
    rcases c with ⟨l, off⟩
    simp only [deleteStaged]
    split
    · rw [gistdeletepage_scrub m s p (off - deleted) l t]
      have h1 := ih (if (gistdeletepage m (scrubStats s) p (off - deleted) l t).fst
          then deleted + 1 else deleted)
        (restoreStats (gistdeletepage m (scrubStats s) p (off - deleted) l t).snd.snd s)
        (gistdeletepage m (scrubStats s) p (off - deleted) l t).snd.fst
      have h2 := ih (if (gistdeletepage m (scrubStats s) p (off - deleted) l t).fst
          then deleted + 1 else deleted)
        (gistdeletepage m (scrubStats s) p (off - deleted) l t).snd.snd
        (gistdeletepage m (scrubStats s) p (off - deleted) l t).snd.fst
      rw [h1, h2, scrubStats_restoreStats, restoreStats_restoreStats]
    · exact ih deleted s m

theorem recycleOnePage_scrub (s : GistBulkDeleteResult) (m : Machine)
    (b : Nat) :
    recycleOnePage s m b =
      (restoreStats (recycleOnePage (scrubStats s) m b).fst s,
       (recycleOnePage (scrubStats s) m b).snd) := by
  simp only [recycleOnePage]
  have hm : (scrubStats s).emptyLeafPagesMap = s.emptyLeafPagesMap := rfl
  rw [hm]
  split
  · simp [restoreStats_scrubStats]
  · split
    · exact deleteStaged_scrub _ _ _ _ s m
    · simp [restoreStats_scrubStats]

theorem recycleLoop_scrub (L : List Nat) (s : GistBulkDeleteResult)
    (m : Machine) :
    recycleLoop L (s, m) =
      (restoreStats (recycleLoop L (scrubStats s, m)).fst s,
       (recycleLoop L (scrubStats s, m)).snd) := by
  induction L generalizing s m with
  | nil => simp [recycleLoop, restoreStats_scrubStats]
  | cons b L ih =>
    simp only [recycleLoop, List.foldl_cons]
    rw [recycleOnePage_scrub s m b]
    have h1 := ih (restoreStats (recycleOnePage (scrubStats s) m b).fst s)
      (recycleOnePage (scrubStats s) m b).snd
    have h2 := ih (recycleOnePage (scrubStats s) m b).fst
      (recycleOnePage (scrubStats s) m b).snd
    simp only [recycleLoop] at h1 h2
    rw [h1, h2, scrubStats_restoreStats, restoreStats_restoreStats]

theorem gistvacuum_recycle_pages_scrub (s : GistBulkDeleteResult)
    (m : Machine) :
    gistvacuum_recycle_pages s m =
      (restoreStats (gistvacuum_recycle_pages (scrubStats s) m).fst s,
       (gistvacuum_recycle_pages (scrubStats s) m).snd) := by
  simp only [gistvacuum_recycle_pages]
  have hm : (scrubStats s).emptyLeafPagesMap = s.emptyLeafPagesMap := rfl
  have hi : (scrubStats s).internalPagesMap = s.internalPagesMap := rfl
  rw [hm, hi]
  split
  · simp [restoreStats_scrubStats]
  · exact recycleLoop_scrub s.internalPagesMap s m

theorem gistvacuumscan_scrub (info : IndexVacuumInfo)
    (s : GistBulkDeleteResult) (cb : Option (ItemPointer → Bool))
    (m : Machine) :
    gistvacuumscan info s cb m =
      ({ (gistvacuumscan info (scrubStats s) cb m).fst with
          stats := { (gistvacuumscan info (scrubStats s) cb m).fst.stats with
            tuples_removed := s.stats.tuples_removed +
              (gistvacuumscan info (scrubStats s) cb m).fst.stats.tuples_removed } },
       (gistvacuumscan info (scrubStats s) cb m).snd) := by
  simp only [gistvacuumscan]
  have hAB : scrubStats { s with stats := { s.stats with
      estimated_count := false, num_index_tuples := 0, pages_deleted := 0 } } =
    { scrubStats s with stats := { (scrubStats s).stats with
      estimated_count := false, num_index_tuples := 0, pages_deleted := 0 } } := by
    simp [scrubStats]
  conv_lhs => rw [vacuumScanLoop_scrub, hAB]
  conv_lhs => rw [gistvacuum_recycle_pages_scrub]
  rw [scrubStats_restoreStats]
  conv_rhs => rw [gistvacuum_recycle_pages_scrub]
  simp [restoreStats, scrubStats, Nat.add_assoc]

/-! ### Conservation of leaf tuples against tuples_removed -/

theorem leafSum_set (ps : List GistPage) (b : Nat) (q : GistPage)
    (hb : b < ps.length) :
    leafSum (ps.set b q) + leafContribution (ps.getD b defaultPage) =
      leafSum ps + leafContribution q := by
  induction ps generalizing b with
  | nil => simp at hb
  | cons x rest ih =>
    cases b with
    | zero => simp [leafSum, List.getD]; omega
    | succ b =>
      simp only [List.set_cons_succ, leafSum, List.map_cons, List.sum_cons,
        List.getD_cons_succ]
      have := ih b (by simpa using hb)
      simp only [leafSum] at this
      omega

theorem leafSum_set_congr (ps : List GistPage) (b : Nat) (q : GistPage)
    (h : leafContribution q = leafContribution (ps.getD b defaultPage)) :
    leafSum (ps.set b q) = leafSum ps := by
  by_cases hb : b < ps.length
  · have := leafSum_set ps b q hb
    omega
  · rw [List.set_eq_of_length_le (by omega)]

theorem leafTupleCount_setPage_congr (m : Machine) (b : Nat) (q : GistPage)
    (h : leafContribution q = leafContribution (m.getPage b)) :
    leafTupleCount (m.setPage b q) = leafTupleCount m :=
  leafSum_set_congr m.pages b q h

theorem getPage_setPage_isLeaf (m : Machine) (b b' : Nat) (q : GistPage)
    (h : q.isLeaf = (m.getPage b).isLeaf) :
    ((m.setPage b q).getPage b').isLeaf = (m.getPage b').isLeaf := by
  by_cases hb : b < m.pages.length
  · by_cases hbb : b = b'
    · subst hbb
      rw [Machine.getPage_setPage_self m b q hb, h]
    · rw [Machine.getPage_setPage_ne m b b' q hbb]
  · unfold Machine.setPage
    rw [List.set_eq_of_length_le (by omega)]

theorem gistdeletepage_conserve (m : Machine) (s : GistBulkDeleteResult)
    (p d l t : Nat) :
    leafTupleCount (gistdeletepage m s p d l t).snd.fst = leafTupleCount m ∧
    (gistdeletepage m s p d l t).snd.snd.stats.tuples_removed =
      s.stats.tuples_removed := by
  simp only [gistdeletepage]
  split
  next => exact ⟨rfl, rfl⟩
  next hcond =>
    split
    next => exact ⟨rfl, rfl⟩
    next hmatch =>
      refine ⟨?_, rfl⟩
      have hpleaf : GistPageIsLeaf (m.getPage p) = false := by
        rcases hx : GistPageIsLeaf (m.getPage p)
        · rfl
        · exfalso
          apply hcond
          simp [hx]
      have h1 : leafTupleCount (m.setPage l
          { m.getPage l with deleteXid := t, isDeleted := true }) =
          leafTupleCount m :=
        leafTupleCount_setPage_congr m l _ (by simp [leafContribution])
      have hp1leaf : (((m.setPage l
          { m.getPage l with deleteXid := t, isDeleted := true }).getPage
            p).isLeaf) = false := by
        rw [getPage_setPage_isLeaf m l p _ (by simp)]
        simpa [GistPageIsLeaf] using hpleaf
      have h2 : leafTupleCount ((m.setPage l
          { m.getPage l with deleteXid := t, isDeleted := true }).setPage p
            (PageIndexTupleDelete ((m.setPage l
              { m.getPage l with deleteXid := t, isDeleted := true }).getPage p)
              d)) =
          leafTupleCount (m.setPage l
            { m.getPage l with deleteXid := t, isDeleted := true }) := by
        apply leafTupleCount_setPage_congr
        simp [leafContribution, PageIndexTupleDelete, hp1leaf]
      generalize hM : (m.setPage l
          { m.getPage l with deleteXid := t, isDeleted := true }).setPage p
            (PageIndexTupleDelete ((m.setPage l
              { m.getPage l with deleteXid := t, isDeleted := true }).getPage p)
              d) = M at h2
      split
      all_goals
        rename_i hrm
        rw [leafTupleCount_setPage_congr _ _ _ (by simp [leafContribution]),
          leafTupleCount_setPage_congr _ _ _ (by simp [leafContribution])]
        first
        | (show leafTupleCount (appendWal M _).snd = _
           rw [show leafTupleCount (appendWal M _).snd = leafTupleCount M from rfl,
             h2, h1])
        | (rw [show leafTupleCount (gistGetFakeLSN M).snd = leafTupleCount M from rfl,
             h2, h1])

theorem length_filter_not_add_countP {α : Type} (p : α → Bool)
    (ts : List α) :
    (ts.filter (fun x => !p x)).length + ts.countP p = ts.length := by
  induction ts with
  | nil => rfl
  | cons t rest ih =>
    by_cases h : p t
    · simp [List.countP_cons, h, List.filter_cons]
      omega
    · simp [List.countP_cons, h, List.filter_cons]
      omega

theorem gistvacuumpageOne_conserve (cb : Option (ItemPointer → Bool))
    (nsn : Nat) (s : GistBulkDeleteResult) (tot : Nat) (m : Machine)
    (b o : Nat) :
    (gistvacuumpageOne cb nsn s tot m b o).stats.stats.tuples_removed +
      leafTupleCount (gistvacuumpageOne cb nsn s tot m b o).m =
    s.stats.tuples_removed + leafTupleCount m := by
  simp only [gistvacuumpageOne]
  split
  next => rfl
  next hnd =>
    split
    next hleaf =>
      have hb : b < m.pages.length := by
        apply getPage_lt_length_of_not_new
        rcases hx : PageIsNew (m.getPage b)
        · rfl
        · exact absurd (by simp [hx] : (PageIsNew (m.getPage b) ||
            GistPageIsDeleted (m.getPage b)) = true) hnd
      have hisleaf : (m.getPage b).isLeaf = true := hleaf
      split
      next hpos =>
        rcases cb with _ | cbf
        · simp at hpos
        · have hcnt := collectDeletable_length cbf (m.getPage b).tuples
            FirstOffsetNumber
          have hrem := removeOffsets_collectDeletable cbf (m.getPage b).tuples
            FirstOffsetNumber
          have hfl := length_filter_not_add_countP (fun u => cbf u.t_tid)
            (m.getPage b).tuples
          have hset := leafSum_set m.pages b (GistMarkTuplesDeleted
            (PageIndexMultiDelete (m.getPage b)
              (collectDeletable cbf (m.getPage b).tuples FirstOffsetNumber))) hb
          rw [show (m.pages.getD b defaultPage) = m.getPage b from rfl] at hset
          rw [show leafContribution (m.getPage b) = (m.getPage b).tuples.length
            from by simp [leafContribution, hisleaf]] at hset
          rw [show leafContribution (GistMarkTuplesDeleted
              (PageIndexMultiDelete (m.getPage b)
                (collectDeletable cbf (m.getPage b).tuples FirstOffsetNumber))) =
              ((m.getPage b).tuples.filter (fun u => !cbf u.t_tid)).length
            from by
              simp [leafContribution, GistMarkTuplesDeleted,
                PageIndexMultiDelete, hisleaf, hrem]] at hset
          split
          all_goals
            rename_i hw
            rw [show leafTupleCount _ = leafSum (m.pages.set b
              (GistMarkTuplesDeleted (PageIndexMultiDelete (m.getPage b)
                (collectDeletable cbf (m.getPage b).tuples FirstOffsetNumber))))
              from ?_]
            · split
              all_goals
                simp only []
                rw [hcnt]
                simp only [leafTupleCount] at hset ⊢
                omega
            · rw [leafTupleCount_setPage_congr _ _ _
                (by simp [leafContribution])]
              rfl
      next hzero =>
        split
        all_goals rfl
    next hint =>
      rfl

theorem gistvacuumpage_conserve (cb : Option (ItemPointer → Bool))
    (nsn fuel : Nat) (s : GistBulkDeleteResult) (tot : Nat) (m : Machine)
    (b o : Nat) :
    (gistvacuumpage cb nsn fuel s tot m b o).fst.stats.tuples_removed +
      leafTupleCount (gistvacuumpage cb nsn fuel s tot m b o).snd.snd =
    s.stats.tuples_removed + leafTupleCount m := by
  induction fuel generalizing s tot m b with
  | zero => rfl
  | succ fuel ih =>
    simp only [gistvacuumpage]
    cases hre : (gistvacuumpageOne cb nsn s tot m b o).recurse_to with
    | none =>
      simpa [hre] using gistvacuumpageOne_conserve cb nsn s tot m b o
    | some next =>
      calc (gistvacuumpage cb nsn fuel
              (gistvacuumpageOne cb nsn s tot m b o).stats
              (gistvacuumpageOne cb nsn s tot m b o).totFreePages
              (gistvacuumpageOne cb nsn s tot m b o).m next
              o).fst.stats.tuples_removed +
            leafTupleCount (gistvacuumpage cb nsn fuel
              (gistvacuumpageOne cb nsn s tot m b o).stats
              (gistvacuumpageOne cb nsn s tot m b o).totFreePages
              (gistvacuumpageOne cb nsn s tot m b o).m next o).snd.snd =
          (gistvacuumpageOne cb nsn s tot m b o).stats.stats.tuples_removed +
            leafTupleCount (gistvacuumpageOne cb nsn s tot m b o).m := ih _ _ _ _
        _ = s.stats.tuples_removed + leafTupleCount m :=
          gistvacuumpageOne_conserve cb nsn s tot m b o

theorem vacuumScanLoop_conserve (cb : Option (ItemPointer → Bool))
    (nsn fuel : Nat) (L : List Nat) (s : GistBulkDeleteResult) (tot : Nat)
    (m : Machine) :
    (vacuumScanLoop cb nsn fuel L (s, tot, m)).fst.stats.tuples_removed +
      leafTupleCount (vacuumScanLoop cb nsn fuel L (s, tot, m)).snd.snd =
    s.stats.tuples_removed + leafTupleCount m := by
  induction L generalizing s tot m with
  | nil => rfl
  | cons b L ih =>
    simp only [vacuumScanLoop, List.foldl_cons]
    have h1 := ih (gistvacuumpage cb nsn fuel s tot m b b).fst
      (gistvacuumpage cb nsn fuel s tot m b b).snd.fst
      (gistvacuumpage cb nsn fuel s tot m b b).snd.snd
    simp only [vacuumScanLoop] at h1
    rw [h1]
    exact gistvacuumpage_conserve cb nsn fuel s tot m b b

theorem deleteStaged_conserve (p t : Nat) (staged : List (Nat × Nat))
    (deleted : Nat) (s : GistBulkDeleteResult) (m : Machine) :
    (deleteStaged p t staged deleted s m).fst.stats.tuples_removed +
      leafTupleCount (deleteStaged p t staged deleted s m).snd =
    s.stats.tuples_removed + leafTupleCount m := by
  induction staged generalizing deleted s m with
  | nil => rfl
  | cons c rest ih =>
    rcases c with ⟨l, off⟩
    simp only [deleteStaged]
    split
    · rw [ih _ _ _]
      have hc := gistdeletepage_conserve m s p (off - deleted) l t
      rw [hc.1, hc.2]
    · exact ih deleted s m

theorem recycleOnePage_conserve (s : GistBulkDeleteResult) (m : Machine)
    (b : Nat) :
    (recycleOnePage s m b).fst.stats.tuples_removed +
      leafTupleCount (recycleOnePage s m b).snd =
    s.stats.tuples_removed + leafTupleCount m := by
  simp only [recycleOnePage]
  split
  · rfl
  · split
    · exact deleteStaged_conserve _ _ _ _ s m
    · rfl

theorem recycleLoop_conserve (L : List Nat) (s : GistBulkDeleteResult)
    (m : Machine) :
    (recycleLoop L (s, m)).fst.stats.tuples_removed +
      leafTupleCount (recycleLoop L (s, m)).snd =
    s.stats.tuples_removed + leafTupleCount m := by
  induction L generalizing s m with
  | nil => rfl
  | cons b L ih =>
    simp only [recycleLoop, List.foldl_cons]
    have h1 := ih (recycleOnePage s m b).fst (recycleOnePage s m b).snd
    simp only [recycleLoop] at h1
    rw [h1]
    exact recycleOnePage_conserve s m b

theorem gistvacuum_recycle_pages_conserve (s : GistBulkDeleteResult)
    (m : Machine) :
    (gistvacuum_recycle_pages s m).fst.stats.tuples_removed +
      leafTupleCount (gistvacuum_recycle_pages s m).snd =
    s.stats.tuples_removed + leafTupleCount m := by
  simp only [gistvacuum_recycle_pages]
  split
  · rfl
  · exact recycleLoop_conserve s.internalPagesMap s m

theorem leafTupleCount_fsm_ite (c : Prop) [Decidable c] (mf : Machine) :
    leafTupleCount (if c then { mf with fsmVacuumed := true } else mf) =
      leafTupleCount mf := by
  split <;> rfl

theorem gistvacuumscan_conserve (info : IndexVacuumInfo)
    (s : GistBulkDeleteResult) (cb : Option (ItemPointer → Bool))
    (m : Machine) :
    (gistvacuumscan info s cb m).fst.stats.tuples_removed +
      leafTupleCount (gistvacuumscan info s cb m).snd =
    s.stats.tuples_removed + leafTupleCount m := by
  simp only [gistvacuumscan]
  by_cases hw : m.needsWal
  all_goals
    simp only [hw, if_true, if_false, ite_true, ite_false]
    refine (gistvacuum_recycle_pages_conserve _ _).trans ?_
    rw [leafTupleCount_fsm_ite]
    exact vacuumScanLoop_conserve _ _ _ _ _ _ _

theorem gistvacuumscan_scrub_zero (info : IndexVacuumInfo)
    (s : GistBulkDeleteResult) (cb : Option (ItemPointer → Bool)) (m : Machine)
    (him : s.internalPagesMap = []) (hem : s.emptyLeafPagesMap = []) :
    gistvacuumscan info (scrubStats s) cb m =
      gistvacuumscan info GistBulkDeleteResult.zero cb m := by
  simp only [gistvacuumscan]
  have h : ({ scrubStats s with stats := { (scrubStats s).stats with
      estimated_count := false, num_index_tuples := 0, pages_deleted := 0 } } :
        GistBulkDeleteResult) =
      { GistBulkDeleteResult.zero with
        stats := { GistBulkDeleteResult.zero.stats with
          estimated_count := false, num_index_tuples := 0,
          pages_deleted := 0 } } := by
    simp [scrubStats, GistBulkDeleteResult.zero, IndexBulkDeleteResult.zero,
      him, hem]
  rw [h]

/-! ### C8 -/

/-- C8: gistvacuumscan resets the per-pass counters of the reused
stats object before scanning — the estimate flag, the live-tuple count
and the pages-deleted count after the scan (as well as the final page
counts and the whole machine) do not depend on the incoming statistics
— while tuples_removed grows by exactly the number of leaf tuples
physically removed from the index during the pass (the drop in the
total leaf-tuple count), so repeated bulkDelete invocations in one
session never count any removal twice. -/
theorem c8_reset_and_no_double_count (info : IndexVacuumInfo)
    (cb : Option (ItemPointer → Bool)) (m : Machine)
    (s₁ s₂ : GistBulkDeleteResult)
    (h₁i : s₁.internalPagesMap = []) (h₁e : s₁.emptyLeafPagesMap = [])
    (h₂i : s₂.internalPagesMap = []) (h₂e : s₂.emptyLeafPagesMap = []) :
    ((gistvacuumscan info s₁ cb m).fst.stats.estimated_count =
       (gistvacuumscan info s₂ cb m).fst.stats.estimated_count ∧
     (gistvacuumscan info s₁ cb m).fst.stats.num_index_tuples =
       (gistvacuumscan info s₂ cb m).fst.stats.num_index_tuples ∧
     (gistvacuumscan info s₁ cb m).fst.stats.pages_deleted =
       (gistvacuumscan info s₂ cb m).fst.stats.pages_deleted ∧
     (gistvacuumscan info s₁ cb m).fst.stats.num_pages =
       (gistvacuumscan info s₂ cb m).fst.stats.num_pages ∧
     (gistvacuumscan info s₁ cb m).fst.stats.pages_free =
       (gistvacuumscan info s₂ cb m).fst.stats.pages_free ∧
     (gistvacuumscan info s₁ cb m).snd = (gistvacuumscan info s₂ cb m).snd) ∧
    ((gistvacuumscan info s₁ cb m).fst.stats.tuples_removed +
       leafTupleCount (gistvacuumscan info s₁ cb m).snd =
     s₁.stats.tuples_removed + leafTupleCount m) := by
  constructor
  · have e1 := gistvacuumscan_scrub info s₁ cb m
    have e2 := gistvacuumscan_scrub info s₂ cb m
    rw [gistvacuumscan_scrub_zero info s₁ cb m h₁i h₁e] at e1
    rw [gistvacuumscan_scrub_zero info s₂ cb m h₂i h₂e] at e2
    rw [e1, e2]
    simp
  · exact gistvacuumscan_conserve info s₁ cb m

theorem c8_reset_and_no_double_count_witness :
    ((gistvacuumscan ⟨false, false, 9⟩ ⟨⟨7, true, 8, 5, 9, 11⟩, [], []⟩
        (some (fun u => decide (u.block = 100))) sampleMachine).fst.stats.estimated_count =
       (gistvacuumscan ⟨false, false, 9⟩ GistBulkDeleteResult.zero
        (some (fun u => decide (u.block = 100))) sampleMachine).fst.stats.estimated_count ∧
     (gistvacuumscan ⟨false, false, 9⟩ ⟨⟨7, true, 8, 5, 9, 11⟩, [], []⟩
        (some (fun u => decide (u.block = 100))) sampleMachine).fst.stats.num_index_tuples =
       (gistvacuumscan ⟨false, false, 9⟩ GistBulkDeleteResult.zero
        (some (fun u => decide (u.block = 100))) sampleMachine).fst.stats.num_index_tuples ∧
     (gistvacuumscan ⟨false, false, 9⟩ ⟨⟨7, true, 8, 5, 9, 11⟩, [], []⟩
        (some (fun u => decide (u.block = 100))) sampleMachine).fst.stats.pages_deleted =
       (gistvacuumscan ⟨false, false, 9⟩ GistBulkDeleteResult.zero
        (some (fun u => decide (u.block = 100))) sampleMachine).fst.stats.pages_deleted ∧
     (gistvacuumscan ⟨false, false, 9⟩ ⟨⟨7, true, 8, 5, 9, 11⟩, [], []⟩
        (some (fun u => decide (u.block = 100))) sampleMachine).fst.stats.num_pages =
       (gistvacuumscan ⟨false, false, 9⟩ GistBulkDeleteResult.zero
        (some (fun u => decide (u.block = 100))) sampleMachine).fst.stats.num_pages ∧
     (gistvacuumscan ⟨false, false, 9⟩ ⟨⟨7, true, 8, 5, 9, 11⟩, [], []⟩
        (some (fun u => decide (u.block = 100))) sampleMachine).fst.stats.pages_free =
       (gistvacuumscan ⟨false, false, 9⟩ GistBulkDeleteResult.zero
        (some (fun u => decide (u.block = 100))) sampleMachine).fst.stats.pages_free ∧
     (gistvacuumscan ⟨false, false, 9⟩ ⟨⟨7, true, 8, 5, 9, 11⟩, [], []⟩
        (some (fun u => decide (u.block = 100))) sampleMachine).snd =
       (gistvacuumscan ⟨false, false, 9⟩ GistBulkDeleteResult.zero
        (some (fun u => decide (u.block = 100))) sampleMachine).snd) ∧
    ((gistvacuumscan ⟨false, false, 9⟩ ⟨⟨7, true, 8, 5, 9, 11⟩, [], []⟩
        (some (fun u => decide (u.block = 100))) sampleMachine).fst.stats.tuples_removed +
       leafTupleCount (gistvacuumscan ⟨false, false, 9⟩
        ⟨⟨7, true, 8, 5, 9, 11⟩, [], []⟩
        (some (fun u => decide (u.block = 100))) sampleMachine).snd =
     (5 : Nat) + leafTupleCount sampleMachine) :=
  c8_reset_and_no_double_count ⟨false, false, 9⟩
    (some (fun u => decide (u.block = 100))) sampleMachine
    ⟨⟨7, true, 8, 5, 9, 11⟩, [], []⟩ GistBulkDeleteResult.zero
    rfl rfl rfl rfl

/-! ### Scan-phase characterization for the idempotence argument -/

theorem mapSum_set (f : GistPage → Nat) (ps : List GistPage) (b : Nat)
    (q : GistPage) (hb : b < ps.length) :
    ((ps.set b q).map f).sum + f (ps.getD b defaultPage) =
      (ps.map f).sum + f q := by
  induction ps generalizing b with
  | nil => simp at hb
  | cons x rest ih =>
    cases b with
    | zero => simp [List.getD]; omega
    | succ b =>
      simp only [List.set_cons_succ, List.map_cons, List.sum_cons,
        List.getD_cons_succ]
      have := ih b (by simpa using hb)
      omega

theorem getPage_mem (m : Machine) (b : Nat) (hb : b < m.pages.length) :
    m.getPage b ∈ m.pages := by
  simp only [Machine.getPage, List.getD, List.get?_eq_getElem?,
    List.getElem?_eq_getElem, hb, Option.getD_some]
  exact List.getElem_mem hb

theorem filter_not_eq_self_of_countP_zero {α : Type} (f : α → Bool)
    (ts : List α) (h : ts.countP f = 0) :
    ts.filter (fun x => !f x) = ts := by
  apply List.filter_eq_self.mpr
  intro a ha
  have := List.countP_eq_zero.mp h a ha
  simpa using this

theorem gistvacuumpageOne_recurse_none (cb : Option (ItemPointer → Bool))
    (nsn : Nat) (s : GistBulkDeleteResult) (tot : Nat) (m : Machine)
    (b o : Nat) (hF : NoFollowRight m) (hN : NsnBound m nsn) :
    (gistvacuumpageOne cb nsn s tot m b o).recurse_to = none := by
  simp only [gistvacuumpageOne]
  split
  · rfl
  next hnd =>
    split
    next hleaf =>
      have hb : b < m.pages.length := by
        apply getPage_lt_length_of_not_new
        rcases hx : PageIsNew (m.getPage b)
        · rfl
        · exact absurd (by simp [hx] : (PageIsNew (m.getPage b) ||
            GistPageIsDeleted (m.getPage b)) = true) hnd
      have hmem := getPage_mem m b hb
      have hfr := hF _ hmem
      have hnsn := hN _ hmem
      simp only [GistFollowRight, hfr, GistPageGetNSN,
        Bool.false_or, decide_eq_true_eq]
      rw [if_neg]
      simp only [Bool.and_eq_true, decide_eq_true_eq]
      intro hco
      have := hco.1.1
      simp only [decide_eq_true_eq] at this
      omega
    next => rfl

/-- Structural effect of one gistvacuumpage visit on the machine: the
file length, relation kind, next xid are unchanged, the WAL position
only grows, every other page is untouched, and the visited page keeps
all its flags, its NSN and its right-link, while its tuple list is
filtered by the callback exactly when the page is a live leaf. -/
theorem gistvacuumpageOne_pages (cb : Option (ItemPointer → Bool))
    (nsn : Nat) (s : GistBulkDeleteResult) (tot : Nat) (m : Machine)
    (b o : Nat) :
    ((gistvacuumpageOne cb nsn s tot m b o).m.pages.length =
      m.pages.length) ∧
    ((gistvacuumpageOne cb nsn s tot m b o).m.needsWal = m.needsWal) ∧
    ((gistvacuumpageOne cb nsn s tot m b o).m.nextXid = m.nextXid) ∧
    (m.insertPos ≤ (gistvacuumpageOne cb nsn s tot m b o).m.insertPos) ∧
    (∀ x, x ≠ b →
      (gistvacuumpageOne cb nsn s tot m b o).m.getPage x = m.getPage x) ∧
    (((gistvacuumpageOne cb nsn s tot m b o).m.getPage b).isNew =
        (m.getPage b).isNew ∧
     ((gistvacuumpageOne cb nsn s tot m b o).m.getPage b).isDeleted =
        (m.getPage b).isDeleted ∧
     ((gistvacuumpageOne cb nsn s tot m b o).m.getPage b).isLeaf =
        (m.getPage b).isLeaf ∧
     ((gistvacuumpageOne cb nsn s tot m b o).m.getPage b).followRight =
        (m.getPage b).followRight ∧
     ((gistvacuumpageOne cb nsn s tot m b o).m.getPage b).nsn =
        (m.getPage b).nsn ∧
     ((gistvacuumpageOne cb nsn s tot m b o).m.getPage b).rightlink =
        (m.getPage b).rightlink) ∧
    (((gistvacuumpageOne cb nsn s tot m b o).m.getPage b).tuples =
      if (m.getPage b).isNew = true ∨ (m.getPage b).isDeleted = true ∨
          (m.getPage b).isLeaf = false then (m.getPage b).tuples
      else scanTuples cb (m.getPage b).tuples) := by
  simp only [gistvacuumpageOne]
  split
  next hnd =>
    have hcase : (m.getPage b).isNew = true ∨ (m.getPage b).isDeleted = true ∨
        (m.getPage b).isLeaf = false := by
      rcases Bool.or_eq_true _ _ |>.mp hnd with h | h
      · exact Or.inl h
      · exact Or.inr (Or.inl h)
    refine ⟨rfl, rfl, rfl, Nat.le_refl _, fun x _ => rfl, ⟨rfl, rfl, rfl,
      rfl, rfl, rfl⟩, ?_⟩
    rw [if_pos hcase]
    rfl
  next hnd =>
    split
    next hleaf =>
      have hb : b < m.pages.length := by
        apply getPage_lt_length_of_not_new
        rcases hx : PageIsNew (m.getPage b)
        · rfl
        · exact absurd (by simp [hx] : (PageIsNew (m.getPage b) ||
            GistPageIsDeleted (m.getPage b)) = true) hnd
      have hnd' : (m.getPage b).isNew = false ∧ (m.getPage b).isDeleted = false := by
        constructor
        · rcases hx : (m.getPage b).isNew
          · rfl
          · exact absurd (by simp [PageIsNew, hx] : (PageIsNew (m.getPage b) ||
              GistPageIsDeleted (m.getPage b)) = true) hnd
        · rcases hx : (m.getPage b).isDeleted
          · rfl
          · exact absurd (by simp [GistPageIsDeleted, hx] :
              (PageIsNew (m.getPage b) || GistPageIsDeleted (m.getPage b)) = true) hnd
      have hcase : ¬ ((m.getPage b).isNew = true ∨ (m.getPage b).isDeleted = true ∨
          (m.getPage b).isLeaf = false) := by
        simp [hnd'.1, hnd'.2, hleaf]
        exact hleaf
      split
      next hpos =>
        rcases cb with _ | f
        · simp at hpos
        · have hrem := removeOffsets_collectDeletable f (m.getPage b).tuples
            FirstOffsetNumber
          simp only [Machine.setPage]
          by_cases hw : m.needsWal
          · rw [if_pos hw]
            refine ⟨by simp [Machine.setPage, appendWal],
              by simp [Machine.setPage, appendWal],
              by simp [Machine.setPage, appendWal],
              by simp [Machine.setPage, appendWal], ?_, ?_, ?_⟩
            · intro x hx
              simp only [Machine.setPage, Machine.getPage, appendWal]
              rw [List.getD_eq_getElem?_getD, List.getElem?_set_ne (Ne.symm hx),
                List.getElem?_set_ne (Ne.symm hx), ← List.getD_eq_getElem?_getD]
            · simp only [Machine.setPage, Machine.getPage, appendWal]
              rw [List.getD_eq_getElem?_getD, List.getElem?_set_self',
                List.getElem?_set_self']
              simp [List.getElem?_eq_getElem, hb, GistMarkTuplesDeleted,
                PageIndexMultiDelete, Machine.getPage]
            · simp only [Machine.setPage, Machine.getPage, appendWal]
              rw [List.getD_eq_getElem?_getD, List.getElem?_set_self',
                List.getElem?_set_self']
              simp [List.getElem?_eq_getElem, hb, GistMarkTuplesDeleted,
                PageIndexMultiDelete, Machine.getPage, scanTuples, hrem]
              have hpg : m.pages[b] = m.getPage b := by
                simp [Machine.getPage, List.getD_eq_getElem?_getD,
                  List.getElem?_eq_getElem, hb]
              rw [hpg]
              exact hrem
          · rw [if_neg (by simp [hw])]
            refine ⟨by simp [Machine.setPage, gistGetFakeLSN],
              by simp [Machine.setPage, gistGetFakeLSN],
              by simp [Machine.setPage, gistGetFakeLSN],
              by simp [Machine.setPage, gistGetFakeLSN], ?_, ?_, ?_⟩
            · intro x hx
              simp only [Machine.setPage, Machine.getPage, gistGetFakeLSN]
              rw [List.getD_eq_getElem?_getD, List.getElem?_set_ne (Ne.symm hx),
                List.getElem?_set_ne (Ne.symm hx), ← List.getD_eq_getElem?_getD]
            · simp only [Machine.setPage, Machine.getPage, gistGetFakeLSN]
              rw [List.getD_eq_getElem?_getD, List.getElem?_set_self',
                List.getElem?_set_self']
              simp [List.getElem?_eq_getElem, hb, GistMarkTuplesDeleted,
                PageIndexMultiDelete, Machine.getPage]
            · simp only [Machine.setPage, Machine.getPage, gistGetFakeLSN]
              rw [List.getD_eq_getElem?_getD, List.getElem?_set_self',
                List.getElem?_set_self']
              simp [List.getElem?_eq_getElem, hb, GistMarkTuplesDeleted,
                PageIndexMultiDelete, Machine.getPage, scanTuples, hrem]
              have hpg : m.pages[b] = m.getPage b := by
                simp [Machine.getPage, List.getD_eq_getElem?_getD,
                  List.getElem?_eq_getElem, hb]
              rw [hpg]
              exact hrem
      next hzero =>
        have hsc : scanTuples cb (m.getPage b).tuples = (m.getPage b).tuples := by
          rcases cb with _ | f
          · rfl
          · have hcnt := collectDeletable_length f (m.getPage b).tuples
              FirstOffsetNumber
            have hz : (collectDeletable f (m.getPage b).tuples
                FirstOffsetNumber).length = 0 := by
              simpa using hzero
            rw [hz] at hcnt
            simp only [scanTuples]
            exact filter_not_eq_self_of_countP_zero (fun u => f u.t_tid)
              (m.getPage b).tuples hcnt.symm
        refine ⟨rfl, rfl, rfl, Nat.le_refl _, fun x _ => rfl,
          ⟨rfl, rfl, rfl, rfl, rfl, rfl⟩, ?_⟩
        exact hsc.symm
    next hint =>
      refine ⟨rfl, rfl, rfl, Nat.le_refl _, fun x _ => rfl,
        ⟨rfl, rfl, rfl, rfl, rfl, rfl⟩, ?_⟩
      rw [if_pos (Or.inr (Or.inr (by
        rcases hx : (m.getPage b).isLeaf
        · rfl
        · exact absurd (hx ▸ rfl) hint)))]
      simp [Machine.getPage]

/-! ### C10 -/

/-- C10: with the analyze-only flag set, gistvacuumcleanup returns its
stats argument unchanged (null included) and leaves the machine
untouched: no page is scanned, no estimate clamped, nothing
allocated. -/
theorem c10_analyze_only_noop (info : IndexVacuumInfo)
    (stats : Option GistBulkDeleteResult) (m : Machine)
    (h : info.analyze_only = true) :
    gistvacuumcleanup info stats m = (stats, m) := by
  simp [gistvacuumcleanup, h]

theorem c10_analyze_only_noop_witness :
    gistvacuumcleanup
      { analyze_only := true, estimated_count := false, num_heap_tuples := 0 }
      none sampleMachine = (none, sampleMachine) :=
  c10_analyze_only_noop _ _ _ rfl

/-! ### C3 -/

/-- C3: when the scan processes a leaf page, the re-visit of a right
sibling is scheduled iff (the page is mid-split, or its
split-sequence-number exceeds the pass start position) and the
right-link is a valid block number and that right-link is below the
highest block number reached by the outer loop; the scheduled block is
exactly that right-link. -/
theorem c3_revisit_iff (callback : Option (ItemPointer → Bool))
    (startNSN : Nat) (s : GistBulkDeleteResult) (tot : Nat) (m : Machine)
    (blkno orig_blkno r : Nat)
    (hnew : PageIsNew (m.getPage blkno) = false)
    (hdel : GistPageIsDeleted (m.getPage blkno) = false)
    (hleaf : GistPageIsLeaf (m.getPage blkno) = true) :
    (gistvacuumpageOne callback startNSN s tot m blkno orig_blkno).recurse_to
        = some r ↔
      ((GistFollowRight (m.getPage blkno) = true ∨
          startNSN < GistPageGetNSN (m.getPage blkno)) ∧
        (m.getPage blkno).rightlink ≠ InvalidBlockNumber ∧
        (m.getPage blkno).rightlink < orig_blkno ∧
        r = (m.getPage blkno).rightlink) := by
  simp only [gistvacuumpageOne]
  rw [hnew, hdel, hleaf]
  simp
  tauto

theorem c3_revisit_iff_witness :
    (gistvacuumpageOne none 10 GistBulkDeleteResult.zero 0 sampleMachine 1 3).recurse_to
      = some 2 :=
  (c3_revisit_iff none 10 GistBulkDeleteResult.zero 0 sampleMachine 1 3 2
    rfl rfl rfl).mpr (by decide)

/-! ### C9 groundwork: pointwise views of the machine -/

theorem getPage_eq_get (m : Machine) (i : Nat) (hi : i < m.pages.length) :
    m.getPage i = m.pages[i] := by
  simp [Machine.getPage, List.getD_eq_getElem?_getD, List.getElem?_eq_getElem, hi]

theorem getPage_default (m : Machine) (i : Nat) (hi : m.pages.length ≤ i) :
    m.getPage i = defaultPage := by
  simp only [Machine.getPage]
  rw [List.getD_eq_default]
  omega

theorem liveLeaf_lt_length (m : Machine) (b : Nat)
    (h : liveLeaf (m.getPage b) = true) : b < m.pages.length := by
  by_contra hb
  rw [getPage_default m b (by omega)] at h
  simp [liveLeaf, defaultPage] at h

theorem liveInternal_lt_length (m : Machine) (b : Nat)
    (h : liveInternal (m.getPage b) = true) : b < m.pages.length := by
  by_contra hb
  rw [getPage_default m b (by omega)] at h
  simp [liveInternal, defaultPage] at h

theorem noFollowRight_iff (m : Machine) :
    NoFollowRight m ↔ ∀ b, (m.getPage b).followRight = false := by
  constructor
  · intro h b
    by_cases hb : b < m.pages.length
    · exact h _ (getPage_mem m b hb)
    · rw [getPage_default m b (by omega)]
      rfl
  · intro h p hp
    rcases List.mem_iff_getElem.mp hp with ⟨i, hi, rfl⟩
    rw [← getPage_eq_get m i hi]
    exact h i

theorem nsnBound_iff (m : Machine) (bound : Nat) :
    NsnBound m bound ↔ ∀ b, (m.getPage b).nsn ≤ bound := by
  constructor
  · intro h b
    by_cases hb : b < m.pages.length
    · exact h _ (getPage_mem m b hb)
    · rw [getPage_default m b (by omega)]
      exact Nat.zero_le _
  · intro h p hp
    rcases List.mem_iff_getElem.mp hp with ⟨i, hi, rfl⟩
    rw [← getPage_eq_get m i hi]
    exact h i

theorem NsnBound.mono (m : Machine) (bound bound' : Nat)
    (hb : bound ≤ bound') (h : NsnBound m bound) : NsnBound m bound' :=
  fun p hp => Nat.le_trans (h p hp) hb

/-! ### C9 groundwork: blockset facts -/

theorem mem_blockset_set (bs : BlockSet) (b x : Nat) :
    x ∈ blockset_set bs b ↔ x = b ∨ x ∈ bs := by
  induction bs with
  | nil => simp [blockset_set]
  | cons hd tl ih =>
    simp only [blockset_set]
    by_cases h1 : b < hd
    · rw [if_pos h1]
      simp only [List.mem_cons]
    · rw [if_neg h1]
      by_cases h2 : b = hd
      · rw [if_pos h2]
        subst h2
        simp only [List.mem_cons]
        tauto
      · rw [if_neg h2]
        simp only [List.mem_cons, ih]
        tauto

theorem blockset_get_iff (bs : BlockSet) (x : Nat) :
    blockset_get x bs = true ↔ x ∈ bs := by
  simp [blockset_get, List.contains, List.elem_iff]

theorem sorted_blockset_set (bs : BlockSet) (b : Nat)
    (h : bs.Pairwise (· < ·)) : (blockset_set bs b).Pairwise (· < ·) := by
  induction bs with
  | nil => simp [blockset_set]
  | cons hd tl ih =>
    rcases List.pairwise_cons.mp h with ⟨hhd, htl⟩
    simp only [blockset_set]
    by_cases h1 : b < hd
    · rw [if_pos h1]
      refine List.pairwise_cons.mpr ⟨?_, h⟩
      intro x hx
      rcases List.mem_cons.mp hx with rfl | hx
      · exact h1
      · exact Nat.lt_trans h1 (hhd x hx)
    · rw [if_neg h1]
      by_cases h2 : b = hd
      · rw [if_pos h2]
        exact h
      · rw [if_neg h2]
        refine List.pairwise_cons.mpr ⟨?_, ih htl⟩
        intro x hx
        rcases (mem_blockset_set tl b x).mp hx with rfl | hx
        · omega
        · exact hhd x hx

theorem nodup_of_sorted (bs : BlockSet) (h : bs.Pairwise (· < ·)) :
    bs.Nodup :=
  h.imp Nat.ne_of_lt

theorem gistvacuumpage_of_none (cb : Option (ItemPointer → Bool))
    (nsn fuel : Nat) (s : GistBulkDeleteResult) (tot : Nat) (m : Machine)
    (b o : Nat)
    (h : (gistvacuumpageOne cb nsn s tot m b o).recurse_to = none) :
    gistvacuumpage cb nsn (fuel + 1) s tot m b o =
      ((gistvacuumpageOne cb nsn s tot m b o).stats,
       (gistvacuumpageOne cb nsn s tot m b o).totFreePages,
       (gistvacuumpageOne cb nsn s tot m b o).m) := by
  simp only [gistvacuumpage]
  rw [h]

/-- Effect of one scan visit on the statistics object: one more
pages_deleted exactly on a recyclable page, the block recorded in the
internal map exactly on a live internal page, the block recorded in
the empty-leaf map exactly on a live leaf left empty, tuples_removed
grown by the number of callback matches, and the remaining fields
untouched. -/
theorem gistvacuumpageOne_stats1 (cb : Option (ItemPointer → Bool))
    (nsn : Nat) (s : GistBulkDeleteResult) (tot : Nat) (m : Machine)
    (b o : Nat) :
    ((gistvacuumpageOne cb nsn s tot m b o).stats.stats.pages_deleted =
      s.stats.pages_deleted +
        (if deadOrNewPage (m.getPage b) = true then 1 else 0)) ∧
    ((gistvacuumpageOne cb nsn s tot m b o).stats.stats.tuples_removed =
      s.stats.tuples_removed + visitRemoved cb (m.getPage b)) ∧
    ((gistvacuumpageOne cb nsn s tot m b o).stats.internalPagesMap =
      if liveInternal (m.getPage b) = true then
        blockset_set s.internalPagesMap b
      else s.internalPagesMap) ∧
    ((gistvacuumpageOne cb nsn s tot m b o).stats.emptyLeafPagesMap =
      if liveLeaf (m.getPage b) = true ∧
          PageGetMaxOffsetNumber
            ((gistvacuumpageOne cb nsn s tot m b o).m.getPage b) = 0 then
        blockset_set s.emptyLeafPagesMap b
      else s.emptyLeafPagesMap) ∧
    ((gistvacuumpageOne cb nsn s tot m b o).stats.stats.estimated_count =
      s.stats.estimated_count) ∧
    ((gistvacuumpageOne cb nsn s tot m b o).stats.stats.num_pages =
      s.stats.num_pages) ∧
    ((gistvacuumpageOne cb nsn s tot m b o).stats.stats.pages_free =
      s.stats.pages_free) := by
  simp only [gistvacuumpageOne]
  split
  next hnd =>
    have hd : deadOrNewPage (m.getPage b) = true := hnd
    have hll : liveLeaf (m.getPage b) = false := by
      simp only [liveLeaf, deadOrNewPage] at hd ⊢
      rw [hd]
      rfl
    have hli : liveInternal (m.getPage b) = false := by
      simp only [liveInternal, deadOrNewPage] at hd ⊢
      rw [hd]
      rfl
    refine ⟨by rw [hd]; rfl, by simp [visitRemoved, hll],
      by rw [hli]; rfl, by rw [if_neg (by simp [hll])], rfl, rfl, rfl⟩
  next hnd =>
    have hd : deadOrNewPage (m.getPage b) = false := by
      simp only [deadOrNewPage]
      exact Bool.not_eq_true _ ▸ (by
        simpa [PageIsNew, GistPageIsDeleted] using hnd)
    split
    next hleaf =>
      have hll : liveLeaf (m.getPage b) = true := by
        simp only [liveLeaf, deadOrNewPage] at hd ⊢
        simp [hd, GistPageIsLeaf] at hleaf ⊢
        exact hleaf
      have hli : liveInternal (m.getPage b) = false := by
        simp only [liveInternal, deadOrNewPage] at hd ⊢
        simp [hd, GistPageIsLeaf] at hleaf ⊢
        exact hleaf
      have hb : b < m.pages.length := by
        apply getPage_lt_length_of_not_new
        simp only [deadOrNewPage, Bool.or_eq_false_iff] at hd
        exact hd.1
      rcases cb with _ | f
      · refine ⟨?_, ?_, ?_, ?_, ?_, ?_, ?_⟩
        all_goals
          simp only [show (match (none : Option (ItemPointer → Bool)) with
            | some g => collectDeletable g (m.getPage b).tuples FirstOffsetNumber
            | none => ([] : List Nat)) = [] from rfl, List.length_nil,
            gt_iff_lt, Nat.lt_irrefl, if_false]
        · split <;> simp [hd]
        · split <;> simp [visitRemoved]
        · split <;> simp [hli]
        · simp only [hll, true_and]
          split <;> rfl
        · split <;> rfl
        · split <;> rfl
        · split <;> rfl
      · have hcnt := collectDeletable_length f (m.getPage b).tuples
          FirstOffsetNumber
        have hrem := removeOffsets_collectDeletable f (m.getPage b).tuples
          FirstOffsetNumber
        have hscan : scanTuples (some f) (m.getPage b).tuples =
            List.filter (fun u => !f u.t_tid) (m.getPage b).tuples := rfl
        split
        next hpos =>
          simp only [Machine.setPage]
          by_cases hw : m.needsWal
          · rw [if_pos hw]
            refine ⟨by split <;> simp [hd],
              by split <;> simp [visitRemoved, hll, hcnt],
              by split <;> simp [hli], ?_,
              by split <;> rfl, by split <;> rfl, by split <;> rfl⟩
            simp only [hll, true_and]
            split <;> rfl
          · rw [if_neg hw]
            refine ⟨by split <;> simp [hd],
              by split <;> simp [visitRemoved, hll, hcnt],
              by split <;> simp [hli], ?_,
              by split <;> rfl, by split <;> rfl, by split <;> rfl⟩
            simp only [hll, true_and]
            split <;> rfl
        next hzero =>
          have hc0 : (m.getPage b).tuples.countP (fun u => f u.t_tid) = 0 := by
            have hz : (collectDeletable f (m.getPage b).tuples
                FirstOffsetNumber).length = 0 := by
              simpa using hzero
            rw [← hcnt]
            exact hz
          refine ⟨by split <;> simp [hd],
            by split <;> simp [visitRemoved, hll, hc0], ?_, ?_,
            by split <;> rfl, by split <;> rfl, by split <;> rfl⟩
          · split <;> simp [hli]
          · simp only [hll, true_and]
            split <;> rfl
    next hint =>
      have hll : liveLeaf (m.getPage b) = false := by
        simp only [liveLeaf]
        simp only [GistPageIsLeaf] at hint
        simp [Bool.not_eq_true] at hint
        simp [hint]
      have hli : liveInternal (m.getPage b) = true := by
        simp only [liveInternal, deadOrNewPage] at hd ⊢
        simp only [GistPageIsLeaf] at hint
        simp [Bool.not_eq_true] at hint
        simp [hd, hint]
      refine ⟨by simp [hd], by simp [visitRemoved, hll],
        by rw [if_pos hli],
        by rw [if_neg (by simp [hll])], rfl, rfl, rfl⟩

theorem scanTuples_idem (cb : Option (ItemPointer → Bool))
    (ts : List IndexTuple) :
    scanTuples cb (scanTuples cb ts) = scanTuples cb ts := by
  rcases cb with _ | f
  · rfl
  · simp [scanTuples, List.filter_filter]

theorem countP_scanTuples (f : ItemPointer → Bool) (ts : List IndexTuple) :
    (scanTuples (some f) ts).countP (fun u => f u.t_tid) = 0 := by
  simp only [scanTuples, List.countP_eq_length_filter, List.filter_filter]
  have : (fun u : IndexTuple => f u.t_tid && !f u.t_tid) = fun _ => false := by
    funext u
    rcases h : f u.t_tid <;> simp [h]
  rw [this]
  simp

theorem not_liveLeaf_iff (p : GistPage) :
    liveLeaf p = false ↔
      (p.isNew = true ∨ p.isDeleted = true ∨ p.isLeaf = false) := by
  rcases hn : p.isNew <;> rcases hd : p.isDeleted <;> rcases hl : p.isLeaf <;>
    simp [liveLeaf, hn, hd, hl]

theorem visitRemoved_scanned (cb : Option (ItemPointer → Bool)) (p : GistPage)
    (ts : List IndexTuple) (h : p.tuples = scanTuples cb ts) :
    visitRemoved cb p = 0 := by
  rcases cb with _ | f
  · simp [visitRemoved]
  · simp only [visitRemoved]
    split
    · rw [h]
      exact countP_scanTuples f ts
    · rfl

/-- Full characterization of the scan loop over an arbitrary list of
blocks, relative to the machine at loop entry: the file size, relation
mode and xid are unchanged and the WAL only advances; every page keeps
its flags, NSN and right-link; a visited live leaf ends up with its
tuple list filtered by the callback and every other page keeps its
tuples; pages_deleted grows by the number of visits to recyclable
pages; with nothing left to remove the tuples_removed total is
untouched; the two block sets record exactly the visited live internal
pages and the visited live leaves left empty, staying sorted; and the
estimated_count / num_pages / pages_free fields pass through. -/
theorem vacuumScanLoop_spec (cb : Option (ItemPointer → Bool))
    (startNSN fuel : Nat) (L : List Nat) (s0 : GistBulkDeleteResult)
    (tot0 : Nat) (m0 : Machine)
    (hF : ∀ b, (m0.getPage b).followRight = false)
    (hN : ∀ b, (m0.getPage b).nsn ≤ startNSN) :
    ((vacuumScanLoop cb startNSN (fuel + 1) L (s0, tot0, m0)).2.2.pages.length =
        m0.pages.length) ∧
    ((vacuumScanLoop cb startNSN (fuel + 1) L (s0, tot0, m0)).2.2.needsWal =
        m0.needsWal) ∧
    ((vacuumScanLoop cb startNSN (fuel + 1) L (s0, tot0, m0)).2.2.nextXid =
        m0.nextXid) ∧
    (m0.insertPos ≤
      (vacuumScanLoop cb startNSN (fuel + 1) L (s0, tot0, m0)).2.2.insertPos) ∧
    (∀ x,
      (((vacuumScanLoop cb startNSN (fuel + 1) L
          (s0, tot0, m0)).2.2.getPage x).isNew = (m0.getPage x).isNew) ∧
      (((vacuumScanLoop cb startNSN (fuel + 1) L
          (s0, tot0, m0)).2.2.getPage x).isDeleted = (m0.getPage x).isDeleted) ∧
      (((vacuumScanLoop cb startNSN (fuel + 1) L
          (s0, tot0, m0)).2.2.getPage x).isLeaf = (m0.getPage x).isLeaf) ∧
      (((vacuumScanLoop cb startNSN (fuel + 1) L
          (s0, tot0, m0)).2.2.getPage x).followRight =
        (m0.getPage x).followRight) ∧
      (((vacuumScanLoop cb startNSN (fuel + 1) L
          (s0, tot0, m0)).2.2.getPage x).nsn = (m0.getPage x).nsn) ∧
      (((vacuumScanLoop cb startNSN (fuel + 1) L
          (s0, tot0, m0)).2.2.getPage x).rightlink =
        (m0.getPage x).rightlink)) ∧
    (∀ x,
      ((vacuumScanLoop cb startNSN (fuel + 1) L
          (s0, tot0, m0)).2.2.getPage x).tuples =
        if x ∈ L ∧ liveLeaf (m0.getPage x) = true then
          scanTuples cb (m0.getPage x).tuples
        else (m0.getPage x).tuples) ∧
    ((vacuumScanLoop cb startNSN (fuel + 1) L
        (s0, tot0, m0)).1.stats.pages_deleted =
      s0.stats.pages_deleted +
        L.countP (fun x => deadOrNewPage (m0.getPage x))) ∧
    ((∀ x, visitRemoved cb (m0.getPage x) = 0) →
      (vacuumScanLoop cb startNSN (fuel + 1) L
          (s0, tot0, m0)).1.stats.tuples_removed = s0.stats.tuples_removed) ∧
    (∀ x, x ∈ (vacuumScanLoop cb startNSN (fuel + 1) L
        (s0, tot0, m0)).1.internalPagesMap ↔
      x ∈ s0.internalPagesMap ∨
        (x ∈ L ∧ liveInternal (m0.getPage x) = true)) ∧
    (∀ x, x ∈ (vacuumScanLoop cb startNSN (fuel + 1) L
        (s0, tot0, m0)).1.emptyLeafPagesMap ↔
      x ∈ s0.emptyLeafPagesMap ∨
        (x ∈ L ∧ liveLeaf (m0.getPage x) = true ∧
          (scanTuples cb (m0.getPage x).tuples).length = 0)) ∧
    (s0.internalPagesMap.Pairwise (· < ·) →
      (vacuumScanLoop cb startNSN (fuel + 1) L
        (s0, tot0, m0)).1.internalPagesMap.Pairwise (· < ·)) ∧
    (s0.emptyLeafPagesMap.Pairwise (· < ·) →
      (vacuumScanLoop cb startNSN (fuel + 1) L
        (s0, tot0, m0)).1.emptyLeafPagesMap.Pairwise (· < ·)) ∧
    ((vacuumScanLoop cb startNSN (fuel + 1) L
        (s0, tot0, m0)).1.stats.estimated_count = s0.stats.estimated_count) ∧
    ((vacuumScanLoop cb startNSN (fuel + 1) L
        (s0, tot0, m0)).1.stats.num_pages = s0.stats.num_pages) ∧
    ((vacuumScanLoop cb startNSN (fuel + 1) L
        (s0, tot0, m0)).1.stats.pages_free = s0.stats.pages_free) := by
  induction L generalizing s0 tot0 m0 with
  | nil =>
    refine ⟨rfl, rfl, rfl, Nat.le_refl _,
      fun x => ⟨rfl, rfl, rfl, rfl, rfl, rfl⟩,
      fun x => by simp [vacuumScanLoop],
      by simp [vacuumScanLoop], fun _ => rfl,
      fun x => by simp [vacuumScanLoop],
      fun x => by simp [vacuumScanLoop], fun h => h, fun h => h, rfl, rfl, rfl⟩
  | cons b rest ih =>
    have hrn : (gistvacuumpageOne cb startNSN s0 tot0 m0 b b).recurse_to =
        none :=
      gistvacuumpageOne_recurse_none cb startNSN s0 tot0 m0 b b
        ((noFollowRight_iff m0).mpr hF) ((nsnBound_iff m0 startNSN).mpr hN)
    have hstep : vacuumScanLoop cb startNSN (fuel + 1) (b :: rest)
        (s0, tot0, m0) =
        vacuumScanLoop cb startNSN (fuel + 1) rest
          ((gistvacuumpageOne cb startNSN s0 tot0 m0 b b).stats,
           (gistvacuumpageOne cb startNSN s0 tot0 m0 b b).totFreePages,
           (gistvacuumpageOne cb startNSN s0 tot0 m0 b b).m) := by
      simp only [vacuumScanLoop, List.foldl_cons]
      rw [gistvacuumpage_of_none cb startNSN fuel s0 tot0 m0 b b hrn]
    rw [hstep]
    obtain ⟨hp1, hp2, hp3, hp4, hp5, hp6, hp7⟩ :=
      gistvacuumpageOne_pages cb startNSN s0 tot0 m0 b b
    obtain ⟨ht1, ht2, ht3, ht4, ht5, ht6, ht7⟩ :=
      gistvacuumpageOne_stats1 cb startNSN s0 tot0 m0 b b
    set r := gistvacuumpageOne cb startNSN s0 tot0 m0 b b with hrdef
    have hshape : ∀ x, ((r.m.getPage x).isNew = (m0.getPage x).isNew) ∧
        ((r.m.getPage x).isDeleted = (m0.getPage x).isDeleted) ∧
        ((r.m.getPage x).isLeaf = (m0.getPage x).isLeaf) ∧
        ((r.m.getPage x).followRight = (m0.getPage x).followRight) ∧
        ((r.m.getPage x).nsn = (m0.getPage x).nsn) ∧
        ((r.m.getPage x).rightlink = (m0.getPage x).rightlink) := by
      intro x
      by_cases hxb : x = b
      · subst hxb
        exact hp6
      · rw [hp5 x hxb]
        exact ⟨rfl, rfl, rfl, rfl, rfl, rfl⟩
    have hclass : ∀ x,
        (liveLeaf (r.m.getPage x) = liveLeaf (m0.getPage x)) ∧
        (liveInternal (r.m.getPage x) = liveInternal (m0.getPage x)) ∧
        (deadOrNewPage (r.m.getPage x) = deadOrNewPage (m0.getPage x)) := by
      intro x
      obtain ⟨e1, e2, e3, _, _, _⟩ := hshape x
      exact ⟨by simp [liveLeaf, e1, e2, e3], by simp [liveInternal, e1, e2, e3],
        by simp [deadOrNewPage, e1, e2]⟩
    have htup : ∀ x, (r.m.getPage x).tuples =
        if x = b ∧ liveLeaf (m0.getPage x) = true then
          scanTuples cb (m0.getPage x).tuples
        else (m0.getPage x).tuples := by
      intro x
      by_cases hxb : x = b
      · subst hxb
        rw [hp7]
        by_cases hlv : liveLeaf (m0.getPage x) = true
        · have hnc : ¬((m0.getPage x).isNew = true ∨
              (m0.getPage x).isDeleted = true ∨
              (m0.getPage x).isLeaf = false) := by
            intro hc
            have hlf := (not_liveLeaf_iff (m0.getPage x)).mpr hc
            rw [hlv] at hlf
            exact absurd hlf (by simp)
          rw [if_pos (And.intro rfl hlv), if_neg hnc]
        · have hlf : liveLeaf (m0.getPage x) = false := by
            revert hlv
            rcases liveLeaf (m0.getPage x) <;> simp
          have hnb : ¬(x = x ∧ liveLeaf (m0.getPage x) = true) :=
            fun hc => hlv hc.2
          rw [if_pos ((not_liveLeaf_iff (m0.getPage x)).mp hlf), if_neg hnb]
      · rw [hp5 x hxb, if_neg (fun hc => hxb hc.1)]
    have hF1 : ∀ x, (r.m.getPage x).followRight = false := fun x =>
      ((hshape x).2.2.2.1).trans (hF x)
    have hN1 : ∀ x, (r.m.getPage x).nsn ≤ startNSN := by
      intro x
      rw [(hshape x).2.2.2.2.1]
      exact hN x
    obtain ⟨ih1, ih2, ih3, ih4, ih5, ih6, ih7, ih8, ih9, ih10, ih11, ih12,
      ih13, ih14, ih15⟩ := ih r.stats r.totFreePages r.m hF1 hN1
    refine ⟨ih1.trans hp1, ih2.trans hp2, ih3.trans hp3,
      Nat.le_trans hp4 ih4, ?_, ?_, ?_, ?_, ?_, ?_, ?_, ?_,
      ih13.trans ht5, ih14.trans ht6, ih15.trans ht7⟩
    · intro x
      obtain ⟨i1, i2, i3, i4, i5, i6⟩ := ih5 x
      obtain ⟨e1, e2, e3, e4, e5, e6⟩ := hshape x
      exact ⟨i1.trans e1, i2.trans e2, i3.trans e3, i4.trans e4, i5.trans e5,
        i6.trans e6⟩
    · intro x
      rw [ih6 x]
      simp only [(hclass x).1, htup x]
      by_cases hlv : liveLeaf (m0.getPage x) = true
      · by_cases hxb : x = b
        · rw [if_pos (And.intro hxb hlv),
            if_pos (And.intro
              (show x ∈ b :: rest from by
                rw [hxb]
                exact List.mem_cons_self b rest) hlv)]
          by_cases hxr : x ∈ rest
          · rw [if_pos (And.intro hxr hlv), scanTuples_idem]
          · have hcr : ¬(x ∈ rest ∧ liveLeaf (m0.getPage x) = true) :=
              fun hc => hxr hc.1
            rw [if_neg hcr]
        · have hci : ¬(x = b ∧ liveLeaf (m0.getPage x) = true) :=
            fun hc => hxb hc.1
          rw [if_neg hci]
          by_cases hxr : x ∈ rest
          · rw [if_pos (And.intro hxr hlv),
              if_pos (And.intro (List.mem_cons_of_mem b hxr) hlv)]
          · have hcr : ¬(x ∈ rest ∧ liveLeaf (m0.getPage x) = true) :=
              fun hc => hxr hc.1
            have hcc : ¬(x ∈ b :: rest ∧ liveLeaf (m0.getPage x) = true) := by
              intro hc
              rcases List.mem_cons.mp hc.1 with h | h
              · exact hxb h
              · exact hxr h
            rw [if_neg hcr, if_neg hcc]
      · have h1 : ¬(x = b ∧ liveLeaf (m0.getPage x) = true) :=
          fun hc => hlv hc.2
        have h2 : ¬(x ∈ rest ∧ liveLeaf (m0.getPage x) = true) :=
          fun hc => hlv hc.2
        have h3 : ¬(x ∈ b :: rest ∧ liveLeaf (m0.getPage x) = true) :=
          fun hc => hlv hc.2
        rw [if_neg h1, if_neg h2, if_neg h3]
    · rw [ih7, ht1]
      have hcc : rest.countP (fun x => deadOrNewPage (r.m.getPage x)) =
          rest.countP (fun x => deadOrNewPage (m0.getPage x)) :=
        List.countP_congr (fun x _ => by rw [(hclass x).2.2])
      rw [hcc, List.countP_cons]
      by_cases hdb : deadOrNewPage (m0.getPage b) = true <;>
        simp [hdb] <;> omega
    · intro hstable
      have hst1 : ∀ x, visitRemoved cb (r.m.getPage x) = 0 := by
        intro x
        by_cases hxb : x = b
        · subst hxb
          by_cases hlv : liveLeaf (m0.getPage x) = true
          · have hh := htup x
            rw [if_pos ⟨rfl, hlv⟩] at hh
            exact visitRemoved_scanned cb _ _ hh
          · have hlf : liveLeaf (r.m.getPage x) = false := by
              rw [(hclass x).1]
              revert hlv
              rcases liveLeaf (m0.getPage x) <;> simp
            simp [visitRemoved, hlf]
        · rw [hp5 x hxb]
          exact hstable x
      rw [ih8 hst1, ht2, hstable b]
      exact Nat.add_zero _
    · intro x
      have hiff : x ∈ r.stats.internalPagesMap ↔
          x ∈ s0.internalPagesMap ∨
            (x = b ∧ liveInternal (m0.getPage b) = true) := by
        rw [ht3]
        by_cases hib : liveInternal (m0.getPage b) = true
        · rw [if_pos hib, mem_blockset_set]
          constructor
          · rintro (rfl | hx)
            · exact Or.inr ⟨rfl, hib⟩
            · exact Or.inl hx
          · rintro (hx | ⟨rfl, _⟩)
            · exact Or.inr hx
            · exact Or.inl rfl
        · rw [if_neg hib]
          constructor
          · exact Or.inl
          · rintro (hx | ⟨rfl, hx⟩)
            · exact hx
            · exact absurd hx hib
      rw [ih9 x, hiff]
      simp only [(hclass x).2.1]
      constructor
      · rintro ((hx | ⟨rfl, hib⟩) | ⟨hxr, hil⟩)
        · exact Or.inl hx
        · exact Or.inr ⟨List.mem_cons_self _ _, hib⟩
        · exact Or.inr ⟨List.mem_cons_of_mem _ hxr, hil⟩
      · rintro (hx | ⟨hmem, hil⟩)
        · exact Or.inl (Or.inl hx)
        · rcases List.mem_cons.mp hmem with rfl | hxr
          · exact Or.inl (Or.inr ⟨rfl, hil⟩)
          · exact Or.inr ⟨hxr, hil⟩
    · intro x
      have hemb : x ∈ r.stats.emptyLeafPagesMap ↔
          x ∈ s0.emptyLeafPagesMap ∨
            (x = b ∧ liveLeaf (m0.getPage b) = true ∧
              (scanTuples cb (m0.getPage b).tuples).length = 0) := by
        rw [ht4]
        by_cases hlb : liveLeaf (m0.getPage b) = true
        · have hlen : PageGetMaxOffsetNumber (r.m.getPage b) =
              (scanTuples cb (m0.getPage b).tuples).length := by
            have hh := htup b
            rw [if_pos ⟨rfl, hlb⟩] at hh
            simp [PageGetMaxOffsetNumber, hh]
          by_cases hz : (scanTuples cb (m0.getPage b).tuples).length = 0
          · rw [if_pos ⟨hlb, by rw [hlen]; exact hz⟩, mem_blockset_set]
            constructor
            · rintro (rfl | hx)
              · exact Or.inr ⟨rfl, hlb, hz⟩
              · exact Or.inl hx
            · rintro (hx | ⟨rfl, _, _⟩)
              · exact Or.inr hx
              · exact Or.inl rfl
          · rw [if_neg (fun hc => hz (by rw [← hlen]; exact hc.2))]
            constructor
            · exact Or.inl
            · rintro (hx | ⟨rfl, _, hz'⟩)
              · exact hx
              · exact absurd hz' hz
        · rw [if_neg (fun hc => hlb hc.1)]
          constructor
          · exact Or.inl
          · rintro (hx | ⟨rfl, hl', _⟩)
            · exact hx
            · exact absurd hl' hlb
      have hsc : (scanTuples cb (r.m.getPage x).tuples).length =
          (scanTuples cb (m0.getPage x).tuples).length := by
        rw [htup x]
        split
        · rw [scanTuples_idem]
        · rfl
      rw [ih10 x, hemb, hsc]
      simp only [(hclass x).1]
      constructor
      · rintro ((hx | ⟨rfl, h1, h2⟩) | ⟨hxr, h1, h2⟩)
        · exact Or.inl hx
        · exact Or.inr ⟨List.mem_cons_self _ _, h1, h2⟩
        · exact Or.inr ⟨List.mem_cons_of_mem _ hxr, h1, h2⟩
      · rintro (hx | ⟨hmem, h1, h2⟩)
        · exact Or.inl (Or.inl hx)
        · rcases List.mem_cons.mp hmem with rfl | hxr
          · exact Or.inl (Or.inr ⟨rfl, h1, h2⟩)
          · exact Or.inr ⟨hxr, h1, h2⟩
    · intro hs
      apply ih11
      rw [ht3]
      split
      · exact sorted_blockset_set _ _ hs
      · exact hs
    · intro hs
      apply ih12
      rw [ht4]
      split
      · exact sorted_blockset_set _ _ hs
      · exact hs

/-! ### C9 groundwork: single-slot deletion arithmetic -/

theorem take_drop_length {α : Type} (L : List α) (i : Nat)
    (h : i < L.length) :
    (L.take i ++ L.drop (i + 1)).length = L.length - 1 := by
  simp only [List.length_append, List.length_take, List.length_drop]
  omega

theorem take_drop_getElem_lt {α : Type} (L : List α) (i j : Nat)
    (h : j < i) (hi : i ≤ L.length) :
    (L.take i ++ L.drop (i + 1))[j]? = L[j]? := by
  rw [List.getElem?_append_left (by simp [List.length_take]; omega)]
  rw [List.getElem?_take_of_lt h]

theorem take_drop_getElem_ge {α : Type} (L : List α) (i j : Nat)
    (h : i ≤ j) (hi : i < L.length) :
    (L.take i ++ L.drop (i + 1))[j]? = L[j + 1]? := by
  rw [List.getElem?_append_right (by simp [List.length_take]; omega)]
  rw [List.getElem?_drop]
  congr 1
  simp [List.length_take]
  omega

theorem map_take_drop {α β : Type} (f : α → β) (L : List α) (i : Nat) :
    (L.take i ++ L.drop (i + 1)).map f =
      (L.map f).take i ++ (L.map f).drop (i + 1) := by
  simp [List.map_take, List.map_drop]

theorem take_drop_filter_ne (L : List Nat) (i : Nat) (c : Nat)
    (hi : i < L.length) (hc : L[i]? = some c) (hnd : L.Nodup) :
    L.take i ++ L.drop (i + 1) = L.filter (fun x => decide (x ≠ c)) := by
  induction L generalizing i with
  | nil => simp at hi
  | cons a rest ih =>
    rcases List.nodup_cons.mp hnd with ⟨hna, hnr⟩
    cases i with
    | zero =>
      simp only [List.getElem?_cons_zero, Option.some_inj] at hc
      subst hc
      simp only [List.take_zero, List.drop_succ_cons, List.drop_zero,
        List.nil_append, List.filter_cons]
      rw [if_neg (by simp)]
      rw [List.filter_eq_self.mpr]
      intro x hx
      simp only [decide_eq_true_eq]
      intro hxc
      exact hna (hxc ▸ hx)
    | succ i =>
      simp only [List.getElem?_cons_succ] at hc
      have hi' : i < rest.length := by simpa using hi
      have hmem : c ∈ rest := by
        have := List.getElem?_eq_some_iff.mp hc
        rcases this with ⟨hlt, heq⟩
        exact heq ▸ List.getElem_mem hlt
      simp only [List.take_succ_cons, List.drop_succ_cons, List.cons_append,
        List.filter_cons]
      rw [if_pos (by simp; intro hac; exact hna (hac ▸ hmem))]
      rw [ih i hi' hc hnr]

/-! ### C9 groundwork: the staging loop as a capped prefix -/

theorem emptyChildren_spec (em : BlockSet) (ts : List IndexTuple) (o : Nat) :
    ∀ pr ∈ emptyChildren em ts o,
      o ≤ pr.2 ∧ pr.2 - o < ts.length ∧
      (∃ t, ts[pr.2 - o]? = some t ∧ t.t_tid.block = pr.1) ∧
      blockset_get pr.1 em = true := by
  induction ts generalizing o with
  | nil => intro pr hpr; simp [emptyChildren] at hpr
  | cons t rest ih =>
    intro pr hpr
    simp only [emptyChildren] at hpr
    by_cases hbg : blockset_get t.t_tid.block em = true
    · rw [if_pos hbg] at hpr
      rcases List.mem_cons.mp hpr with rfl | htl
      · exact ⟨Nat.le_refl _, by simp, ⟨t, by simp, rfl⟩, hbg⟩
      · obtain ⟨h1, h2, ⟨u, hu, hub⟩, h4⟩ := ih (o + 1) pr htl
        refine ⟨by omega, by simp; omega, ⟨u, ?_, hub⟩, h4⟩
        have : pr.2 - o = (pr.2 - (o + 1)) + 1 := by omega
        rw [this, List.getElem?_cons_succ]
        exact hu
    · rw [if_neg hbg] at hpr
      obtain ⟨h1, h2, ⟨u, hu, hub⟩, h4⟩ := ih (o + 1) pr hpr
      refine ⟨by omega, by simp; omega, ⟨u, ?_, hub⟩, h4⟩
      have : pr.2 - o = (pr.2 - (o + 1)) + 1 := by omega
      rw [this, List.getElem?_cons_succ]
      exact hu

theorem emptyChildren_pairwise (em : BlockSet) (ts : List IndexTuple)
    (o : Nat) :
    (emptyChildren em ts o).Pairwise (fun a b => a.2 < b.2) := by
  induction ts generalizing o with
  | nil => exact List.Pairwise.nil
  | cons t rest ih =>
    simp only [emptyChildren]
    split
    · refine List.pairwise_cons.mpr ⟨?_, ih (o + 1)⟩
      intro pr hpr
      have := (emptyChildren_spec em rest (o + 1) pr hpr).1
      omega
    · exact ih (o + 1)

theorem emptyChildren_map_fst (em : BlockSet) (ts : List IndexTuple)
    (o : Nat) :
    (emptyChildren em ts o).map Prod.fst =
      (ts.map (fun t => t.t_tid.block)).filter
        (fun c => blockset_get c em) := by
  induction ts generalizing o with
  | nil => rfl
  | cons t rest ih =>
    simp only [emptyChildren, List.map_cons, List.filter_cons]
    by_cases hbg : blockset_get t.t_tid.block em = true
    · rw [if_pos hbg, if_pos hbg]
      simp [ih (o + 1)]
    · rw [if_neg hbg, if_neg hbg]
      exact ih (o + 1)

theorem stageChildren_eq_take (em : BlockSet) (ts : List IndexTuple)
    (maxoff o : Nat) (acc : List (Nat × Nat)) :
    stageChildren em ts maxoff o acc =
      acc ++ (emptyChildren em ts o).take (maxoff - 1 - acc.length) := by
  induction ts generalizing o acc with
  | nil => simp [stageChildren, emptyChildren]
  | cons t rest ih =>
    simp only [stageChildren, emptyChildren]
    by_cases hcap : acc.length < maxoff - 1
    · rw [if_pos hcap]
      by_cases hbg : blockset_get t.t_tid.block em = true
      · rw [if_pos hbg, if_pos hbg, ih]
        have hpos : maxoff - 1 - acc.length =
            (maxoff - 1 - (acc ++ [(t.t_tid.block, o)]).length) + 1 := by
          simp only [List.length_append, List.length_cons, List.length_nil]
          omega
        rw [hpos, List.take_succ_cons]
        simp
      · rw [if_neg hbg, if_neg hbg, ih]
    · rw [if_neg hcap]
      have hz : maxoff - 1 - acc.length = 0 := by omega
      rw [hz, List.take_zero, List.append_nil]

/-! ### C9 groundwork: more facts about a successful unlink -/

theorem gistdeletepage_success_fst (m : Machine) (s : GistBulkDeleteResult)
    (p d l t : Nat)
    (h1 : PageIsNew (m.getPage p) = false)
    (h2 : GistPageIsDeleted (m.getPage p) = false)
    (h3 : GistPageIsLeaf (m.getPage p) = false)
    (h4 : d ≤ PageGetMaxOffsetNumber (m.getPage p))
    (h5 : FirstOffsetNumber < PageGetMaxOffsetNumber (m.getPage p))
    (h6 : (PageGetTuple (m.getPage p) d).t_tid.block = l) :
    (gistdeletepage m s p d l t).fst = true := by
  rw [gistdeletepage_success m s p d l t h1 h2 h3 h4 h5 h6]

theorem gistdeletepage_success_stats (m : Machine) (s : GistBulkDeleteResult)
    (p d l t : Nat)
    (h1 : PageIsNew (m.getPage p) = false)
    (h2 : GistPageIsDeleted (m.getPage p) = false)
    (h3 : GistPageIsLeaf (m.getPage p) = false)
    (h4 : d ≤ PageGetMaxOffsetNumber (m.getPage p))
    (h5 : FirstOffsetNumber < PageGetMaxOffsetNumber (m.getPage p))
    (h6 : (PageGetTuple (m.getPage p) d).t_tid.block = l) :
    (gistdeletepage m s p d l t).snd.snd =
      { s with stats :=
        { s.stats with pages_deleted := s.stats.pages_deleted + 1 } } := by
  rw [gistdeletepage_success m s p d l t h1 h2 h3 h4 h5 h6]

theorem gistdeletepage_success_getPage_other (m : Machine)
    (s : GistBulkDeleteResult) (p d l t : Nat)
    (h1 : PageIsNew (m.getPage p) = false)
    (h2 : GistPageIsDeleted (m.getPage p) = false)
    (h3 : GistPageIsLeaf (m.getPage p) = false)
    (h4 : d ≤ PageGetMaxOffsetNumber (m.getPage p))
    (h5 : FirstOffsetNumber < PageGetMaxOffsetNumber (m.getPage p))
    (h6 : (PageGetTuple (m.getPage p) d).t_tid.block = l)
    (x : Nat) (hxp : x ≠ p) (hxl : x ≠ l) :
    (gistdeletepage m s p d l t).snd.fst.getPage x = m.getPage x := by
  rw [gistdeletepage_success m s p d l t h1 h2 h3 h4 h5 h6]
  by_cases hw : m.needsWal
  all_goals
    simp [hw, appendWal, gistGetFakeLSN, Machine.setPage, Machine.getPage,
      List.getD, List.getElem?_set_ne, Ne.symm hxp, Ne.symm hxl]

theorem gistdeletepage_success_frame (m : Machine)
    (s : GistBulkDeleteResult) (p d l t : Nat)
    (h1 : PageIsNew (m.getPage p) = false)
    (h2 : GistPageIsDeleted (m.getPage p) = false)
    (h3 : GistPageIsLeaf (m.getPage p) = false)
    (h4 : d ≤ PageGetMaxOffsetNumber (m.getPage p))
    (h5 : FirstOffsetNumber < PageGetMaxOffsetNumber (m.getPage p))
    (h6 : (PageGetTuple (m.getPage p) d).t_tid.block = l) :
    ((gistdeletepage m s p d l t).snd.fst.pages.length = m.pages.length) ∧
    ((gistdeletepage m s p d l t).snd.fst.needsWal = m.needsWal) ∧
    ((gistdeletepage m s p d l t).snd.fst.nextXid = m.nextXid) ∧
    (m.insertPos ≤ (gistdeletepage m s p d l t).snd.fst.insertPos) := by
  rw [gistdeletepage_success m s p d l t h1 h2 h3 h4 h5 h6]
  by_cases hw : m.needsWal
  all_goals
    simp [hw, appendWal, gistGetFakeLSN, Machine.setPage]

/-! ### C9 groundwork: the reclaim skip path -/

theorem deleteStaged_allfail (p t : Nat) (S : List (Nat × Nat)) (d : Nat)
    (s : GistBulkDeleteResult) (m : Machine)
    (h : ∀ pr ∈ S, recheckPass m p pr.fst = false) :
    deleteStaged p t S d s m = (s, m) := by
  induction S generalizing d with
  | nil => rfl
  | cons pr rest ih =>
    obtain ⟨c, off⟩ := pr
    have hh := h (c, off) (List.mem_cons_self _ _)
    simp only [recheckPass] at hh
    simp only [deleteStaged]
    rw [if_neg (by rw [hh]; simp)]
    exact ih d (fun pr hpr => h pr (List.mem_cons_of_mem _ hpr))

theorem stageChildren_congr (em em' : BlockSet) (ts : List IndexTuple)
    (maxoff o : Nat) (acc : List (Nat × Nat))
    (h : ∀ u ∈ ts, blockset_get u.t_tid.block em =
      blockset_get u.t_tid.block em') :
    stageChildren em ts maxoff o acc = stageChildren em' ts maxoff o acc := by
  induction ts generalizing o acc with
  | nil => rfl
  | cons u rest ih =>
    simp only [stageChildren]
    rw [h u (List.mem_cons_self _ _)]
    split
    · exact ih _ _ (fun v hv => h v (List.mem_cons_of_mem _ hv))
    · rfl

/-- Full characterization of the per-parent deletion loop of the
reclaim pass.  `T` is the parent's slot list as staged (the staged
offsets refer to it), `d` the number of slots already dropped, `lo` a
bound separating the already-dropped region from the staged suffix.
Every staged child that passes the recheck is unlinked (the slot
offset corrected by `d` lands on the right slot), every other child is
left alone, and pages_deleted grows by exactly the number of passing
children. -/
theorem deleteStaged_spec (p txid : Nat) (T : List IndexTuple)
    (S : List (Nat × Nat)) (d lo : Nat)
    (s : GistBulkDeleteResult) (m : Machine)
    (hpl : p < m.pages.length)
    (hpn : (m.getPage p).isNew = false)
    (hpd : (m.getPage p).isDeleted = false)
    (hpf : (m.getPage p).isLeaf = false)
    (hlen : (m.getPage p).tuples.length = T.length - d)
    (hget : ∀ k, lo ≤ k → k ≤ T.length →
      (m.getPage p).tuples[k - 1 - d]? = T[k - 1]?)
    (hnd : ((m.getPage p).tuples.map (fun u => u.t_tid.block)).Nodup)
    (hlo : d < lo)
    (hcap : d + S.length + 1 ≤ T.length)
    (hS : ∀ pr ∈ S, lo ≤ pr.2 ∧ pr.2 ≤ T.length ∧
      (∃ u, T[pr.2 - 1]? = some u ∧ u.t_tid.block = pr.1) ∧ pr.1 ≠ p ∧
      (m.getPage pr.1).isNew = false ∧ (m.getPage pr.1).isDeleted = false ∧
      (m.getPage pr.1).isLeaf = true ∧ (m.getPage pr.1).tuples = [] ∧
      (m.getPage pr.1).followRight = false)
    (hSinc : S.Pairwise (fun a b => a.2 < b.2))
    (hSblk : S.Pairwise (fun a b => a.1 ≠ b.1)) :
    ((deleteStaged p txid S d s m).1 = { s with stats :=
      { s.stats with pages_deleted := s.stats.pages_deleted +
        (S.filter (fun pr =>
          decide ((m.getPage p).nsn ≤ (m.getPage pr.1).nsn))).length } }) ∧
    ((deleteStaged p txid S d s m).2.pages.length = m.pages.length) ∧
    ((deleteStaged p txid S d s m).2.needsWal = m.needsWal) ∧
    ((deleteStaged p txid S d s m).2.nextXid = m.nextXid) ∧
    (m.insertPos ≤ (deleteStaged p txid S d s m).2.insertPos) ∧
    (((deleteStaged p txid S d s m).2.getPage p).isNew = false ∧
     ((deleteStaged p txid S d s m).2.getPage p).isDeleted = false ∧
     ((deleteStaged p txid S d s m).2.getPage p).isLeaf = false ∧
     ((deleteStaged p txid S d s m).2.getPage p).followRight =
       (m.getPage p).followRight ∧
     ((deleteStaged p txid S d s m).2.getPage p).nsn = (m.getPage p).nsn ∧
     ((deleteStaged p txid S d s m).2.getPage p).rightlink =
       (m.getPage p).rightlink) ∧
    (((deleteStaged p txid S d s m).2.getPage p).tuples.map
        (fun u => u.t_tid.block) =
      ((m.getPage p).tuples.map (fun u => u.t_tid.block)).filter
        (fun c => decide (c ∉ (S.filter (fun pr =>
          decide ((m.getPage p).nsn ≤ (m.getPage pr.1).nsn))).map
            Prod.fst))) ∧
    (((deleteStaged p txid S d s m).2.getPage p).tuples.length =
      (m.getPage p).tuples.length -
        (S.filter (fun pr =>
          decide ((m.getPage p).nsn ≤ (m.getPage pr.1).nsn))).length) ∧
    (∀ pr ∈ S,
      if decide ((m.getPage p).nsn ≤ (m.getPage pr.1).nsn) = true then
        DeletedFrom ((deleteStaged p txid S d s m).2.getPage pr.1)
          (m.getPage pr.1)
      else (deleteStaged p txid S d s m).2.getPage pr.1 = m.getPage pr.1) ∧
    (∀ x, x ≠ p → (∀ pr ∈ S, x ≠ pr.1) →
      (deleteStaged p txid S d s m).2.getPage x = m.getPage x) := by
  induction S generalizing d lo s m with
  | nil =>
    refine ⟨by simp; rfl, rfl, rfl, rfl, Nat.le_refl _,
      ⟨hpn, hpd, hpf, rfl, rfl, rfl⟩, ?_, by simp; rfl,
      fun pr hpr => by simp at hpr, fun x _ _ => rfl⟩
    rw [show (deleteStaged p txid [] d s m) = (s, m) from rfl]
    simp
  | cons pr rest ih =>
    obtain ⟨blk, off⟩ := pr
    obtain ⟨hSlo, hSle, ⟨u, hu, hub⟩, hSnp, hcn, hcd, hcl, hct, hcf⟩ :=
      hS (blk, off) (List.mem_cons_self _ _)
    have hrecheck : (GistPageIsLeaf (m.getPage blk)
        && decide (PageGetMaxOffsetNumber (m.getPage blk) =
          InvalidOffsetNumber)
        && !(GistFollowRight (m.getPage blk)
          || decide (GistPageGetNSN (m.getPage p) >
            GistPageGetNSN (m.getPage blk)))) =
        !decide (GistPageGetNSN (m.getPage p) >
          GistPageGetNSN (m.getPage blk)) := by
      simp [GistPageIsLeaf, hcl, PageGetMaxOffsetNumber, hct,
        InvalidOffsetNumber, GistFollowRight, hcf]
    by_cases hnsn : (m.getPage p).nsn ≤ (m.getPage blk).nsn
    · -- the recheck passes and the unlink goes through
      have hbl : blk < m.pages.length :=
        getPage_lt_length_of_not_new m blk hcn
      have h4 : off - d ≤ PageGetMaxOffsetNumber (m.getPage p) := by
        simp only [PageGetMaxOffsetNumber]
        omega
      have h5 : FirstOffsetNumber < PageGetMaxOffsetNumber (m.getPage p) := by
        simp only [PageGetMaxOffsetNumber, FirstOffsetNumber]
        simp only [List.length_cons] at hcap
        omega
      have hslot : (m.getPage p).tuples[off - d - 1]? = some u := by
        have := hget off (by omega) hSle
        have harith : off - 1 - d = off - d - 1 := by omega
        rw [harith] at this
        rw [this, hu]
      have h6 : (PageGetTuple (m.getPage p) (off - d)).t_tid.block = blk := by
        simp only [PageGetTuple, List.getD_eq_getElem?_getD, hslot,
          Option.getD_some]
        exact hub
      have hpass : (deleteStaged p txid ((blk, off) :: rest) d s m) =
          deleteStaged p txid rest (d + 1)
            (gistdeletepage m s p (off - d) blk txid).snd.snd
            (gistdeletepage m s p (off - d) blk txid).snd.fst := by
        simp only [deleteStaged]
        rw [if_pos (by rw [hrecheck]; simp [GistPageGetNSN]; exact hnsn)]
        rw [gistdeletepage_success_fst m s p (off - d) blk txid hpn hpd hpf
          h4 h5 h6]
        simp
      set m' := (gistdeletepage m s p (off - d) blk txid).snd.fst with hm'
      set s' := (gistdeletepage m s p (off - d) blk txid).snd.snd with hs'
      obtain ⟨hf1, hf2, hf3, hf4⟩ :=
        gistdeletepage_success_frame m s p (off - d) blk txid hpn hpd hpf
          h4 h5 h6
      have hppage : m'.getPage p =
          { PageIndexTupleDelete (m.getPage p) (off - d) with
            lsn := if m.needsWal then m.insertPos + 1 else m.fakeLsn + 1 } :=
        gistdeletepage_success_getPage_parent m s p (off - d) blk txid hpn
          hpd hpf h4 h5 h6 hSnp.symm
      have hlpage : m'.getPage blk =
          { m.getPage blk with
            deleteXid := txid
            isDeleted := true
            lsn := if m.needsWal then m.insertPos + 1 else m.fakeLsn + 1 } :=
        gistdeletepage_success_getPage_leaf m s p (off - d) blk txid hpn
          hpd hpf h4 h5 h6 hSnp.symm hbl
      have hother : ∀ x, x ≠ p → x ≠ blk → m'.getPage x = m.getPage x :=
        fun x hxp hxb =>
          gistdeletepage_success_getPage_other m s p (off - d) blk txid hpn
            hpd hpf h4 h5 h6 x hxp hxb
      have hsstats : s' = { s with stats :=
          { s.stats with pages_deleted := s.stats.pages_deleted + 1 } } :=
        gistdeletepage_success_stats m s p (off - d) blk txid hpn hpd hpf
          h4 h5 h6
      -- shape of the new parent tuple list
      have hidx : off - d - 1 < (m.getPage p).tuples.length := by
        simp only [List.length_cons] at hcap
        omega
      have htpar : (m'.getPage p).tuples =
          (m.getPage p).tuples.take (off - d - 1) ++
            (m.getPage p).tuples.drop (off - d) := by
        rw [hppage]
        simp only [PageIndexTupleDelete]
      have hlen' : (m'.getPage p).tuples.length = T.length - (d + 1) := by
        rw [htpar]
        have h10 : off - d - 1 + 1 = off - d := by omega
        have := take_drop_length (m.getPage p).tuples (off - d - 1)
          (by omega)
        rw [h10] at this
        rw [this, hlen]
        omega
      have hget' : ∀ k, off + 1 ≤ k → k ≤ T.length →
          (m'.getPage p).tuples[k - 1 - (d + 1)]? = T[k - 1]? := by
        intro k hk1 hk2
        rw [htpar]
        have h10 : off - d - 1 + 1 = off - d := by omega
        have := take_drop_getElem_ge (m.getPage p).tuples (off - d - 1)
          (k - 1 - (d + 1)) (by omega) (by omega)
        rw [h10] at this
        rw [this]
        have h11 : k - 1 - (d + 1) + 1 = k - 1 - d := by omega
        rw [h11]
        exact hget k (by omega) hk2
      have hblocks' : (m'.getPage p).tuples.map (fun v => v.t_tid.block) =
          ((m.getPage p).tuples.map (fun v => v.t_tid.block)).filter
            (fun c => decide (c ≠ blk)) := by
        rw [htpar]
        have h10 : off - d - 1 + 1 = off - d := by omega
        rw [show (m.getPage p).tuples.take (off - d - 1) ++
            (m.getPage p).tuples.drop (off - d) =
            (m.getPage p).tuples.take (off - d - 1) ++
            (m.getPage p).tuples.drop (off - d - 1 + 1) from by rw [h10]]
        rw [map_take_drop]
        apply take_drop_filter_ne
        · simp only [List.length_map]
          exact hidx
        · rw [List.getElem?_map, hslot]
          simp [hub]
        · exact hnd
      have hnd' : ((m'.getPage p).tuples.map
          (fun v => v.t_tid.block)).Nodup := by
        rw [hblocks']
        exact hnd.filter _
      -- tail hypotheses
      have hS' : ∀ pr ∈ rest, off + 1 ≤ pr.2 ∧ pr.2 ≤ T.length ∧
          (∃ v, T[pr.2 - 1]? = some v ∧ v.t_tid.block = pr.1) ∧ pr.1 ≠ p ∧
          (m'.getPage pr.1).isNew = false ∧
          (m'.getPage pr.1).isDeleted = false ∧
          (m'.getPage pr.1).isLeaf = true ∧ (m'.getPage pr.1).tuples = [] ∧
          (m'.getPage pr.1).followRight = false := by
        intro pr hpr
        obtain ⟨q1, q2, q3, q4, q5, q6, q7, q8, q9⟩ :=
          hS pr (List.mem_cons_of_mem _ hpr)
        have hoff : off < pr.2 :=
          (List.pairwise_cons.mp hSinc).1 pr hpr
        have hblk : pr.1 ≠ blk :=
          fun h => ((List.pairwise_cons.mp hSblk).1 pr hpr) h.symm
        rw [hother pr.1 q4 hblk]
        exact ⟨by omega, q2, q3, q4, q5, q6, q7, q8, q9⟩
      have hcap' : (d + 1) + rest.length + 1 ≤ T.length := by
        simp only [List.length_cons] at hcap
        omega
      obtain ⟨c1, c2, c3, c4, c5, c6, c7, c8, c9, c10⟩ :=
        ih (d + 1) (off + 1) s' m'
          (by rw [hf1]; exact hpl)
          (by rw [hppage]; exact hpn)
          (by rw [hppage]; exact hpd)
          (by rw [hppage]; exact hpf)
          hlen' hget' hnd' (by omega) hcap' hS'
          (List.pairwise_cons.mp hSinc).2 (List.pairwise_cons.mp hSblk).2
      rw [hpass]
      -- the pass/fail classification is unchanged by the unlink
      have hnsnp : (m'.getPage p).nsn = (m.getPage p).nsn := by
        rw [hppage]
        rfl
      have hfilter : rest.filter (fun pr =>
          decide ((m'.getPage p).nsn ≤ (m'.getPage pr.1).nsn)) =
          rest.filter (fun pr =>
          decide ((m.getPage p).nsn ≤ (m.getPage pr.1).nsn)) := by
        apply List.filter_congr
        intro pr hpr
        obtain ⟨q1, q2, q3, q4, _, _, _, _, _⟩ :=
          hS pr (List.mem_cons_of_mem _ hpr)
        have hblk : pr.1 ≠ blk :=
          fun h => ((List.pairwise_cons.mp hSblk).1 pr hpr) h.symm
        rw [hnsnp, hother pr.1 q4 hblk]
      have hheadpass : decide ((m.getPage p).nsn ≤ (m.getPage blk).nsn) =
          true := decide_eq_true hnsn
      refine ⟨?_, c2.trans hf1, c3.trans hf2, c4.trans hf3,
        Nat.le_trans hf4 c5, ?_, ?_, ?_, ?_, ?_⟩
      · rw [c1, hfilter, hsstats]
        simp only [List.filter_cons, hheadpass, if_pos]
        simp only [List.length_cons]
        congr 2
        omega
      · obtain ⟨e1, e2, e3, e4, e5, e6⟩ := c6
        rw [hppage] at e4 e5 e6
        exact ⟨e1, e2, e3, e4, e5, e6⟩
      · rw [c7, hfilter, hblocks', List.filter_filter]
        apply List.filter_congr
        intro c _
        simp only [List.filter_cons, hheadpass, if_pos, List.map_cons,
          List.mem_cons, Bool.and_eq_true, decide_eq_true_eq]
        by_cases hcb : c = blk
        · simp [hcb]
        · simp [hcb]
      · rw [c8, hfilter, hlen', hlen]
        simp only [List.filter_cons, hheadpass, if_pos, List.length_cons]
        have hfl : (rest.filter (fun pr =>
            decide ((m.getPage p).nsn ≤ (m.getPage pr.1).nsn))).length ≤
            rest.length := List.length_filter_le _ _
        simp only [List.length_cons] at hcap
        omega
      · intro pr hpr
        rcases List.mem_cons.mp hpr with rfl | htl
        · rw [if_pos (by rw [hheadpass])]
          rw [c10 blk hSnp (fun pr' hpr' hcc =>
            ((List.pairwise_cons.mp hSblk).1 pr' hpr') hcc), hlpage]
          exact ⟨txid, _, rfl⟩
        · have hblk : pr.1 ≠ blk := fun h =>
            ((List.pairwise_cons.mp hSblk).1 pr htl) h.symm
          obtain ⟨_, _, _, q4, _⟩ := hS pr (List.mem_cons_of_mem _ htl)
          have hc9 := c9 pr htl
          have hcls : decide ((m'.getPage p).nsn ≤ (m'.getPage pr.1).nsn) =
              decide ((m.getPage p).nsn ≤ (m.getPage pr.1).nsn) := by
            rw [hnsnp, hother pr.1 q4 hblk]
          have hpg : m'.getPage pr.1 = m.getPage pr.1 :=
            hother pr.1 q4 hblk
          rw [hcls, hpg] at hc9
          exact hc9
      · intro x hxp hxs
        have hxb : x ≠ blk := hxs (blk, off) (List.mem_cons_self _ _)
        rw [c10 x hxp (fun pr' hpr' =>
          hxs pr' (List.mem_cons_of_mem _ hpr')), hother x hxp hxb]
    · -- the recheck fails: the child is skipped untouched
      have hfail : (deleteStaged p txid ((blk, off) :: rest) d s m) =
          deleteStaged p txid rest d s m := by
        simp only [deleteStaged]
        rw [if_neg (by
          rw [hrecheck]
          simp only [GistPageGetNSN]
          simp [Nat.lt_iff_add_one_le]
          omega)]
      obtain ⟨c1, c2, c3, c4, c5, c6, c7, c8, c9, c10⟩ :=
        ih d lo s m hpl hpn hpd hpf hlen hget hnd hlo
          (by simp only [List.length_cons] at hcap; omega)
          (fun pr hpr => hS pr (List.mem_cons_of_mem _ hpr))
          (List.pairwise_cons.mp hSinc).2 (List.pairwise_cons.mp hSblk).2
      rw [hfail]
      have hheadfail : decide ((m.getPage p).nsn ≤ (m.getPage blk).nsn) =
          false := decide_eq_false hnsn
      refine ⟨?_, c2, c3, c4, c5, c6, ?_, ?_, ?_, ?_⟩
      · rw [c1]
        simp only [List.filter_cons, hheadfail]
        rw [if_neg (by simp)]
      · rw [c7]
        simp only [List.filter_cons, hheadfail]
        rw [if_neg (by simp)]
      · rw [c8]
        simp only [List.filter_cons, hheadfail]
        rw [if_neg (by simp)]
      · intro pr hpr
        rcases List.mem_cons.mp hpr with rfl | htl
        · rw [if_neg (by rw [hheadfail]; simp)]
          exact c10 blk hSnp (fun pr' hpr' => by
            intro hcc
            exact ((List.pairwise_cons.mp hSblk).1 pr' hpr') hcc)
        · exact c9 pr htl
      · intro x hxp hxs
        exact c10 x hxp (fun pr' hpr' => hxs pr' (List.mem_cons_of_mem _ hpr'))

/-! ### C9 groundwork: counting helpers -/

theorem filter_comp_map {α β : Type} (f : α → β) (p : β → Bool)
    (l : List α) :
    (l.filter (fun a => p (f a))).map f = (l.map f).filter p := by
  induction l with
  | nil => rfl
  | cons a rest ih =>
    by_cases hp : p (f a) = true <;>
      simp [List.filter_cons, hp, ih]

theorem mem_le_sum (L : List Nat) (x : Nat) (hx : x ∈ L) : x ≤ L.sum := by
  induction L with
  | nil => simp at hx
  | cons a rest ih =>
    rcases List.mem_cons.mp hx with rfl | hx
    · simp [List.sum_cons]
    · simp only [List.sum_cons]
      have := ih hx
      omega

theorem two_getElem_le_sum (L : List Nat) (i j : Nat) (hij : i ≠ j)
    (hi : i < L.length) (hj : j < L.length) : L[i] + L[j] ≤ L.sum := by
  induction L generalizing i j with
  | nil => simp at hi
  | cons a rest ih =>
    cases i with
    | zero =>
      cases j with
      | zero => exact absurd rfl hij
      | succ j =>
        simp only [List.getElem_cons_zero, List.getElem_cons_succ,
          List.sum_cons]
        have hj' : j < rest.length := by simpa using hj
        have hmem : rest[j] ∈ rest := List.getElem_mem hj'
        have := mem_le_sum rest _ hmem
        omega
    | succ i =>
      cases j with
      | zero =>
        simp only [List.getElem_cons_zero, List.getElem_cons_succ,
          List.sum_cons]
        have hi' : i < rest.length := by simpa using hi
        have hmem : rest[i] ∈ rest := List.getElem_mem hi'
        have := mem_le_sum rest _ hmem
        omega
      | succ j =>
        simp only [List.getElem_cons_succ, List.sum_cons]
        have := ih i j (fun h => hij (by rw [h])) (by simpa using hi)
          (by simpa using hj)
        omega

theorem sum_map_range_getD {α : Type} (f : α → Nat) (d : α)
    (ps : List α) :
    ((List.range ps.length).map (fun b => f (ps.getD b d))).sum =
      (ps.map f).sum := by
  induction ps with
  | nil => rfl
  | cons q rest ih =>
    simp only [List.length_cons, List.range_succ_eq_map, List.map_cons,
      List.map_map, List.sum_cons]
    have hcomp : ((fun b => f ((q :: rest).getD b d)) ∘ (fun i => i + 1)) =
        (fun b => f (rest.getD b d)) := by
      funext i
      simp [List.getD]
    rw [hcomp, ih]
    rfl

theorem pageSum_eq_range (f : GistPage → Nat) (m : Machine) :
    pageSum f m =
      ((List.range m.pages.length).map (fun b => f (m.getPage b))).sum := by
  simp only [pageSum, Machine.getPage]
  exact (sum_map_range_getD f defaultPage m.pages).symm

theorem countP_eq_sum_ind {α : Type} (p : α → Bool) (L : List α) :
    L.countP p = (L.map (fun x => if p x = true then 1 else 0)).sum := by
  induction L with
  | nil => rfl
  | cons a rest ih =>
    simp only [List.countP_cons, List.map_cons, List.sum_cons]
    by_cases hp : p a = true <;> simp [hp, ih] <;> omega

theorem countP_disjoint_or {α : Type} (p q : α → Bool) (L : List α)
    (hd : ∀ x ∈ L, p x = true → q x = false) :
    L.countP (fun x => p x || q x) = L.countP p + L.countP q := by
  induction L with
  | nil => rfl
  | cons a rest ih =>
    simp only [List.countP_cons]
    rw [ih (fun x hx => hd x (List.mem_cons_of_mem _ hx))]
    by_cases hp : p a = true
    · have hq := hd a (List.mem_cons_self _ _) hp
      simp [hp, hq]
      omega
    · have hp' : p a = false := by revert hp; rcases p a <;> simp
      rcases hq : q a <;> simp [hp', hq] <;> omega

theorem countP_mem_range (B : List Nat) (n : Nat) (hB : B.Nodup)
    (hlt : ∀ c ∈ B, c < n) :
    (List.range n).countP (fun x => decide (x ∈ B)) = B.length := by
  rw [List.countP_eq_length_filter]
  have hnd : ((List.range n).filter (fun x => decide (x ∈ B))).Nodup :=
    (List.nodup_range n).filter _
  have hmem : ∀ x, x ∈ (List.range n).filter (fun x => decide (x ∈ B)) ↔
      x ∈ B := by
    intro x
    rw [List.mem_filter]
    constructor
    · intro h
      exact of_decide_eq_true h.2
    · intro h
      exact ⟨List.mem_range.mpr (hlt x h), decide_eq_true h⟩
  have hperm : List.Perm ((List.range n).filter (fun x => decide (x ∈ B)))
      B :=
    List.perm_of_nodup_nodup_toFinset_eq hnd hB (by
      ext y
      rw [List.mem_toFinset, List.mem_toFinset, hmem y])
  exact hperm.length_eq

theorem deletedCount_flip (m m' : Machine) (B : List Nat)
    (hlen : m'.pages.length = m.pages.length)
    (hB : B.Nodup) (hBlt : ∀ c ∈ B, c < m.pages.length)
    (hflip : ∀ c ∈ B, deadOrNewPage (m.getPage c) = false ∧
      deadOrNewPage (m'.getPage c) = true)
    (hoth : ∀ x, x ∉ B →
      deadOrNewPage (m'.getPage x) = deadOrNewPage (m.getPage x)) :
    deletedCount m' = deletedCount m + B.length := by
  have hbr : deletedCount m' = (List.range m.pages.length).countP
      (fun b => deadOrNewPage (m'.getPage b)) := by
    rw [show deletedCount m' = pageSum
      (fun p => if deadOrNewPage p = true then 1 else 0) m' from by
        simp [deletedCount, deadOrNewPage]]
    rw [pageSum_eq_range, hlen, countP_eq_sum_ind]
  have hbr2 : deletedCount m = (List.range m.pages.length).countP
      (fun b => deadOrNewPage (m.getPage b)) := by
    rw [show deletedCount m = pageSum
      (fun p => if deadOrNewPage p = true then 1 else 0) m from by
        simp [deletedCount, deadOrNewPage]]
    rw [pageSum_eq_range, countP_eq_sum_ind]
  rw [hbr, hbr2]
  have hpt : ∀ x ∈ List.range m.pages.length,
      deadOrNewPage (m'.getPage x) =
        (deadOrNewPage (m.getPage x) || decide (x ∈ B)) := by
    intro x _
    by_cases hxB : x ∈ B
    · rcases hflip x hxB with ⟨h1, h2⟩
      simp [h1, h2, hxB]
    · rw [hoth x hxB]
      simp [hxB]
  rw [List.countP_congr (fun x hx => by rw [hpt x hx])]
  rw [countP_disjoint_or _ _ _ (fun x _ hp => by
    by_cases hxB : x ∈ B
    · exact absurd hp (by simp [(hflip x hxB).1])
    · simp [hxB])]
  rw [countP_mem_range B _ hB hBlt]

theorem downlink_unique (m : Machine) (hU : UniqueDownlinks m)
    (q b x : Nat) (hq : q < m.pages.length) (hb : b < m.pages.length)
    (hne : q ≠ b)
    (hqi : (m.getPage q).isLeaf = false) (hbi : (m.getPage b).isLeaf = false)
    (hxq : x ∈ (m.getPage q).tuples.map (fun u => u.t_tid.block))
    (hxb : x ∈ (m.getPage b).tuples.map (fun u => u.t_tid.block)) : False := by
  have hone : ∀ y, (m.getPage y).isLeaf = false →
      x ∈ (m.getPage y).tuples.map (fun u => u.t_tid.block) →
      1 ≤ (if (m.getPage y).isLeaf then 0
        else (m.getPage y).tuples.countP (fun u => u.t_tid.block = x)) := by
    intro y hyl hxy
    simp only [hyl, Bool.false_eq_true, if_false]
    rcases List.mem_map.mp hxy with ⟨u, hu, hux⟩
    exact List.countP_pos.mpr ⟨u, hu, by simp [hux]⟩
  have hkey0 := pageSum_eq_range (fun p => if p.isLeaf then 0
    else p.tuples.countP (fun u => u.t_tid.block = x)) m
  have hkey : downlinkCount m x =
      ((List.range m.pages.length).map (fun y =>
        if (m.getPage y).isLeaf then 0
        else (m.getPage y).tuples.countP (fun u => u.t_tid.block = x))).sum := by
    rw [show downlinkCount m x = pageSum (fun p => if p.isLeaf then 0
      else p.tuples.countP (fun u => u.t_tid.block = x)) m from rfl, hkey0]
  have hsum := two_getElem_le_sum
    ((List.range m.pages.length).map (fun y =>
      if (m.getPage y).isLeaf then 0
      else (m.getPage y).tuples.countP (fun u => u.t_tid.block = x)))
    q b hne (by simpa using hq) (by simpa using hb)
  rw [List.getElem_map, List.getElem_map, List.getElem_range,
    List.getElem_range] at hsum
  have hq1 := hone q hqi hxq
  have hb1 := hone b hbi hxb
  have hdl : downlinkCount m x ≤ 1 := hU x
  rw [hkey] at hdl
  omega

theorem liveInternal_elim (p : GistPage) (h : liveInternal p = true) :
    p.isNew = false ∧ p.isDeleted = false ∧ p.isLeaf = false := by
  rcases hn : p.isNew <;> rcases hd : p.isDeleted <;> rcases hl : p.isLeaf <;>
    simp_all [liveInternal]

theorem liveEmptyLeaf_elim (p : GistPage) (h : liveEmptyLeaf p = true) :
    p.isNew = false ∧ p.isDeleted = false ∧ p.isLeaf = true ∧
      p.tuples = [] := by
  have h2 : liveLeaf p = true ∧ p.tuples.length = 0 := by
    simpa [liveEmptyLeaf] using h
  rcases hn : p.isNew <;> rcases hd : p.isDeleted <;> rcases hl : p.isLeaf <;>
    simp_all [liveLeaf, List.length_eq_zero]

theorem length_filter_add_length_filter_not {α : Type} (p : α → Bool)
    (L : List α) :
    (L.filter p).length + (L.filter (fun x => !p x)).length = L.length := by
  induction L with
  | nil => rfl
  | cons a rest ih =>
    simp only [List.filter_cons]
    rcases hp : p a <;> simp [hp] <;> omega

theorem take_filter_not_mem (L : List Nat) (k : Nat) (q : Nat → Bool)
    (hnd : L.Nodup) :
    ∀ c ∈ (L.filter (fun x =>
        decide (x ∉ (L.take k).filter q))).take
          (k - ((L.take k).filter q).length),
      c ∈ (L.take k).filter (fun x => !q x) := by
  intro c hc
  have hsplit : L = L.take k ++ L.drop k := (List.take_append_drop k L).symm
  have hdisj : ∀ x, x ∈ L.take k → x ∈ L.drop k → False := by
    intro x h1 h2
    have hnd' : (L.take k ++ L.drop k).Nodup := by
      rw [← hsplit]
      exact hnd
    exact (List.nodup_append.mp hnd').2.2 h1 h2
  set P := (L.take k).filter q with hP
  have hfL : L.filter (fun x => decide (x ∉ P)) =
      (L.take k).filter (fun x => !q x) ++ L.drop k := by
    conv_lhs => rw [hsplit]
    rw [List.filter_append]
    congr 1
    · apply List.filter_congr
      intro x hx
      rcases hq : q x
      · have hnm : x ∉ P := by
          rw [hP]
          intro hmem
          have h2 := (List.mem_filter.mp hmem).2
          rw [hq] at h2
          cases h2
        simp [hnm, hq]
      · have hm : x ∈ P := by
          rw [hP]
          exact List.mem_filter.mpr ⟨hx, hq⟩
        simp [hm, hq]
    · apply List.filter_eq_self.mpr
      intro x hx
      simp only [decide_eq_true_eq]
      intro hcon
      rw [hP] at hcon
      exact hdisj x (List.mem_filter.mp hcon).1 hx
  rw [hfL] at hc
  by_cases hk : k ≤ L.length
  · have hlk : (L.take k).length = k := by
      rw [List.length_take]
      omega
    have hflen : ((L.take k).filter (fun x => !q x)).length =
        k - P.length := by
      have := length_filter_add_length_filter_not q (L.take k)
      rw [← hP] at this
      omega
    rw [← hflen, List.take_left] at hc
    exact hc
  · have hdrop : L.drop k = [] := List.drop_eq_nil_of_le (by omega)
    rw [hdrop, List.append_nil] at hc
    exact List.mem_of_mem_take hc

theorem parent_blocks_nodup (m : Machine) (hU : UniqueDownlinks m)
    (b : Nat) (hb : b < m.pages.length)
    (hbi : (m.getPage b).isLeaf = false) :
    ((m.getPage b).tuples.map (fun u => u.t_tid.block)).Nodup := by
  rw [List.nodup_iff_count_le_one]
  intro a
  have hc : ((m.getPage b).tuples.map (fun u => u.t_tid.block)).count a =
      (m.getPage b).tuples.countP (fun u => u.t_tid.block = a) := by
    rw [List.count_eq_countP, List.countP_map]
    apply List.countP_congr
    intro u _
    simp
  have hkey0 := pageSum_eq_range (fun p => if p.isLeaf then 0
    else p.tuples.countP (fun u => u.t_tid.block = a)) m
  have hmm : (if (m.getPage b).isLeaf then 0
      else (m.getPage b).tuples.countP (fun u => u.t_tid.block = a)) ∈
      (List.range m.pages.length).map (fun y =>
        (fun p : GistPage => if p.isLeaf then 0
          else p.tuples.countP (fun u => u.t_tid.block = a))
          (m.getPage y)) :=
    List.mem_map.mpr ⟨b, List.mem_range.mpr hb, rfl⟩
  have hle := mem_le_sum _ _ hmm
  have hdl : downlinkCount m a ≤ 1 := hU a
  rw [show downlinkCount m a = pageSum (fun p : GistPage => if p.isLeaf then 0
    else p.tuples.countP (fun u => u.t_tid.block = a)) m from rfl,
    hkey0] at hdl
  rw [hbi] at hle
  simp only [Bool.false_eq_true, if_false] at hle
  rw [hc]
  omega

theorem pairwise_fst_ne_of_nodup_map (S : List (Nat × Nat))
    (h : (S.map Prod.fst).Nodup) : S.Pairwise (fun a b => a.1 ≠ b.1) :=
  List.pairwise_map.mp h

/-- One step of the reclaim loop preserves the invariant: processing a
live internal block unlinks exactly its passed children, bumps
pages_deleted by that number and records the block as processed. -/
theorem recycleOnePage_step (msc : Machine) (s0 : GistBulkDeleteResult)
    (hF : ∀ y, (msc.getPage y).followRight = false)
    (hU : UniqueDownlinks msc)
    (hem : ∀ x, blockset_get x s0.emptyLeafPagesMap = true ↔
      liveEmptyLeaf (msc.getPage x) = true)
    (Q : List Nat) (s : GistBulkDeleteResult) (m : Machine) (b : Nat)
    (hb : liveInternal (msc.getPage b) = true) (hbQ : b ∉ Q)
    (hinv : RecInv msc s0.emptyLeafPagesMap s0 Q s m) :
    RecInv msc s0.emptyLeafPagesMap s0 (Q ++ [b])
      (recycleOnePage s m b).1 (recycleOnePage s m b).2 := by
  obtain ⟨v1, v2, v3, v4, v5, v6, v7, v8⟩ := hinv
  obtain ⟨hbn, hbd, hbl⟩ := liveInternal_elim _ hb
  have hblt : b < msc.pages.length := liveInternal_lt_length msc b hb
  have hmb : m.getPage b = msc.getPage b := by
    rcases v5 b with h | ⟨hq, _⟩ | ⟨hle, _, _⟩
    · exact h
    · exact absurd hq hbQ
    · obtain ⟨_, _, hleaf', _⟩ := liveEmptyLeaf_elim _ hle
      rw [hleaf'] at hbl
      cases hbl
  have hsem : s.emptyLeafPagesMap = s0.emptyLeafPagesMap :=
    v8.2.2.2.2.2.2
  have hrop : recycleOnePage s m b =
      (if (stageChildren s.emptyLeafPagesMap (m.getPage b).tuples
          (PageGetMaxOffsetNumber (m.getPage b)) FirstOffsetNumber
          []).length ≠ 0 then
        deleteStaged b m.nextXid
          (stageChildren s.emptyLeafPagesMap (m.getPage b).tuples
            (PageGetMaxOffsetNumber (m.getPage b)) FirstOffsetNumber []) 0 s m
      else (s, m)) := by
    simp only [recycleOnePage]
    rw [if_neg (by
      simp [PageIsNew, GistPageIsDeleted, GistPageIsLeaf, hmb, hbn, hbd,
        hbl])]
  have hstg : stageChildren s.emptyLeafPagesMap (m.getPage b).tuples
      (PageGetMaxOffsetNumber (m.getPage b)) FirstOffsetNumber [] =
      (emptyChildren s0.emptyLeafPagesMap (msc.getPage b).tuples 1).take
        (PageGetMaxOffsetNumber (msc.getPage b) - 1) := by
    rw [stageChildren_eq_take, hsem, hmb]
    simp [FirstOffsetNumber]
  have hpbn : passedBlocks msc s0.emptyLeafPagesMap b =
      ((stageChildren s.emptyLeafPagesMap (m.getPage b).tuples
        (PageGetMaxOffsetNumber (m.getPage b)) FirstOffsetNumber []).map
          Prod.fst).filter
        (fun c => decide ((msc.getPage b).nsn ≤ (msc.getPage c).nsn)) := by
    rw [hstg, List.map_take, emptyChildren_map_fst, passedBlocks]
  set staged := stageChildren s.emptyLeafPagesMap (m.getPage b).tuples
    (PageGetMaxOffsetNumber (m.getPage b)) FirstOffsetNumber []
    with hstagedDef
  have hchild : ∀ pr ∈ staged, 1 ≤ pr.2 ∧
      pr.2 ≤ (msc.getPage b).tuples.length ∧
      (∃ u, (msc.getPage b).tuples[pr.2 - 1]? = some u ∧
        u.t_tid.block = pr.1) ∧
      liveEmptyLeaf (msc.getPage pr.1) = true ∧
      m.getPage pr.1 = msc.getPage pr.1 ∧
      pr.1 ∈ (msc.getPage b).tuples.map (fun u => u.t_tid.block) := by
    intro pr hpr
    rw [hstg] at hpr
    have hprEC := List.mem_of_mem_take hpr
    obtain ⟨h1, h2, ⟨u, hu, hub⟩, h4⟩ :=
      emptyChildren_spec s0.emptyLeafPagesMap (msc.getPage b).tuples 1
        pr hprEC
    have hle : liveEmptyLeaf (msc.getPage pr.1) = true := (hem pr.1).mp h4
    have hmem : pr.1 ∈ (msc.getPage b).tuples.map
        (fun u => u.t_tid.block) := by
      apply List.mem_map.mpr
      refine ⟨u, ?_, hub⟩
      rcases List.getElem?_eq_some_iff.mp hu with ⟨hlt, heq⟩
      exact heq ▸ List.getElem_mem hlt
    have hpg : m.getPage pr.1 = msc.getPage pr.1 := by
      rcases v5 pr.1 with h | ⟨hq, hint⟩ | ⟨hle2, _, q, hqQ, hqint, hqmem, _⟩
      · exact h
      · obtain ⟨_, _, hlf⟩ := liveInternal_elim _ hint
        obtain ⟨_, _, hlf2, _⟩ := liveEmptyLeaf_elim _ hle
        rw [hlf2] at hlf
        cases hlf
      · exfalso
        have hqlt : q < msc.pages.length := liveInternal_lt_length msc q hqint
        have hqne : q ≠ b := fun h => hbQ (h ▸ hqQ)
        exact downlink_unique msc hU q b pr.1 hqlt hblt hqne
          (liveInternal_elim _ hqint).2.2 hbl hqmem hmem
    exact ⟨h1, by omega, ⟨u, by
      have harith : pr.2 - 1 = pr.2 - 1 := rfl
      simpa using hu, hub⟩, hle, hpg, hmem⟩
  have hndb : ((msc.getPage b).tuples.map
      (fun u => u.t_tid.block)).Nodup := by
    have := parent_blocks_nodup msc hU b hblt hbl
    exact this
  by_cases hnz : staged.length ≠ 0
  · -- the staging collected something: run the deletion loop
    rw [hrop, if_pos hnz]
    have hM1 : 1 ≤ PageGetMaxOffsetNumber (msc.getPage b) := by
      by_contra hM0
      have : PageGetMaxOffsetNumber (msc.getPage b) = 0 := by omega
      rw [hstg, this] at hnz
      simp at hnz
    have hcapS : staged.length ≤
        PageGetMaxOffsetNumber (msc.getPage b) - 1 := by
      rw [hstg]
      exact le_trans (List.length_take_le _ _) (Nat.le_refl _)
    have hSinc : staged.Pairwise (fun a c => a.2 < c.2) := by
      rw [hstg]
      exact (emptyChildren_pairwise _ _ _).sublist (List.take_sublist _ _)
    have hSblkND : (staged.map Prod.fst).Nodup := by
      rw [hstg, List.map_take, emptyChildren_map_fst]
      exact ((hndb.filter _).sublist (List.take_sublist _ _))
    have hSblk : staged.Pairwise (fun a c => a.1 ≠ c.1) :=
      pairwise_fst_ne_of_nodup_map _ hSblkND
    obtain ⟨c1, c2, c3, c4, c5, c6, c7, c8, c9, c10⟩ :=
      deleteStaged_spec b m.nextXid (msc.getPage b).tuples staged 0 1 s m
        (by rw [v1]; exact hblt)
        (by rw [hmb]; exact hbn)
        (by rw [hmb]; exact hbd)
        (by rw [hmb]; exact hbl)
        (by rw [hmb]; omega)
        (by
          intro k hk1 hk2
          rw [hmb, Nat.sub_zero])
        (by rw [hmb]; exact hndb)
        (by omega)
        (by
          simp only [PageGetMaxOffsetNumber] at hcapS hM1
          omega)
        (by
          intro pr hpr
          obtain ⟨h1, h2, h3, hle, hpg, hmem⟩ := hchild pr hpr
          obtain ⟨hn, hd, hl, ht⟩ := liveEmptyLeaf_elim _ hle
          refine ⟨h1, h2, h3, ?_, ?_, ?_, ?_, ?_, ?_⟩
          · intro heq
            rw [heq] at hl
            rw [hl] at hbl
            cases hbl
          · rw [hpg]; exact hn
          · rw [hpg]; exact hd
          · rw [hpg]; exact hl
          · rw [hpg]; exact ht
          · rw [hpg]; exact hF pr.1)
        hSinc hSblk
    -- the pass classification matches the static passedBlocks
    have hfiltmb : staged.filter (fun pr =>
        decide ((m.getPage b).nsn ≤ (m.getPage pr.1).nsn)) =
        staged.filter (fun pr =>
        decide ((msc.getPage b).nsn ≤ (msc.getPage pr.1).nsn)) := by
      apply List.filter_congr
      intro pr hpr
      obtain ⟨_, _, _, _, hpg, _⟩ := hchild pr hpr
      rw [hmb, hpg]
    have hpassmatch : (staged.filter (fun pr =>
        decide ((m.getPage b).nsn ≤ (m.getPage pr.1).nsn))).map Prod.fst =
        passedBlocks msc s0.emptyLeafPagesMap b := by
      rw [hfiltmb, hpbn]
      exact filter_comp_map Prod.fst
        (fun c => decide ((msc.getPage b).nsn ≤ (msc.getPage c).nsn)) staged
    -- per-child final state, indexed by block
    have hchildfin : ∀ pr ∈ staged,
        (pr.1 ∈ passedBlocks msc s0.emptyLeafPagesMap b →
          DeletedFrom ((deleteStaged b m.nextXid staged 0 s m).2.getPage pr.1)
            (msc.getPage pr.1)) ∧
        (pr.1 ∉ passedBlocks msc s0.emptyLeafPagesMap b →
          (deleteStaged b m.nextXid staged 0 s m).2.getPage pr.1 =
            msc.getPage pr.1) := by
      intro pr hpr
      obtain ⟨_, _, _, hle, hpg, _⟩ := hchild pr hpr
      have hc9 := c9 pr hpr
      constructor
      · intro hmemp
        rw [← hpassmatch] at hmemp
        rcases List.mem_map.mp hmemp with ⟨pr', hpr', heq⟩
        have hpr'm := List.mem_filter.mp hpr'
        have hprpass : decide ((m.getPage b).nsn ≤
            (m.getPage pr.1).nsn) = true := by
          rw [← heq]
          exact hpr'm.2
        rw [if_pos hprpass] at hc9
        rw [← hpg]
        exact hc9
      · intro hmemp
        have hprfail : decide ((m.getPage b).nsn ≤
            (m.getPage pr.1).nsn) = false := by
          by_contra hcon
          have : decide ((m.getPage b).nsn ≤ (m.getPage pr.1).nsn) =
              true := by
            revert hcon
            rcases decide ((m.getPage b).nsn ≤ (m.getPage pr.1).nsn) <;> simp
          apply hmemp
          rw [← hpassmatch]
          exact List.mem_map.mpr ⟨pr, List.mem_filter.mpr ⟨hpr, this⟩, rfl⟩
        rw [if_neg (by rw [hprfail]; simp)] at hc9
        rw [hc9, hpg]
    refine ⟨c2.trans v1, c3.trans v2, c4.trans v3, Nat.le_trans v4 c5,
      ?_, ?_, ?_, ?_⟩
    · -- the per-block trichotomy
      intro x
      by_cases hxb : x = b
      · subst hxb
        exact Or.inr (Or.inl ⟨List.mem_append_right _ (List.mem_singleton.mpr
          rfl), hb⟩)
      · by_cases hxs : ∃ pr ∈ staged, x = pr.1
        · obtain ⟨pr, hpr, rfl⟩ := hxs
          obtain ⟨_, _, _, hle, hpg, hmem⟩ := hchild pr hpr
          by_cases hmemp : pr.1 ∈ passedBlocks msc s0.emptyLeafPagesMap b
          · exact Or.inr (Or.inr ⟨hle, (hchildfin pr hpr).1 hmemp,
              b, List.mem_append_right _ (List.mem_singleton.mpr rfl), hb,
              hmem, hmemp⟩)
          · rw [(hchildfin pr hpr).2 hmemp]
            exact Or.inl rfl
        · have hfr := c10 x hxb (fun pr hpr heq => hxs ⟨pr, hpr, heq⟩)
          rw [hfr]
          rcases v5 x with h | ⟨hq, hint⟩ | ⟨hle, hdf, q, hqQ, hrest⟩
          · exact Or.inl h
          · exact Or.inr (Or.inl ⟨List.mem_append_left _ hq, hint⟩)
          · exact Or.inr (Or.inr ⟨hle, hdf, q, List.mem_append_left _ hqQ,
              hrest⟩)
    · -- processed parents keep their characterization
      intro x hxQ hxint
      rcases List.mem_append.mp hxQ with hxQ' | hxb'
      · have hxne : x ≠ b := fun h => hbQ (h ▸ hxQ')
        have hxnst : ∀ pr ∈ staged, x ≠ pr.1 := by
          intro pr hpr heq
          obtain ⟨_, _, _, hle, _, _⟩ := hchild pr hpr
          obtain ⟨_, _, hlf, _⟩ := liveEmptyLeaf_elim _ hle
          obtain ⟨_, _, hlf2⟩ := liveInternal_elim _ hxint
          rw [heq] at hlf2
          rw [hlf] at hlf2
          cases hlf2
        rw [c10 x hxne hxnst]
        exact v6 x hxQ' hxint
      · have hxb : x = b := by simpa using hxb'
        subst hxb
        obtain ⟨e1, e2, e3, e4, e5, e6⟩ := c6
        refine ⟨e1, e2, e3, by rw [e4, hmb], by rw [e5, hmb], ?_⟩
        rw [c7, hpassmatch, hmb]
    · -- pages_deleted moves in lockstep with the dead-page count
      have hflip : deletedCount (deleteStaged b m.nextXid staged 0 s m).2 =
          deletedCount m + ((staged.filter (fun pr =>
            decide ((m.getPage b).nsn ≤ (m.getPage pr.1).nsn))).map
              Prod.fst).length := by
        apply deletedCount_flip
        · exact c2
        · rw [hpassmatch, hpbn]
          exact (hSblkND.filter _)
        · intro c hcB
          rcases List.mem_map.mp hcB with ⟨pr, hpr, rfl⟩
          have hprS := (List.mem_filter.mp hpr).1
          obtain ⟨_, _, _, hle, _, _⟩ := hchild pr hprS
          have hll : liveLeaf (msc.getPage pr.1) = true := by
            obtain ⟨hn, hd, hl, _⟩ := liveEmptyLeaf_elim _ hle
            simp [liveLeaf, hn, hd, hl]
          rw [v1]
          exact liveLeaf_lt_length msc pr.1 hll
        · intro c hcB
          rcases List.mem_map.mp hcB with ⟨pr, hpr, hprc⟩
          have hprS := (List.mem_filter.mp hpr).1
          obtain ⟨_, _, _, hle, hpg, _⟩ := hchild pr hprS
          obtain ⟨hn, hd, _, _⟩ := liveEmptyLeaf_elim _ hle
          rw [← hprc]
          constructor
          · rw [hpg]
            simp [deadOrNewPage, hn, hd]
          · have hdf := (hchildfin pr hprS).1 (by
              rw [← hpassmatch]
              exact hprc ▸ hcB)
            obtain ⟨xid, lsn, hdfe⟩ := hdf
            rw [hdfe]
            simp [deadOrNewPage]
        · intro x hxB
          by_cases hxb : x = b
          · obtain ⟨e1, e2, _, _, _, _⟩ := c6
            rw [hxb]
            rw [show deadOrNewPage ((deleteStaged b m.nextXid staged 0 s
                m).2.getPage b) = (((deleteStaged b m.nextXid staged 0 s
                m).2.getPage b).isNew || ((deleteStaged b m.nextXid staged
                0 s m).2.getPage b).isDeleted) from rfl, e1, e2]
            rw [hmb]
            simp [deadOrNewPage, hbn, hbd]
          · by_cases hxs : ∃ pr ∈ staged, x = pr.1
            · obtain ⟨pr, hpr, rfl⟩ := hxs
              have hmemp : pr.1 ∉ passedBlocks msc s0.emptyLeafPagesMap
                  b := by
                intro hcon
                apply hxB
                rw [hpassmatch]
                exact hcon
              obtain ⟨_, _, _, _, hpg, _⟩ := hchild pr hpr
              rw [(hchildfin pr hpr).2 hmemp, hpg]
            · rw [c10 x hxb (fun pr hpr heq => hxs ⟨pr, hpr, heq⟩)]
      rw [c1]
      simp only []
      rw [hflip]
      have hlen := (hpassmatch ▸ rfl :
        ((staged.filter (fun pr => decide ((m.getPage b).nsn ≤
          (m.getPage pr.1).nsn))).map Prod.fst).length =
        (passedBlocks msc s0.emptyLeafPagesMap b).length)
      rw [List.length_map] at hlen
      simp only [List.length_map]
      omega
    · -- no other stats field moves
      obtain ⟨w1, w2, w3, w4, w5, w6, w7⟩ := v8
      rw [c1]
      exact ⟨w1, w2, w3, w4, w5, w6, w7⟩
  · -- nothing staged: the parent is skipped
    rw [hrop, if_neg hnz]
    have hstz : staged = [] := by
      rcases hst : staged with _ | ⟨pr, rest⟩
      · rfl
      · rw [hst] at hnz
        simp at hnz
    have hpbz : passedBlocks msc s0.emptyLeafPagesMap b = [] := by
      rw [hpbn, hstz]
      rfl
    refine ⟨v1, v2, v3, v4, ?_, ?_, v7, v8⟩
    · intro x
      by_cases hxb : x = b
      · subst hxb
        exact Or.inr (Or.inl ⟨List.mem_append_right _
          (List.mem_singleton.mpr rfl), hb⟩)
      · rcases v5 x with h | ⟨hq, hint⟩ | ⟨hle, hdf, q, hqQ, hrest⟩
        · exact Or.inl h
        · exact Or.inr (Or.inl ⟨List.mem_append_left _ hq, hint⟩)
        · exact Or.inr (Or.inr ⟨hle, hdf, q, List.mem_append_left _ hqQ,
            hrest⟩)
    · intro x hxQ hxint
      rcases List.mem_append.mp hxQ with hxQ' | hxb'
      · exact v6 x hxQ' hxint
      · have hxb : x = b := by simpa using hxb'
        subst hxb
        rw [hmb]
        refine ⟨hbn, hbd, hbl, rfl, rfl, ?_⟩
        rw [hpbz]
        rw [List.filter_eq_self.mpr]
        intro c _
        simp

/-- The whole reclaim iteration preserves the invariant, accumulating
the processed blocks. -/
theorem recycleLoop_inv (msc : Machine) (s0 : GistBulkDeleteResult)
    (hF : ∀ y, (msc.getPage y).followRight = false)
    (hU : UniqueDownlinks msc)
    (hem : ∀ x, blockset_get x s0.emptyLeafPagesMap = true ↔
      liveEmptyLeaf (msc.getPage x) = true)
    (L Q : List Nat)
    (hnd : (Q ++ L).Nodup)
    (hLint : ∀ b ∈ L, liveInternal (msc.getPage b) = true)
    (s : GistBulkDeleteResult) (m : Machine)
    (hinv : RecInv msc s0.emptyLeafPagesMap s0 Q s m) :
    RecInv msc s0.emptyLeafPagesMap s0 (Q ++ L)
      (recycleLoop L (s, m)).1 (recycleLoop L (s, m)).2 := by
  induction L generalizing Q s m with
  | nil => simpa [recycleLoop] using hinv
  | cons b rest ih =>
    have hb := hLint b (List.mem_cons_self b rest)
    obtain ⟨hndQ, hndbr, hdisj⟩ := List.nodup_append.mp hnd
    have hbQ : b ∉ Q := fun hc =>
      hdisj hc (List.mem_cons_self b rest)
    have hstep := recycleOnePage_step msc s0 hF hU hem Q s m b hb hbQ hinv
    have hfold : recycleLoop (b :: rest) (s, m) =
        recycleLoop rest (recycleOnePage s m b) := rfl
    rw [hfold]
    have hres := ih (Q ++ [b])
      (by
        rw [List.append_assoc]
        simpa using hnd)
      (fun c hc => hLint c (List.mem_cons_of_mem _ hc))
      (recycleOnePage s m b).1 (recycleOnePage s m b).2 hstep
    rw [Prod.mk.eta] at hres
    rw [List.append_assoc] at hres
    simpa using hres

theorem visitRemoved_not_liveLeaf (cb : Option (ItemPointer → Bool))
    (p : GistPage) (h : liveLeaf p = false) : visitRemoved cb p = 0 := by
  simp [visitRemoved, h]

theorem scanTuples_of_countP_zero (f : ItemPointer → Bool)
    (ts : List IndexTuple) (h : ts.countP (fun u => f u.t_tid) = 0) :
    scanTuples (some f) ts = ts := by
  simp only [scanTuples]
  apply List.filter_eq_self.mpr
  intro u hu
  have hnu := List.countP_eq_zero.mp h u hu
  simp only [Bool.not_eq_true] at hnu ⊢
  simp [hnu]

theorem liveEmptyBlocks_get (m : Machine) (c : Nat) :
    blockset_get c (liveEmptyBlocks m) = liveEmptyLeaf (m.getPage c) := by
  by_cases h : liveEmptyLeaf (m.getPage c) = true
  · rw [h]
    apply (blockset_get_iff _ _).mpr
    apply List.mem_filter.mpr
    refine ⟨List.mem_range.mpr ?_, h⟩
    have hll : liveLeaf (m.getPage c) = true := by
      obtain ⟨hn, hd, hl, _⟩ := liveEmptyLeaf_elim _ h
      simp [liveLeaf, hn, hd, hl]
    exact liveLeaf_lt_length m c hll
  · have h' : liveEmptyLeaf (m.getPage c) = false := by
      revert h
      rcases liveEmptyLeaf (m.getPage c) <;> simp
    rw [h']
    apply Bool.eq_false_iff.mpr
    intro hc
    have hmem := List.mem_filter.mp ((blockset_get_iff _ _).mp hc)
    rw [h'] at hmem
    simpa using hmem.2

theorem length_filter_mem (B P : List Nat) (hB : B.Nodup) (hP : P.Nodup)
    (hsub : ∀ c ∈ P, c ∈ B) :
    (B.filter (fun c => decide (c ∈ P))).length = P.length := by
  have hnd : (B.filter (fun c => decide (c ∈ P))).Nodup := hB.filter _
  have hmem : ∀ y, y ∈ B.filter (fun c => decide (c ∈ P)) ↔ y ∈ P := by
    intro y
    constructor
    · intro hy
      exact of_decide_eq_true (List.mem_filter.mp hy).2
    · intro hy
      exact List.mem_filter.mpr ⟨hsub y hy, decide_eq_true hy⟩
  have hperm : List.Perm (B.filter (fun c => decide (c ∈ P))) P :=
    List.perm_of_nodup_nodup_toFinset_eq hnd hP (by
      apply Finset.ext
      intro y
      rw [List.mem_toFinset, List.mem_toFinset, hmem y])
  exact hperm.length_eq

theorem recycleLoop_noop (L : List Nat) (s : GistBulkDeleteResult)
    (m : Machine) (h : ∀ b ∈ L, recycleOnePage s m b = (s, m)) :
    recycleLoop L (s, m) = (s, m) := by
  induction L with
  | nil => rfl
  | cons b rest ih =>
    have hfold : recycleLoop (b :: rest) (s, m) =
        recycleLoop rest (recycleOnePage s m b) := rfl
    rw [hfold, h b (List.mem_cons_self b rest)]
    exact ih (fun c hc => h c (List.mem_cons_of_mem _ hc))

theorem deletedCount_countP (m : Machine) :
    deletedCount m = (List.range m.pages.length).countP
      (fun b => deadOrNewPage (m.getPage b)) := by
  rw [show deletedCount m = pageSum
    (fun p => if deadOrNewPage p = true then 1 else 0) m from by
      simp [deletedCount, deadOrNewPage]]
  rw [pageSum_eq_range, countP_eq_sum_ind]

theorem deletedCount_congr (m m' : Machine)
    (hlen : m'.pages.length = m.pages.length)
    (h : ∀ b, deadOrNewPage (m'.getPage b) = deadOrNewPage (m.getPage b)) :
    deletedCount m' = deletedCount m := by
  rw [deletedCount_countP, deletedCount_countP, hlen]
  exact List.countP_congr (fun x hx => by rw [h x])

theorem downlinkCount_le (m m' : Machine) (blk : Nat)
    (hlen : m'.pages.length = m.pages.length)
    (h : ∀ b, (if (m'.getPage b).isLeaf then 0
        else (m'.getPage b).tuples.countP
          (fun u => decide (u.t_tid.block = blk))) ≤
      (if (m.getPage b).isLeaf then 0
        else (m.getPage b).tuples.countP
          (fun u => decide (u.t_tid.block = blk)))) :
    downlinkCount m' blk ≤ downlinkCount m blk := by
  simp only [downlinkCount]
  rw [pageSum_eq_range, pageSum_eq_range, hlen]
  apply List.sum_le_sum
  intro i _
  exact h i

theorem passedBlocks_nil (msc : Machine) (b : Nat) :
    passedBlocks msc [] b = [] := by
  simp [passedBlocks, blockset_get]

/-- Everything one bulk-delete pass guarantees, phrased over named
intermediate results: the returned pages_deleted equals the number of
dead pages left behind; with nothing to remove the tuples_removed
total is untouched; and the machine it leaves behind has nothing left
for the callback, no mid-split markers, bounded NSNs, unique
downlinks, and is reclaim-stable — while a pass over an already
stable machine deletes no page. -/
theorem gistvacuumscan_run_aux (s : GistBulkDeleteResult)
    (f : ItemPointer → Bool) (m : Machine)
    (ssc : GistBulkDeleteResult) (tot : Nat) (msc mref : Machine)
    (r1 : GistBulkDeleteResult) (r2 : Machine)
    (hw : m.needsWal = true)
    (hF : ∀ b, (m.getPage b).followRight = false)
    (hN : ∀ b, (m.getPage b).nsn ≤ m.insertPos)
    (hU : UniqueDownlinks m)
    (hmi : s.internalPagesMap = [])
    (hme : s.emptyLeafPagesMap = [])
    (hVs : vacuumScanLoop (some f) m.insertPos (m.pages.length + 1)
      (List.range m.pages.length)
      ({ s with stats := { s.stats with
          estimated_count := false, num_index_tuples := 0,
          pages_deleted := 0 } }, 0, m) =
        (ssc, tot, msc))
    (hmref : mref = if tot > 0 then { msc with fsmVacuumed := true }
      else msc)
    (hr : gistvacuum_recycle_pages ssc mref = (r1, r2)) :
    (r1.stats.pages_deleted = deletedCount r2) ∧
    ((∀ x, visitRemoved (some f) (m.getPage x) = 0) →
      r1.stats.tuples_removed = s.stats.tuples_removed) ∧
    (∀ x, visitRemoved (some f) (r2.getPage x) = 0) ∧
    (∀ b, (r2.getPage b).followRight = false) ∧
    (∀ b, (r2.getPage b).nsn ≤ r2.insertPos) ∧
    UniqueDownlinks r2 ∧
    (r2.needsWal = true) ∧
    RecycleStableAll r2 ∧
    (((∀ x, visitRemoved (some f) (m.getPage x) = 0) ∧
        RecycleStableAll m) →
      deletedCount r2 = deletedCount m) := by
  have hsc := vacuumScanLoop_spec (some f) m.insertPos m.pages.length
    (List.range m.pages.length)
    { s with stats := { s.stats with
        estimated_count := false, num_index_tuples := 0,
        pages_deleted := 0 } } 0 m hF hN
  rw [hVs] at hsc
  obtain ⟨g1', g2', g3', g4', g5', g6', g7', g8', g9', g10', g11', g12',
    g13', g14', g15'⟩ := hsc
  have g1 : msc.pages.length = m.pages.length := g1'
  have g2 : msc.needsWal = m.needsWal := g2'
  have g3 : msc.nextXid = m.nextXid := g3'
  have g4 : m.insertPos ≤ msc.insertPos := g4'
  have g5 : ∀ x, ((msc.getPage x).isNew = (m.getPage x).isNew) ∧
      ((msc.getPage x).isDeleted = (m.getPage x).isDeleted) ∧
      ((msc.getPage x).isLeaf = (m.getPage x).isLeaf) ∧
      ((msc.getPage x).followRight = (m.getPage x).followRight) ∧
      ((msc.getPage x).nsn = (m.getPage x).nsn) ∧
      ((msc.getPage x).rightlink = (m.getPage x).rightlink) := g5'
  have g6 : ∀ x, (msc.getPage x).tuples =
      if x ∈ List.range m.pages.length ∧ liveLeaf (m.getPage x) = true then
        scanTuples (some f) (m.getPage x).tuples
      else (m.getPage x).tuples := g6'
  have g7 : ssc.stats.pages_deleted = 0 +
      (List.range m.pages.length).countP
        (fun x => deadOrNewPage (m.getPage x)) := g7'
  have g8 : (∀ x, visitRemoved (some f) (m.getPage x) = 0) →
      ssc.stats.tuples_removed = s.stats.tuples_removed := g8'
  have g9 : ∀ x, x ∈ ssc.internalPagesMap ↔
      x ∈ s.internalPagesMap ∨
        (x ∈ List.range m.pages.length ∧
          liveInternal (m.getPage x) = true) := g9'
  have g10 : ∀ x, x ∈ ssc.emptyLeafPagesMap ↔
      x ∈ s.emptyLeafPagesMap ∨
        (x ∈ List.range m.pages.length ∧ liveLeaf (m.getPage x) = true ∧
          (scanTuples (some f) (m.getPage x).tuples).length = 0) := g10'
  have g11 : ssc.internalPagesMap.Pairwise (· < ·) :=
    g11' (by
      rw [show ({ s with stats := { s.stats with
          estimated_count := false, num_index_tuples := 0,
          pages_deleted := 0 } } :
          GistBulkDeleteResult).internalPagesMap = ([] : BlockSet) from hmi]
      exact List.Pairwise.nil)
  -- the free-space-map flag does not change any page
  have hrP : ∀ x, mref.getPage x = msc.getPage x := by
    intro x
    rw [hmref]
    by_cases h : tot > 0
    · rw [if_pos h]
      rfl
    · rw [if_neg h]
  have hrLen : mref.pages.length = msc.pages.length := by
    rw [hmref]
    by_cases h : tot > 0
    · rw [if_pos h]
    · rw [if_neg h]
  have hrWal : mref.needsWal = msc.needsWal := by
    rw [hmref]
    by_cases h : tot > 0
    · rw [if_pos h]
    · rw [if_neg h]
  have hrPos : mref.insertPos = msc.insertPos := by
    rw [hmref]
    by_cases h : tot > 0
    · rw [if_pos h]
    · rw [if_neg h]
  -- pointwise field bridges from the reclaim entry machine to m
  have hNew : ∀ x, (mref.getPage x).isNew = (m.getPage x).isNew :=
    fun x => by rw [hrP x]; exact (g5 x).1
  have hDel : ∀ x, (mref.getPage x).isDeleted = (m.getPage x).isDeleted :=
    fun x => by rw [hrP x]; exact (g5 x).2.1
  have hLeaf : ∀ x, (mref.getPage x).isLeaf = (m.getPage x).isLeaf :=
    fun x => by rw [hrP x]; exact (g5 x).2.2.1
  have hFr : ∀ x, (mref.getPage x).followRight =
      (m.getPage x).followRight :=
    fun x => by rw [hrP x]; exact (g5 x).2.2.2.1
  have hNsn : ∀ x, (mref.getPage x).nsn = (m.getPage x).nsn :=
    fun x => by rw [hrP x]; exact (g5 x).2.2.2.2.1
  have hTup : ∀ x, (mref.getPage x).tuples =
      if x ∈ List.range m.pages.length ∧ liveLeaf (m.getPage x) = true then
        scanTuples (some f) (m.getPage x).tuples
      else (m.getPage x).tuples :=
    fun x => by rw [hrP x]; exact g6 x
  have hLL : ∀ x, liveLeaf (mref.getPage x) = liveLeaf (m.getPage x) :=
    fun x => by simp [liveLeaf, hNew x, hDel x, hLeaf x]
  have hLI : ∀ x, liveInternal (mref.getPage x) =
      liveInternal (m.getPage x) :=
    fun x => by simp [liveInternal, hNew x, hDel x, hLeaf x]
  have hDoN : ∀ x, deadOrNewPage (mref.getPage x) =
      deadOrNewPage (m.getPage x) :=
    fun x => by simp [deadOrNewPage, hNew x, hDel x]
  have hLenm : mref.pages.length = m.pages.length := by rw [hrLen, g1]
  -- what a live empty leaf of the post-scan machine is
  have hLEL : ∀ x, liveEmptyLeaf (mref.getPage x) = true ↔
      (x ∈ List.range m.pages.length ∧ liveLeaf (m.getPage x) = true ∧
        (scanTuples (some f) (m.getPage x).tuples).length = 0) := by
    intro x
    constructor
    · intro h
      obtain ⟨hn, hd, hl, ht⟩ := liveEmptyLeaf_elim _ h
      have hllm : liveLeaf (m.getPage x) = true := by
        rw [← hLL x]
        simp [liveLeaf, hn, hd, hl]
      have hxr : x ∈ List.range m.pages.length :=
        List.mem_range.mpr (liveLeaf_lt_length m x hllm)
      refine ⟨hxr, hllm, ?_⟩
      have hmt := hTup x
      rw [if_pos (And.intro hxr hllm)] at hmt
      rw [← hmt, ht]
      rfl
    · rintro ⟨hxr, hll, hlen⟩
      have hmt := hTup x
      rw [if_pos (And.intro hxr hll)] at hmt
      simp [liveEmptyLeaf, hLL x, hll, hmt, hlen]
  have hem : ∀ x, blockset_get x ssc.emptyLeafPagesMap = true ↔
      liveEmptyLeaf (mref.getPage x) = true := by
    intro x
    rw [blockset_get_iff, g10 x, hLEL x, hme]
    simp
  have hemB : ∀ x, blockset_get x ssc.emptyLeafPagesMap =
      liveEmptyLeaf (mref.getPage x) := by
    intro x
    rcases hx : liveEmptyLeaf (mref.getPage x) with _ | _
    · apply Bool.eq_false_iff.mpr
      intro hc
      rw [(hem x).mp hc] at hx
      simp at hx
    · exact (hem x).mpr hx
  have hFref : ∀ y, (mref.getPage y).followRight = false :=
    fun y => by rw [hFr y]; exact hF y
  have hUref : UniqueDownlinks mref := by
    intro blk
    refine le_trans (downlinkCount_le m mref blk hLenm ?_) (hU blk)
    intro b
    by_cases hbl : (m.getPage b).isLeaf = true
    · rw [if_pos (show (mref.getPage b).isLeaf = true from by
        rw [hLeaf b]; exact hbl), if_pos hbl]
    · have hbf : (m.getPage b).isLeaf = false := by
        revert hbl
        rcases (m.getPage b).isLeaf <;> simp
      have hllb : liveLeaf (m.getPage b) = false := by
        simp [liveLeaf, hbf]
      have htb : (mref.getPage b).tuples = (m.getPage b).tuples := by
        rw [hTup b, if_neg]
        rintro ⟨_, hc⟩
        rw [hllb] at hc
        cases hc
      rw [if_neg (show ¬(mref.getPage b).isLeaf = true from by
          rw [hLeaf b, hbf]; simp),
        if_neg (show ¬(m.getPage b).isLeaf = true from by
          rw [hbf]; simp), htb]
  -- the recorded internal blocks
  have hiM : ∀ x, x ∈ ssc.internalPagesMap ↔
      (x ∈ List.range m.pages.length ∧
        liveInternal (m.getPage x) = true) := by
    intro x
    rw [g9 x, hmi]
    simp
  have hiMnd : ssc.internalPagesMap.Nodup := nodup_of_sorted _ g11
  have hiMint : ∀ b ∈ ssc.internalPagesMap,
      liveInternal (mref.getPage b) = true := by
    intro b hb
    rw [hLI b]
    exact ((hiM b).mp hb).2
  have hQall : ∀ x, liveInternal (mref.getPage x) = true →
      x ∈ ssc.internalPagesMap := by
    intro x hx
    rw [hLI x] at hx
    exact (hiM x).mpr ⟨List.mem_range.mpr (liveInternal_lt_length m x hx),
      hx⟩
  -- the invariant at the end of the reclaim pass
  have hinv : RecInv mref ssc.emptyLeafPagesMap ssc ssc.internalPagesMap
      r1 r2 := by
    by_cases he : ssc.emptyLeafPagesMap = []
    · have hrec : gistvacuum_recycle_pages ssc mref = (ssc, mref) := by
        simp only [gistvacuum_recycle_pages]
        rw [if_pos he]
      have hpr : (r1, r2) = (ssc, mref) := by rw [← hr, hrec]
      have hr1 : r1 = ssc := congrArg Prod.fst hpr
      have hr2 : r2 = mref := congrArg Prod.snd hpr
      rw [hr1, hr2]
      refine ⟨rfl, rfl, rfl, Nat.le_refl _, fun x => Or.inl rfl, ?_, rfl,
        rfl, rfl, rfl, rfl, rfl, rfl, rfl⟩
      intro x hxQ hxint
      obtain ⟨hn1, hd1, hl1⟩ := liveInternal_elim _ hxint
      refine ⟨hn1, hd1, hl1, rfl, rfl, ?_⟩
      rw [show passedBlocks mref ssc.emptyLeafPagesMap x =
          passedBlocks mref [] x from by rw [he], passedBlocks_nil]
      exact (List.filter_eq_self.mpr (fun c _ => by simp)).symm
    · have hbase : RecInv mref ssc.emptyLeafPagesMap ssc [] ssc mref :=
        ⟨rfl, rfl, rfl, Nat.le_refl _, fun x => Or.inl rfl,
         fun x hx => by simp at hx, rfl,
         rfl, rfl, rfl, rfl, rfl, rfl, rfl⟩
      have hinv0 := recycleLoop_inv mref ssc hFref hUref hem
        ssc.internalPagesMap [] (by simpa using hiMnd) hiMint ssc mref
        hbase
      have hrw : recycleLoop ssc.internalPagesMap (ssc, mref) =
          (r1, r2) := by
        rw [← hr]
        simp only [gistvacuum_recycle_pages]
        rw [if_neg he]
      rw [hrw] at hinv0
      exact hinv0
  obtain ⟨w1, w2, w3, w4, w5, w6, w7, w8⟩ := hinv
  have hdelref : deletedCount mref = deletedCount m :=
    deletedCount_congr m mref hLenm hDoN
  have hsscpd : ssc.stats.pages_deleted = deletedCount m := by
    rw [g7, deletedCount_countP]
    omega
  refine ⟨?_, ?_, ?_, ?_, ?_, ?_, ?_, ?_, ?_⟩
  · -- pages_deleted equals the dead page count afterwards
    rw [hsscpd, hdelref] at w7
    omega
  · -- nothing removed: tuples_removed passes through the reclaim pass
    intro hvis
    have h1 : r1.stats.tuples_removed = ssc.stats.tuples_removed :=
      w8.2.2.2.1
    rw [h1, g8 hvis]
  · -- the machine left behind has nothing for the callback
    intro x
    rcases w5 x with hx | ⟨hxQ, hxint⟩ | ⟨hle, hdf, _⟩
    · rw [hx]
      by_cases hll : liveLeaf (m.getPage x) = true
      · have hxr : x ∈ List.range m.pages.length :=
          List.mem_range.mpr (liveLeaf_lt_length m x hll)
        apply visitRemoved_scanned (some f) _ (m.getPage x).tuples
        rw [hTup x, if_pos (And.intro hxr hll)]
      · apply visitRemoved_not_liveLeaf
        rw [hLL x]
        revert hll
        rcases liveLeaf (m.getPage x) <;> simp
    · apply visitRemoved_not_liveLeaf
      obtain ⟨_, _, hl3, _, _, _⟩ := w6 x hxQ hxint
      simp [liveLeaf, hl3]
    · apply visitRemoved_not_liveLeaf
      obtain ⟨xid, lsn, heq⟩ := hdf
      rw [heq]
      simp [liveLeaf]
  · -- no mid-split marker survives
    intro b
    rcases w5 b with hx | ⟨hxQ, hxint⟩ | ⟨hle, hdf, _⟩
    · rw [hx]
      exact hFref b
    · obtain ⟨_, _, _, h4, _, _⟩ := w6 b hxQ hxint
      rw [h4]
      exact hFref b
    · obtain ⟨xid, lsn, heq⟩ := hdf
      rw [heq]
      exact hFref b
  · -- NSNs stay below the insert position
    intro b
    have hpos : mref.insertPos ≤ r2.insertPos := w4
    have hbound : (mref.getPage b).nsn ≤ r2.insertPos := by
      calc (mref.getPage b).nsn = (m.getPage b).nsn := hNsn b
        _ ≤ m.insertPos := hN b
        _ ≤ msc.insertPos := g4
        _ = mref.insertPos := hrPos.symm
        _ ≤ r2.insertPos := hpos
    rcases w5 b with hx | ⟨hxQ, hxint⟩ | ⟨hle, hdf, _⟩
    · rw [hx]
      exact hbound
    · obtain ⟨_, _, _, _, h5, _⟩ := w6 b hxQ hxint
      rw [h5]
      exact hbound
    · obtain ⟨xid, lsn, heq⟩ := hdf
      rw [heq]
      exact hbound
  · -- downlinks stay unique
    intro blk
    refine le_trans (downlinkCount_le mref r2 blk (by rw [w1]) ?_)
      (hUref blk)
    intro b
    rcases w5 b with hx | ⟨hxQ, hxint⟩ | ⟨hle, hdf, _⟩
    · rw [hx]
    · obtain ⟨_, _, h3, _, _, h6⟩ := w6 b hxQ hxint
      obtain ⟨_, _, hl0⟩ := liveInternal_elim _ hxint
      rw [if_neg (show ¬(r2.getPage b).isLeaf = true from by
          rw [h3]; simp),
        if_neg (show ¬(mref.getPage b).isLeaf = true from by
          rw [hl0]; simp)]
      have hcnt : ∀ (mm : Machine),
          (mm.getPage b).tuples.countP
            (fun u => decide (u.t_tid.block = blk)) =
          ((mm.getPage b).tuples.map (fun u => u.t_tid.block)).countP
            (fun c => decide (c = blk)) := by
        intro mm
        rw [List.countP_map]
        rfl
      rw [hcnt r2, hcnt mref, h6]
      exact List.Sublist.countP_le _ (List.filter_sublist _)
    · obtain ⟨hn0, hd0, hl0, ht0⟩ := liveEmptyLeaf_elim _ hle
      obtain ⟨xid, lsn, heq⟩ := hdf
      rw [if_pos (show (r2.getPage b).isLeaf = true from by
          rw [heq]; exact hl0),
        if_pos (show (mref.getPage b).isLeaf = true from hl0)]
  · -- still WAL-logged
    rw [w2, hrWal, g2]
    exact hw
  · -- the machine left behind is reclaim-stable
    intro b hblive
    have hbmref : liveInternal (mref.getPage b) = true := by
      rcases w5 b with hx | ⟨hxQ, hxint⟩ | ⟨hle, hdf, _⟩
      · rw [← hx]
        exact hblive
      · exact hxint
      · exfalso
        obtain ⟨xid, lsn, heq⟩ := hdf
        have hdel : (r2.getPage b).isDeleted = true := by
          rw [heq]
        simp [liveInternal, hdel] at hblive
    have hbQ : b ∈ ssc.internalPagesMap := hQall b hbmref
    obtain ⟨hbn, hbd, hbl⟩ := liveInternal_elim _ hbmref
    have hblt : b < mref.pages.length :=
      liveInternal_lt_length mref b hbmref
    obtain ⟨e1, e2, e3, e4, e5, e6⟩ := w6 b hbQ hbmref
    have hndB : ((mref.getPage b).tuples.map
        (fun u => u.t_tid.block)).Nodup :=
      parent_blocks_nodup mref hUref b hblt hbl
    -- a child slot of b that escaped b's own unlinks is untouched
    have hchildsame : ∀ c,
        c ∈ (mref.getPage b).tuples.map (fun u => u.t_tid.block) →
        c ∉ passedBlocks mref ssc.emptyLeafPagesMap b →
        (r2.getPage c = mref.getPage c) ∨
          (liveInternal (mref.getPage c) = true ∧
            (r2.getPage c).isLeaf = false) := by
      intro c hcB hcP
      rcases w5 c with hx | ⟨hxQ, hxint⟩ | ⟨hle2, hdf2, q, hqQ, hqint,
        hqmem, hqpass⟩
      · exact Or.inl hx
      · exact Or.inr ⟨hxint, (w6 c hxQ hxint).2.2.1⟩
      · exfalso
        by_cases hqb : q = b
        · rw [hqb] at hqpass
          exact hcP hqpass
        · exact downlink_unique mref hUref q b c
            (liveInternal_lt_length mref q hqint) hblt hqb
            (liveInternal_elim _ hqint).2.2 hbl hqmem hcB
    intro pr hpr
    rw [stageChildren_eq_take] at hpr
    simp only [List.nil_append, List.length_nil, Nat.sub_zero] at hpr
    have hc : pr.1 ∈ ((emptyChildren (liveEmptyBlocks r2)
        (r2.getPage b).tuples 1).take
          (PageGetMaxOffsetNumber (r2.getPage b) - 1)).map Prod.fst :=
      List.mem_map_of_mem Prod.fst hpr
    rw [List.map_take, emptyChildren_map_fst] at hc
    -- translate the run-2 staging prefix to the run-1 quantities
    have hblocks : (r2.getPage b).tuples.map (fun u => u.t_tid.block) =
        ((mref.getPage b).tuples.map (fun u => u.t_tid.block)).filter
          (fun c => decide
            (c ∉ passedBlocks mref ssc.emptyLeafPagesMap b)) := e6
    have hfilt2 : ((r2.getPage b).tuples.map
          (fun u => u.t_tid.block)).filter
        (fun c => blockset_get c (liveEmptyBlocks r2)) =
        (((mref.getPage b).tuples.map (fun u => u.t_tid.block)).filter
          (fun c => blockset_get c ssc.emptyLeafPagesMap)).filter
        (fun c => decide
          (c ∉ passedBlocks mref ssc.emptyLeafPagesMap b)) := by
      rw [hblocks, List.filter_filter, List.filter_filter]
      apply List.filter_congr
      intro c hcB
      by_cases hcP : c ∈ passedBlocks mref ssc.emptyLeafPagesMap b
      · rw [decide_eq_false (show
          ¬c ∉ passedBlocks mref ssc.emptyLeafPagesMap b from
            fun hcon => hcon hcP)]
        simp
      · rw [decide_eq_true hcP]
        simp only [Bool.and_true, Bool.true_and]
        rw [liveEmptyBlocks_get, hemB c]
        rcases hchildsame c hcB hcP with hx | ⟨hxint, hxleaf⟩
        · rw [hx]
        · have h1 : liveEmptyLeaf (mref.getPage c) = false := by
            obtain ⟨_, _, hl0⟩ := liveInternal_elim _ hxint
            simp [liveEmptyLeaf, liveLeaf, hl0]
          have h2 : liveEmptyLeaf (r2.getPage c) = false := by
            simp [liveEmptyLeaf, liveLeaf, hxleaf]
          rw [h1, h2]
    -- the number of slots left on b
    have hPsub : ∀ c, c ∈ passedBlocks mref ssc.emptyLeafPagesMap b →
        c ∈ (mref.getPage b).tuples.map (fun u => u.t_tid.block) := by
      intro c hcP
      have h1 := (List.mem_filter.mp hcP).1
      exact (List.mem_filter.mp (List.mem_of_mem_take h1)).1
    have hPnd : (passedBlocks mref ssc.emptyLeafPagesMap b).Nodup :=
      (((hndB.filter _).sublist (List.take_sublist _ _)).filter _)
    have hlenb : (r2.getPage b).tuples.length =
        (mref.getPage b).tuples.length -
          (passedBlocks mref ssc.emptyLeafPagesMap b).length := by
      have h1 : (r2.getPage b).tuples.length =
          (((mref.getPage b).tuples.map (fun u => u.t_tid.block)).filter
            (fun c => decide
              (c ∉ passedBlocks mref ssc.emptyLeafPagesMap b))).length := by
        rw [← hblocks, List.length_map]
      have h2 := length_filter_add_length_filter_not
        (fun c => decide (c ∈ passedBlocks mref ssc.emptyLeafPagesMap b))
        ((mref.getPage b).tuples.map (fun u => u.t_tid.block))
      have h3 := length_filter_mem
        ((mref.getPage b).tuples.map (fun u => u.t_tid.block))
        (passedBlocks mref ssc.emptyLeafPagesMap b) hndB hPnd hPsub
      have h4 : (((mref.getPage b).tuples.map
          (fun u => u.t_tid.block)).filter
            (fun c => decide
              (c ∉ passedBlocks mref ssc.emptyLeafPagesMap b))) =
          (((mref.getPage b).tuples.map (fun u => u.t_tid.block)).filter
            (fun c => !(decide
              (c ∈ passedBlocks mref ssc.emptyLeafPagesMap b)))) := by
        apply List.filter_congr
        intro c _
        rw [decide_not]
      rw [h1, h4]
      rw [List.length_map] at h2
      omega
    -- land in the run-1 prefix through the counting lemma
    have hmain := take_filter_not_mem
      (((mref.getPage b).tuples.map (fun u => u.t_tid.block)).filter
        (fun c => blockset_get c ssc.emptyLeafPagesMap))
      (PageGetMaxOffsetNumber (mref.getPage b) - 1)
      (fun c => decide ((mref.getPage b).nsn ≤ (mref.getPage c).nsn))
      (hndB.filter _)
    rw [hfilt2] at hc
    have hcP : pr.1 ∈ (((mref.getPage b).tuples.map
        (fun u => u.t_tid.block)).filter
          (fun c => blockset_get c ssc.emptyLeafPagesMap)).filter
        (fun c => decide
          (c ∉ passedBlocks mref ssc.emptyLeafPagesMap b)) :=
      List.mem_of_mem_take hc
    have hcEC : pr.1 ∈ ((mref.getPage b).tuples.map
        (fun u => u.t_tid.block)).filter
          (fun c => blockset_get c ssc.emptyLeafPagesMap) :=
      (List.mem_filter.mp hcP).1
    have hcnotP : pr.1 ∉ passedBlocks mref ssc.emptyLeafPagesMap b :=
      of_decide_eq_true (List.mem_filter.mp hcP).2
    rw [show PageGetMaxOffsetNumber (r2.getPage b) - 1 =
        (PageGetMaxOffsetNumber (mref.getPage b) - 1) -
          (passedBlocks mref ssc.emptyLeafPagesMap b).length from by
      rw [show PageGetMaxOffsetNumber (r2.getPage b) =
          (r2.getPage b).tuples.length from rfl, hlenb,
        show PageGetMaxOffsetNumber (mref.getPage b) =
          (mref.getPage b).tuples.length from rfl]
      omega] at hc
    have hctake := hmain pr.1 hc
    have hqfail : decide ((mref.getPage b).nsn ≤
        (mref.getPage pr.1).nsn) = false := by
      have h1 := (List.mem_filter.mp hctake).2
      simp only [Bool.not_eq_true'] at h1
      exact h1
    have hgtm : (mref.getPage pr.1).nsn < (mref.getPage b).nsn := by
      have := of_decide_eq_false hqfail
      omega
    -- the failed child was untouched by the reclaim pass
    have hcsame : r2.getPage pr.1 = mref.getPage pr.1 := by
      rcases hchildsame pr.1 (List.mem_filter.mp hcEC).1 hcnotP with
        hx | ⟨hxint, _⟩
      · exact hx
      · exfalso
        have hleC : liveEmptyLeaf (mref.getPage pr.1) = true := by
          rw [← hemB pr.1]
          exact (List.mem_filter.mp hcEC).2
        obtain ⟨_, _, hl1, _⟩ := liveEmptyLeaf_elim _ hleC
        obtain ⟨_, _, hl2⟩ := liveInternal_elim _ hxint
        rw [hl1] at hl2
        cases hl2
    have hgt2 : GistPageGetNSN (r2.getPage b) >
        GistPageGetNSN (r2.getPage pr.1) := by
      simp only [GistPageGetNSN]
      rw [e5, hcsame]
      exact hgtm
    simp [recheckPass, hgt2]
  · -- a pass over a stable machine deletes nothing
    rintro ⟨hvis0, hstab⟩
    have htupid : ∀ x, (mref.getPage x).tuples = (m.getPage x).tuples := by
      intro x
      rw [hTup x]
      split
      next hcond =>
        apply scanTuples_of_countP_zero
        have h0 := hvis0 x
        simp only [visitRemoved] at h0
        rw [if_pos hcond.2] at h0
        exact h0
      next => rfl
    have hlee : ∀ c, liveEmptyLeaf (mref.getPage c) =
        liveEmptyLeaf (m.getPage c) := by
      intro c
      simp [liveEmptyLeaf, liveLeaf, hNew c, hDel c, hLeaf c, htupid c]
    have hmaxeq : ∀ c, PageGetMaxOffsetNumber (mref.getPage c) =
        PageGetMaxOffsetNumber (m.getPage c) := by
      intro c
      simp [PageGetMaxOffsetNumber, htupid c]
    have hrcp : ∀ b c, recheckPass mref b c = recheckPass m b c := by
      intro b c
      simp only [recheckPass, GistPageIsLeaf, GistFollowRight,
        GistPageGetNSN, hmaxeq c, hLeaf c, hFr c, hNsn c, hNsn b]
    have hnoop : ∀ b ∈ ssc.internalPagesMap,
        recycleOnePage ssc mref b = (ssc, mref) := by
      intro b hb
      have hbint : liveInternal (m.getPage b) = true := ((hiM b).mp hb).2
      obtain ⟨hbn, hbd, hbl⟩ := liveInternal_elim _ hbint
      simp only [recycleOnePage]
      rw [if_neg (by
        simp [PageIsNew, GistPageIsDeleted, GistPageIsLeaf, hNew b,
          hDel b, hLeaf b, hbn, hbd, hbl])]
      have hstg : stageChildren ssc.emptyLeafPagesMap
          (mref.getPage b).tuples
          (PageGetMaxOffsetNumber (mref.getPage b)) FirstOffsetNumber [] =
          stageChildren (liveEmptyBlocks m) (m.getPage b).tuples
            (PageGetMaxOffsetNumber (m.getPage b)) FirstOffsetNumber [] := by
        rw [htupid b, hmaxeq b]
        apply stageChildren_congr
        intro u _
        rw [hemB, liveEmptyBlocks_get, hlee]
      rw [hstg]
      split
      next hnz =>
        apply deleteStaged_allfail
        intro pr hpr
        rw [hrcp b pr.1]
        exact hstab b hbint pr hpr
      next => rfl
    have hrw2 : gistvacuum_recycle_pages ssc mref = (ssc, mref) := by
      by_cases he : ssc.emptyLeafPagesMap = []
      · simp only [gistvacuum_recycle_pages]
        rw [if_pos he]
      · simp only [gistvacuum_recycle_pages]
        rw [if_neg he]
        exact recycleLoop_noop _ _ _ hnoop
    have hr2eq : r2 = mref := by
      have heq := hr
      rw [hrw2] at heq
      exact (congrArg Prod.snd heq).symm
    rw [hr2eq]
    exact hdelref

/-- For a WAL-logged relation, one gistvacuumscan call decomposes into
the scan loop, the free-space-map step and the reclaim pass, followed
by freeing the block sets and filling the final statistics. -/
theorem gistvacuumscan_unfold (info : IndexVacuumInfo)
    (s ssc : GistBulkDeleteResult) (cb : Option (ItemPointer → Bool))
    (m msc mref : Machine) (tot : Nat)
    (r1 : GistBulkDeleteResult) (r2 : Machine)
    (hw : m.needsWal = true)
    (hVs : vacuumScanLoop cb m.insertPos (m.pages.length + 1)
      (List.range m.pages.length)
      ({ s with stats := { s.stats with
          estimated_count := false, num_index_tuples := 0,
          pages_deleted := 0 } }, 0, m) = (ssc, tot, msc))
    (hmref : mref = if tot > 0 then { msc with fsmVacuumed := true }
      else msc)
    (hr : gistvacuum_recycle_pages ssc mref = (r1, r2)) :
    gistvacuumscan info s cb m =
      ({ r1 with
          internalPagesMap := [], emptyLeafPagesMap := [],
          stats := { r1.stats with
            num_pages := m.pages.length, pages_free := tot } }, r2) := by
  have hsnm : (if m.needsWal then (GetInsertRecPtr m, m)
      else gistGetFakeLSN m) = (m.insertPos, m) := by
    rw [hw]
    rfl
  simp only [gistvacuumscan]
  rw [hsnm]
  dsimp only
  rw [hVs]
  dsimp only
  rw [← hmref, hr]

/-- C9: running bulk-delete twice consecutively on the same WAL-logged
well-formed index (no mid-split pages, split sequence numbers at or
below the current insert position, no block referenced by two
downlinks — i.e. no concurrent activity) with the same deletion
callback yields zero tuples removed on the second run (the cumulative
tuples_removed total does not move), and the second run's deleted-page
total equals the first run's. -/
theorem c9_bulkdelete_twice_idempotent (info : IndexVacuumInfo)
    (f : ItemPointer → Bool) (m0 : Machine)
    (hw : m0.needsWal = true)
    (hF : NoFollowRight m0)
    (hN : NsnBound m0 m0.insertPos)
    (hU : UniqueDownlinks m0) :
    ((gistbulkdelete info
        (some (gistbulkdelete info none (some f) m0).1) (some f)
        (gistbulkdelete info none (some f) m0).2).1.stats.tuples_removed =
      (gistbulkdelete info none (some f) m0).1.stats.tuples_removed) ∧
    ((gistbulkdelete info
        (some (gistbulkdelete info none (some f) m0).1) (some f)
        (gistbulkdelete info none (some f) m0).2).1.stats.pages_deleted =
      (gistbulkdelete info none (some f) m0).1.stats.pages_deleted) := by
  have hF0 : ∀ b, (m0.getPage b).followRight = false :=
    (noFollowRight_iff m0).mp hF
  have hN0 : ∀ b, (m0.getPage b).nsn ≤ m0.insertPos :=
    (nsnBound_iff m0 m0.insertPos).mp hN
  rcases hVs1 : vacuumScanLoop (some f) m0.insertPos (m0.pages.length + 1)
      (List.range m0.pages.length)
      ({ GistBulkDeleteResult.zero with
          stats := { GistBulkDeleteResult.zero.stats with
            estimated_count := false, num_index_tuples := 0,
            pages_deleted := 0 } }, 0, m0) with ⟨ssc1, tot1, msc1⟩
  rcases hr1 : gistvacuum_recycle_pages ssc1
      (if tot1 > 0 then { msc1 with fsmVacuumed := true } else msc1) with
    ⟨r11, r12⟩
  obtain ⟨a1, a2, a3, a4, a5, a6, a7, a8, a9⟩ :=
    gistvacuumscan_run_aux GistBulkDeleteResult.zero f m0 ssc1 tot1 msc1
      (if tot1 > 0 then { msc1 with fsmVacuumed := true } else msc1)
      r11 r12 hw hF0 hN0 hU rfl rfl hVs1 rfl hr1
  have hgv1 : gistbulkdelete info none (some f) m0 =
      ({ r11 with
          internalPagesMap := [], emptyLeafPagesMap := [],
          stats := { r11.stats with
            num_pages := m0.pages.length, pages_free := tot1 } }, r12) :=
    gistvacuumscan_unfold info GistBulkDeleteResult.zero ssc1 (some f) m0
      msc1 (if tot1 > 0 then { msc1 with fsmVacuumed := true } else msc1)
      tot1 r11 r12 hw hVs1 rfl hr1
  rcases hbd1 : gistbulkdelete info none (some f) m0 with ⟨S1, M1⟩
  have hpair : (S1, M1) =
      ({ r11 with
          internalPagesMap := [], emptyLeafPagesMap := [],
          stats := { r11.stats with
            num_pages := m0.pages.length, pages_free := tot1 } }, r12) :=
    hbd1.symm.trans hgv1
  have hS1 : S1 = { r11 with
      internalPagesMap := [], emptyLeafPagesMap := [],
      stats := { r11.stats with
        num_pages := m0.pages.length, pages_free := tot1 } } :=
    congrArg Prod.fst hpair
  have hM1 : M1 = r12 := congrArg Prod.snd hpair
  have hS1i : S1.internalPagesMap = [] := by rw [hS1]
  have hS1e : S1.emptyLeafPagesMap = [] := by rw [hS1]
  have hS1tr : S1.stats.tuples_removed = r11.stats.tuples_removed := by
    rw [hS1]
  have hS1pd : S1.stats.pages_deleted = r11.stats.pages_deleted := by
    rw [hS1]
  rcases hVs2 : vacuumScanLoop (some f) r12.insertPos
      (r12.pages.length + 1) (List.range r12.pages.length)
      ({ S1 with stats := { S1.stats with
          estimated_count := false, num_index_tuples := 0,
          pages_deleted := 0 } }, 0, r12) with ⟨ssc2, tot2, msc2⟩
  rcases hr2 : gistvacuum_recycle_pages ssc2
      (if tot2 > 0 then { msc2 with fsmVacuumed := true } else msc2) with
    ⟨r21, r22⟩
  obtain ⟨b1, b2, b3, b4, b5, b6, b7, b8, b9⟩ :=
    gistvacuumscan_run_aux S1 f r12 ssc2 tot2 msc2
      (if tot2 > 0 then { msc2 with fsmVacuumed := true } else msc2)
      r21 r22 a7 a4 a5 a6 hS1i hS1e hVs2 rfl hr2
  have hbd2 : gistbulkdelete info (some S1) (some f) r12 =
      ({ r21 with
          internalPagesMap := [], emptyLeafPagesMap := [],
          stats := { r21.stats with
            num_pages := r12.pages.length, pages_free := tot2 } }, r22) :=
    gistvacuumscan_unfold info S1 ssc2 (some f) r12 msc2
      (if tot2 > 0 then { msc2 with fsmVacuumed := true } else msc2)
      tot2 r21 r22 a7 hVs2 rfl hr2
  dsimp only
  rw [hM1, hbd2]
  dsimp only
  constructor
  · rw [b2 a3, hS1tr]
  · rw [hS1pd, a1, b1]
    exact b9 ⟨a3, a8⟩

theorem recycleMachine_uniqueDownlinks : UniqueDownlinks recycleMachine := by
  intro blk
  by_cases h1 : blk = 1
  · subst h1
    decide
  · by_cases h2 : blk = 2
    · subst h2
      decide
    · have h1' : ¬(1 = blk) := fun h => h1 h.symm
      have h2' : ¬(2 = blk) := fun h => h2 h.symm
      have h0 : downlinkCount recycleMachine blk = 0 := by
        simp [downlinkCount, pageSum, recycleMachine, sampleMachine,
          rootPage, emptyLeafPage, liveLeafPage, List.countP_cons, h1', h2']
      omega

/-- Closed instance of C9 on the three-page sample index: a WAL-logged
root with two children, an empty child leaf and a live leaf. -/
theorem c9_bulkdelete_twice_idempotent_witness :
    recycleMachine.needsWal = true ∧ NoFollowRight recycleMachine ∧
    NsnBound recycleMachine recycleMachine.insertPos ∧
    UniqueDownlinks recycleMachine ∧
    (((gistbulkdelete ⟨false, false, 0⟩
        (some (gistbulkdelete ⟨false, false, 0⟩ none
          (some (fun u => decide (u.block = 100))) recycleMachine).1)
        (some (fun u => decide (u.block = 100)))
        (gistbulkdelete ⟨false, false, 0⟩ none
          (some (fun u => decide (u.block = 100)))
          recycleMachine).2).1.stats.tuples_removed =
      (gistbulkdelete ⟨false, false, 0⟩ none
        (some (fun u => decide (u.block = 100)))
        recycleMachine).1.stats.tuples_removed) ∧
    ((gistbulkdelete ⟨false, false, 0⟩
        (some (gistbulkdelete ⟨false, false, 0⟩ none
          (some (fun u => decide (u.block = 100))) recycleMachine).1)
        (some (fun u => decide (u.block = 100)))
        (gistbulkdelete ⟨false, false, 0⟩ none
          (some (fun u => decide (u.block = 100)))
          recycleMachine).2).1.stats.pages_deleted =
      (gistbulkdelete ⟨false, false, 0⟩ none
        (some (fun u => decide (u.block = 100)))
        recycleMachine).1.stats.pages_deleted)) :=
  ⟨rfl, by unfold NoFollowRight; decide, by unfold NsnBound; decide,
   recycleMachine_uniqueDownlinks,
   c9_bulkdelete_twice_idempotent ⟨false, false, 0⟩
     (fun u => decide (u.block = 100)) recycleMachine rfl
     (by unfold NoFollowRight; decide) (by unfold NsnBound; decide)
     recycleMachine_uniqueDownlinks⟩

end GistVacuum
